import Mathlib

/-!
# uap-go: a verification development of `uaparser`

Shallow embedding of `src/uaparser/parser.go` and `src/uaparser/device.go`.

Modelling conventions
* A Go `string` is a `GoString`, a list of Unicode code points: the embedding covers the
  strings that are valid UTF-8, which is what the YAML loader produces for templates.
  `for _, r := range s` then visits the elements of the list and `WriteRune` appends one.
* Go `int` is the 64-bit two's complement integer: values are `Int`, `x++` is `intInc`,
  and the largest value is `maxInt`.
* A Go panic is the value `none` of an `Option` result.
* Code of the Go standard library (`unicode`, `strconv`, `strings`, `sort`, `regexp`) is
  not part of the repository: it is modelled from its documented behaviour, and the
  version-dependent parts (Unicode range tables, the sorting algorithm, the regular
  expression engine) are parameters collected in `Env` and `Regexp`.
* The loader reads a file, parses YAML and compiles regular expressions: these, and the
  pattern structs of the two categories whose files are absent, are the parameters
  collected in `LoadEnv`. The three goroutines of the loader run one after the other;
  a panic in any of them is a panic of the loader.
* The package variables `missesTreshold` and `matchIdxNotOk` are the state `Tuning`,
  which every constructor takes and returns.
-/

namespace Uaparser

/-! ## Strings and machine integers -/

/-- A Go string holding valid UTF-8, as the sequence of its code points. -/
abbrev GoString := List Char

/-- Largest value of a 64-bit Go `int` (`math.MaxInt64`). -/
def maxInt : Nat := 2 ^ 63 - 1

/-- Largest value of a `uint64`. -/
def maxUint64 : Nat := 2 ^ 64 - 1

/-- Two's complement wrap-around of an integer into the range of a 64-bit `int`. -/
def wrapInt (x : Int) : Int := (x + 2 ^ 63) % 2 ^ 64 - 2 ^ 63

/-- The Go statement `x++` on an `int`. -/
def intInc (x : Int) : Int := wrapInt (x + 1)

/-! ## Standard library: `unicode` -/

/-- The range tables of Go's `unicode` package that the program consults for code points
above Latin-1 (`unicode.Digit` and `unicode.White_Space`); they depend on the Unicode
version of the Go release, so they are parameters. -/
structure UnicodeTables where
  /-- The value of `isExcludingLatin(Digit, r)` for `r > MaxLatin1`. -/
  digit : Char → Bool
  /-- The value of `isExcludingLatin(White_Space, r)` for `r > MaxLatin1`. -/
  whiteSpace : Char → Bool

/-- The constant `unicode.MaxLatin1`. -/
def maxLatin1 : Nat := 0xFF

/-- The function `unicode.IsDigit`: below `MaxLatin1` exactly `'0'..'9'`, above it the
`Digit` table. -/
def unicodeIsDigit (U : UnicodeTables) (r : Char) : Bool :=
  if r.toNat ≤ maxLatin1 then
    decide ('0'.toNat ≤ r.toNat) && decide (r.toNat ≤ '9'.toNat)
  else U.digit r

/-- The function `unicode.IsSpace`: below `MaxLatin1` the eight listed code points, above it the
`White_Space` table. -/
def unicodeIsSpace (U : UnicodeTables) (r : Char) : Bool :=
  if r.toNat ≤ maxLatin1 then
    r.toNat = 0x09 || r.toNat = 0x0A || r.toNat = 0x0B || r.toNat = 0x0C || r.toNat = 0x0D
      || r.toNat = 0x20 || r.toNat = 0x85 || r.toNat = 0xA0
  else U.whiteSpace r

/-! ## Standard library: `strconv.Atoi` -/

/-- The `Err` field of a `*strconv.NumError`. -/
inductive NumErr where
  | ErrSyntax
  | ErrRange
deriving DecidableEq, Repr

/-- The byte test `'0' <= c && c <= '9'` of `strconv.ParseUint`; a code point above
ASCII is encoded by bytes that all fail it. -/
def isAsciiDigit (c : Char) : Bool :=
  decide ('0'.toNat ≤ c.toNat) && decide (c.toNat ≤ '9'.toNat)

/-- The digit loop of `strconv.ParseUint(s, 10, 64)`: a character that is not an ASCII
digit is a syntax error, an overflow of `uint64` is a range error with value
`maxUint64`; whichever comes first in the scan decides. -/
def parseUintLoop : GoString → Nat → Nat × Option NumErr
  | [], n => (n, none)
  | c :: cs, n =>
    if !isAsciiDigit c then (0, some NumErr.ErrSyntax)
    else if n ≥ maxUint64 / 10 + 1 then (maxUint64, some NumErr.ErrRange)
    else
      let n1 := n * 10 + (c.toNat - '0'.toNat)
      if n1 > maxUint64 then (maxUint64, some NumErr.ErrRange)
      else parseUintLoop cs n1

/-- The call `strconv.ParseUint(s, 10, 64)`. -/
def parseUint (s : GoString) : Nat × Option NumErr :=
  if s = [] then (0, some NumErr.ErrSyntax) else parseUintLoop s 0

/-- The part of `strconv.ParseInt` after the call of `ParseUint`, whose result is `r`:
a syntax error yields 0, a magnitude outside the `int` range yields the nearest bound
together with `ErrRange`. -/
def parseIntFinish (neg : Bool) (r : Nat × Option NumErr) : Int × Option NumErr :=
  if r.2 = some NumErr.ErrSyntax then (0, some NumErr.ErrSyntax)
  else if !neg && r.1 ≥ 2 ^ 63 then ((maxInt : Int), some NumErr.ErrRange)
  else if neg && r.1 > 2 ^ 63 then (-(2 ^ 63 : Int), some NumErr.ErrRange)
  else (if neg then -(r.1 : Int) else (r.1 : Int), none)

/-- The call `strconv.Atoi(s)`, that is `strconv.ParseInt(s, 10, 0)` converted to `int`: an
optional sign, then `ParseUint` on what follows it. -/
def strconvAtoi (s : GoString) : Int × Option NumErr :=
  match s with
  | [] => (0, some NumErr.ErrSyntax)
  | c :: rest =>
    let neg := c == '-'
    let body := if c == '+' || c == '-' then rest else s
    parseIntFinish neg (parseUint body)

/-! ## `allMatchesReplacement` (parser.go) -/

/-- The three local variables of `allMatchesReplacement`: the `output` buffer, the flag
`readingToken` and the `readToken` buffer. -/
structure ReplState where
  output : GoString
  readingToken : Bool
  readToken : GoString
deriving DecidableEq, Repr

/-- The closure `writeTokenValue` of `allMatchesReplacement`; `none` is `panic(err)`. -/
def writeTokenValue (captures : List GoString) (s : ReplState) : Option ReplState :=
  if !s.readingToken then some s
  else if s.readToken.length = 0 then some { s with output := s.output ++ ['$'] }
  else
    let r := strconvAtoi s.readToken
    let idx := r.1
    let err := r.2
    let indexOutOfRange : Bool :=
      (decide (err ≠ none) && decide (err ≠ some NumErr.ErrRange))
        || decide (idx ≤ 0) || decide (idx ≥ (captures.length : Int))
    if indexOutOfRange then
      some { s with output := s.output ++ ['$'] ++ s.readToken, readToken := [] }
    else if err ≠ none then none
    else
      match captures[idx.toNat]? with
      | none => none
      | some v => some { s with output := s.output ++ v, readToken := [] }

/-- One iteration of `for _, r := range pattern` in `allMatchesReplacement`. -/
def replStep (U : UnicodeTables) (captures : List GoString) (s : ReplState) (r : Char) :
    Option ReplState :=
  if !s.readingToken && r == '$' then some { s with readingToken := true }
  else if !s.readingToken then some { s with output := s.output ++ [r] }
  else if unicodeIsDigit U r then some { s with readToken := s.readToken ++ [r] }
  else
    match writeTokenValue captures s with
    | none => none
    | some s1 =>
      let s2 := { s1 with readingToken := (r == '$') }
      if !s2.readingToken then some { s2 with output := s2.output ++ [r] } else some s2

/-- The whole `for` loop of `allMatchesReplacement`, started in state `s`. -/
def replLoop (U : UnicodeTables) (captures : List GoString) :
    ReplState → GoString → Option ReplState
  | s, [] => some s
  | s, r :: rs =>
    match replStep U captures s r with
    | none => none
    | some s1 => replLoop U captures s1 rs

/-- The function `allMatchesReplacement(pattern, matches)` (the parameter `matches` is
named `captures` here, `matches` being a reserved word): the loop from the empty buffers,
a last `writeTokenValue()`, then `output.String()`. -/
def allMatchesReplacement (U : UnicodeTables) (pattern : GoString) (captures : List GoString) :
    Option GoString :=
  match replLoop U captures { output := [], readingToken := false, readToken := [] } pattern with
  | none => none
  | some s =>
    match writeTokenValue captures s with
    | none => none
    | some s1 => some s1.output

/-! ## Standard library: `strings.TrimSpace`, `regexp`, `sort.Sort` -/

/-- The call `strings.TrimSpace(s)`, that is `TrimRightFunc(TrimLeftFunc(s, unicode.IsSpace),
unicode.IsSpace)`. -/
def TrimSpace (U : UnicodeTables) (s : GoString) : GoString :=
  List.rdropWhile (unicodeIsSpace U) (List.dropWhile (unicodeIsSpace U) s)

/-- A compiled `*regexp.Regexp`, seen through the two methods the program calls. The
engine is a parameter; the two proof fields are what package `regexp` documents:
`FindStringSubmatch` returns nil when there is no match and otherwise one entry for the
whole match and one per capture group, and the length of a slice fits an `int`. -/
structure Regexp where
  FindStringSubmatch : GoString → List GoString
  NumSubexp : Nat
  submatch_length : ∀ line,
    FindStringSubmatch line = [] ∨ (FindStringSubmatch line).length = NumSubexp + 1
  numSubexp_lt : NumSubexp < maxInt

/-- The requirement `sort.Sort` puts on `Less`: a strict weak ordering. -/
structure StrictWeakOrder {α : Type} (less : α → α → Bool) : Prop where
  irrefl : ∀ a, less a a = false
  trans : ∀ a b c, less a b = true → less b c = true → less a c = true
  incomp_trans : ∀ a b c, less a b = false → less b c = false → less a c = false

/-- An implementation of `sort.Sort` on a slice whose `Less(i, j)` compares the elements
at `i` and `j` with `less`. The algorithm differs between Go releases; its documented
contract is that the data is rearranged (by `Swap`s, so it is a permutation) into an
order in which no later element is `Less` than an earlier one, and that the sort "is not
guaranteed to be stable". -/
structure SortImpl where
  sort : (α : Type) → (α → α → Bool) → List α → List α
  perm : ∀ (α : Type) (less : α → α → Bool) (l : List α), (sort α less l).Perm l
  sorted : ∀ (α : Type) (less : α → α → Bool) (l : List α), StrictWeakOrder less →
    (sort α less l).Pairwise (fun x y => less y x = false)

/-! ## device.go -/

/-- The struct `Device`. -/
structure Device where
  Family : GoString
deriving DecidableEq, Repr

/-- The struct `DevicePattern`. -/
structure DevicePattern where
  Regexp : Regexp
  Regex : GoString
  RegexFlag : GoString
  BrandReplacement : GoString
  DeviceReplacement : GoString
  ModelReplacement : GoString
  MatchesCount : Int

/-- The method `DevicePatternSorter.Less(i, j)`, on the two elements `a[i]` and `a[j]`. -/
def DevicePatternSorter.Less (x y : DevicePattern) : Bool :=
  decide (x.MatchesCount > y.MatchesCount)

/-- The method `(dvcPattern *DevicePattern).Match(line, dvc)`: the result is the record `*dvc` after
the call; `none` is a panic (of `allMatchesReplacement`, or the index `matches[1]` out of
range). -/
def DevicePattern.Match (U : UnicodeTables) (dvcPattern : DevicePattern) (line : GoString)
    (dvc : Device) : Option Device :=
  let captures := dvcPattern.Regexp.FindStringSubmatch line
  if captures.length = 0 then some dvc
  else
    let groupCount := dvcPattern.Regexp.NumSubexp
    let assigned : Option Device :=
      if dvcPattern.DeviceReplacement.length > 0 then
        match allMatchesReplacement U dvcPattern.DeviceReplacement captures with
        | none => none
        | some v => some { dvc with Family := v }
      else if groupCount ≥ 1 then
        match captures[1]? with
        | none => none
        | some v => some { dvc with Family := v }
      else some dvc
    match assigned with
    | none => none
    | some dvc1 => some { dvc1 with Family := TrimSpace U dvc1.Family }

/-! ## Records and patterns of the other two categories

The files that declare `UserAgent`, `Os`, `UserAgentPattern`, `OsPattern`, their `Match`
methods and their sorters are not part of the sources at hand. -/

/-- Modelled from the spec: the struct `UserAgent` (its file is absent): "family name
plus category-specific optional fields (major/minor/patch)". -/
structure UserAgent where
  Family : GoString
  Major : GoString
  Minor : GoString
  Patch : GoString
deriving DecidableEq, Repr

/-- Modelled from the spec: the struct `Os` (its file is absent): "family name plus
category-specific optional fields (major/minor/patch)". -/
structure Os where
  Family : GoString
  Major : GoString
  Minor : GoString
  Patch : GoString
deriving DecidableEq, Repr

/-- Modelled from the spec: the struct `UserAgentPattern` (its file is absent). The
fields `Regexp`, `Regex` and `MatchesCount` are the ones parser.go reads and writes; the
replacement templates ("up to three replacement templates") are kept as a list. -/
structure UserAgentPattern where
  Regexp : Regexp
  Regex : GoString
  Replacements : List GoString
  MatchesCount : Int

/-- Modelled from the spec: the struct `OsPattern` (its file is absent), as
`UserAgentPattern`. -/
structure OsPattern where
  Regexp : Regexp
  Regex : GoString
  Replacements : List GoString
  MatchesCount : Int

/-- Modelled from the spec: `UserAgentPatternSorter.Less` (its file is absent): the
catalog is sorted "descending by cumulative match count", as `DevicePatternSorter`. -/
def UserAgentPatternSorter.Less (x y : UserAgentPattern) : Bool :=
  decide (x.MatchesCount > y.MatchesCount)

/-- Modelled from the spec: `OsPatternSorter.Less` (its file is absent): the catalog is
sorted "descending by cumulative match count", as `DevicePatternSorter`. -/
def OsPatternSorter.Less (x y : OsPattern) : Bool :=
  decide (x.MatchesCount > y.MatchesCount)

/-- What the program takes from outside parser.go and device.go: the Unicode tables, the
implementation of `sort.Sort`, and the methods `UserAgentPattern.Match` and
`OsPattern.Match`, whose bodies are absent: each maps the pattern, the line and the
record before the call to the record after it. -/
structure Env where
  unicode : UnicodeTables
  sorter : SortImpl
  uaMatch : UserAgentPattern → GoString → UserAgent → UserAgent
  osMatch : OsPattern → GoString → Os → Os

/-! ## parser.go: types, constants and package variables -/

/-- The struct `Parser`. -/
structure Parser where
  UserAgentPatterns : List UserAgentPattern
  UserAgentMisses : Int
  OsPatterns : List OsPattern
  OsMisses : Int
  DevicePatterns : List DevicePattern
  DeviceMisses : Int
  Mode : Int

/-- The struct `Client`; a nil pointer is `none`. -/
structure Client where
  UserAgent : Option UserAgent
  Os : Option Os
  Device : Option Device
deriving DecidableEq, Repr

/-- The mode flag of the OS lookup, bit 0. -/
def EOsLookUpMode : Int := 1

/-- The mode flag of the user-agent lookup, bit 1. -/
def EUserAgentLookUpMode : Int := 2

/-- The mode flag of the device lookup, bit 2. -/
def EDeviceLookUpMode : Int := 4

/-- The least miss threshold `NewWithOptions` accepts. -/
def cMinMissesTreshold : Int := 100000

/-- The miss threshold `New` sets. -/
def CDefaultMissesTreshold : Int := 500000

/-- The acceptable match index `New` sets. -/
def CDefaultMatchIdxNotOk : Int := 20

/-- The constant `math.MaxInt32`. -/
def mathMaxInt32 : Int := 2 ^ 31 - 1

/-- The package variables `missesTreshold` and `matchIdxNotOk`. -/
structure Tuning where
  missesTreshold : Int
  matchIdxNotOk : Int
deriving DecidableEq, Repr

/-- The initial values of the package variables. -/
def Tuning.initial : Tuning := { missesTreshold := 500000, matchIdxNotOk := 20 }

/-- The bit pattern of a 64-bit `int`, as a natural number below `2 ^ 64`. -/
def toUint64 (x : Int) : Nat := (x % 2 ^ 64).toNat

/-- The Go expression `a & b` on `int`: bitwise AND of the two's complement patterns. -/
def intAnd (a b : Int) : Int := wrapInt (Nat.land (toUint64 a) (toUint64 b))

/-! ## parser.go: the three lookups -/

/-- The variables a lookup loop works on: the result record, `foundIdx`, `found`, and
the pattern slice of the parser. -/
structure Scan (ρ π : Type) where
  result : ρ
  foundIdx : Int
  found : Bool
  patterns : List π

/-- The loop `for i, uaPattern := range parser.UserAgentPatterns` of `ParseUserAgent`:
the first argument is the part of the slice still to visit, `i` the index of its head. -/
def ParseUserAgent.loop (E : Env) (line : GoString) :
    List UserAgentPattern → Nat → Scan UserAgent UserAgentPattern →
      Scan UserAgent UserAgentPattern
  | [], _, s => s
  | uaPattern :: rest, i, s =>
    let ua := E.uaMatch uaPattern line s.result
    if ua.Family.length > 0 then
      { result := ua, found := true, foundIdx := (i : Int),
        patterns := s.patterns.modify
          (fun q => { q with MatchesCount := intInc q.MatchesCount }) i }
    else ParseUserAgent.loop E line rest (i + 1) { s with result := ua }

/-- The part of `ParseUserAgent` up to the end of its loop: `ua := new(UserAgent)`,
`foundIdx := math.MaxInt32`, `found := false`, then the loop over the catalog. -/
def ParseUserAgent.scan (E : Env) (parser : Parser) (line : GoString) :
    Scan UserAgent UserAgentPattern :=
  ParseUserAgent.loop E line parser.UserAgentPatterns 0
    { result := { Family := [], Major := [], Minor := [], Patch := [] },
      foundIdx := mathMaxInt32, found := false, patterns := parser.UserAgentPatterns }

/-- The method `(parser *Parser).ParseUserAgent(line)`: the returned record and the parser after
the call. -/
def ParseUserAgent (E : Env) (T : Tuning) (parser : Parser) (line : GoString) :
    UserAgent × Parser :=
  let s := ParseUserAgent.scan E parser line
  let s1 := if !s.found then
      { s with foundIdx := -1, result := { s.result with Family := "Other".toList } }
    else s
  let misses := if s1.foundIdx > T.matchIdxNotOk then intInc parser.UserAgentMisses
    else parser.UserAgentMisses
  (s1.result, { parser with UserAgentPatterns := s1.patterns, UserAgentMisses := misses })

/-- The loop `for i, osPattern := range parser.OsPatterns` of `ParseOs`. -/
def ParseOs.loop (E : Env) (line : GoString) :
    List OsPattern → Nat → Scan Os OsPattern → Scan Os OsPattern
  | [], _, s => s
  | osPattern :: rest, i, s =>
    let os := E.osMatch osPattern line s.result
    if os.Family.length > 0 then
      { result := os, found := true, foundIdx := (i : Int),
        patterns := s.patterns.modify
          (fun q => { q with MatchesCount := intInc q.MatchesCount }) i }
    else ParseOs.loop E line rest (i + 1) { s with result := os }

/-- The part of `ParseOs` up to the end of its loop. -/
def ParseOs.scan (E : Env) (parser : Parser) (line : GoString) : Scan Os OsPattern :=
  ParseOs.loop E line parser.OsPatterns 0
    { result := { Family := [], Major := [], Minor := [], Patch := [] },
      foundIdx := mathMaxInt32, found := false, patterns := parser.OsPatterns }

/-- The method `(parser *Parser).ParseOs(line)`: the returned record and the parser after the
call. -/
def ParseOs (E : Env) (T : Tuning) (parser : Parser) (line : GoString) : Os × Parser :=
  let s := ParseOs.scan E parser line
  let s1 := if !s.found then
      { s with foundIdx := -1, result := { s.result with Family := "Other".toList } }
    else s
  let misses := if s1.foundIdx > T.matchIdxNotOk then intInc parser.OsMisses
    else parser.OsMisses
  (s1.result, { parser with OsPatterns := s1.patterns, OsMisses := misses })

/-- The loop `for i, dvcPattern := range parser.DevicePatterns` of `ParseDevice`; `none`
is a panic inside `Match`. -/
def ParseDevice.loop (E : Env) (line : GoString) :
    List DevicePattern → Nat → Scan Device DevicePattern →
      Option (Scan Device DevicePattern)
  | [], _, s => some s
  | dvcPattern :: rest, i, s =>
    match dvcPattern.Match E.unicode line s.result with
    | none => none
    | some dvc =>
      if dvc.Family.length > 0 then
        some { result := dvc, found := true, foundIdx := (i : Int),
               patterns := s.patterns.modify
                 (fun q => { q with MatchesCount := intInc q.MatchesCount }) i }
      else ParseDevice.loop E line rest (i + 1) { s with result := dvc }

/-- The part of `ParseDevice` up to the end of its loop; `none` is a panic. -/
def ParseDevice.scan (E : Env) (parser : Parser) (line : GoString) :
    Option (Scan Device DevicePattern) :=
  ParseDevice.loop E line parser.DevicePatterns 0
    { result := { Family := [] }, foundIdx := mathMaxInt32, found := false,
      patterns := parser.DevicePatterns }

/-- The method `(parser *Parser).ParseDevice(line)`: the returned record and the parser after the
call; `none` is a panic. -/
def ParseDevice (E : Env) (T : Tuning) (parser : Parser) (line : GoString) :
    Option (Device × Parser) :=
  match ParseDevice.scan E parser line with
  | none => none
  | some s =>
    let s1 := if !s.found then
        { s with foundIdx := -1, result := { s.result with Family := "Other".toList } }
      else s
    let misses := if s1.foundIdx > T.matchIdxNotOk then intInc parser.DeviceMisses
      else parser.DeviceMisses
    some (s1.result, { parser with DevicePatterns := s1.patterns, DeviceMisses := misses })

/-! ## parser.go: `checkAndSort` and `Parse` -/

/-- The function `checkAndSort(parser)`: the parser after the call. -/
def checkAndSort (E : Env) (T : Tuning) (parser : Parser) : Parser :=
  let p1 := if parser.UserAgentMisses ≥ T.missesTreshold then
      { parser with
        UserAgentMisses := 0
        UserAgentPatterns :=
          E.sorter.sort UserAgentPattern UserAgentPatternSorter.Less parser.UserAgentPatterns }
    else parser
  let p2 := if p1.OsMisses ≥ T.missesTreshold then
      { p1 with
        OsMisses := 0
        OsPatterns := E.sorter.sort OsPattern OsPatternSorter.Less p1.OsPatterns }
    else p1
  if p2.DeviceMisses ≥ T.missesTreshold then
    { p2 with
      DeviceMisses := 0
      DevicePatterns :=
        E.sorter.sort DevicePattern DevicePatternSorter.Less p2.DevicePatterns }
  else p2

/-- The state of `Parse` after its three `if` statements and before `checkAndSort`: the
client built so far and the parser as the lookups left it; `none` is a panic. -/
def Parse.lookups (E : Env) (T : Tuning) (parser : Parser) (line : GoString) :
    Option (Client × Parser) :=
  let cli : Client := { UserAgent := none, Os := none, Device := none }
  let st1 : Client × Parser :=
    if intAnd EUserAgentLookUpMode parser.Mode = EUserAgentLookUpMode then
      let r := ParseUserAgent E T parser line
      ({ cli with UserAgent := some r.1 }, r.2)
    else (cli, parser)
  let st2 : Client × Parser :=
    if intAnd EOsLookUpMode st1.2.Mode = EOsLookUpMode then
      let r := ParseOs E T st1.2 line
      ({ st1.1 with Os := some r.1 }, r.2)
    else st1
  if intAnd EDeviceLookUpMode st2.2.Mode = EDeviceLookUpMode then
    match ParseDevice E T st2.2 line with
    | none => none
    | some r => some ({ st2.1 with Device := some r.1 }, r.2)
  else some st2

/-- The method `(parser *Parser).Parse(line)`: the returned client and the parser after the call;
`none` is a panic. -/
def Parse (E : Env) (T : Tuning) (parser : Parser) (line : GoString) :
    Option (Client × Parser) :=
  (Parse.lookups E T parser line).map (fun st => (st.1, checkAndSort E T st.2))

/-! ## Vocabulary of the statements -/

/-- The value of a run of ASCII decimal digits, most significant first, continuing from
the value `n` read so far. -/
def decAcc (n : Nat) (ds : GoString) : Nat :=
  ds.foldl (fun a c => a * 10 + (c.toNat - '0'.toNat)) n

/-- The value of a run of ASCII decimal digits (`"012"` has value 12). -/
def decVal (ds : GoString) : Nat := decAcc 0 ds

/-- What `writeTokenValue` appends to `output` when the token read is `ds`. -/
def tokenOutput (captures : List GoString) (ds : GoString) : Option GoString :=
  (writeTokenValue captures { output := [], readingToken := true, readToken := ds }).map
    (fun s => s.output)

/-- The function `allMatchesReplacement` started with `o` already in `output`. -/
def render (U : UnicodeTables) (captures : List GoString) (o : GoString) (t : GoString) :
    Option GoString :=
  match replLoop U captures { output := o, readingToken := false, readToken := [] } t with
  | none => none
  | some s =>
    match writeTokenValue captures s with
    | none => none
    | some s1 => some s1.output

/-- The template `lit0 $k1 lit1 ... $kn litn`, given as `lit0` and the pairs `(ki, liti)`:
each token is a `$` followed by the decimal numeral of its index. -/
def templateOf (lit0 : GoString) : List (Nat × GoString) → GoString
  | [] => lit0
  | (k, lit) :: toks => lit0 ++ '$' :: (Nat.toDigits 10 k ++ templateOf lit toks)

/-- The text `lit0 m[k1] lit1 ... m[kn] litn`. -/
def expansionOf (captures : List GoString) (lit0 : GoString) : List (Nat × GoString) → GoString
  | [] => lit0
  | (k, lit) :: toks => lit0 ++ (captures.getD k [] ++ expansionOf captures lit toks)

/-- The token that starts at a `$` followed by the text `post` is not an index into
`captures`: its digits, the maximal run of `unicode.IsDigit` characters at the head of
`post`, are absent, are not all ASCII digits, or have value 0 or a value that is at least
the length of `captures`. -/
def deadToken (U : UnicodeTables) (captures : List GoString) (post : GoString) : Bool :=
  let ds := post.takeWhile (unicodeIsDigit U)
  ds.isEmpty || !ds.all isAsciiDigit || decVal ds == 0 || decide (captures.length ≤ decVal ds)

/-- Every `$` of the template starts a token that is not an index into `captures`. -/
def allTokensDead (U : UnicodeTables) (captures : List GoString) : GoString → Bool
  | [] => true
  | c :: cs => (if c = '$' then deadToken U captures cs else true) && allTokensDead U captures cs

/-! ## Concrete data, to evaluate the definitions -/

/-- Sample range tables: the Arabic-Indic digits as the digits above Latin-1, and the
`White_Space` code points above Latin-1. -/
def sampleTables : UnicodeTables where
  digit := fun c => decide (0x660 ≤ c.toNat) && decide (c.toNat ≤ 0x669)
  whiteSpace := fun c =>
    c.toNat = 0x1680 || (decide (0x2000 ≤ c.toNat) && decide (c.toNat ≤ 0x200A))
      || c.toNat = 0x2028 || c.toNat = 0x2029 || c.toNat = 0x202F || c.toNat = 0x205F
      || c.toNat = 0x3000

/-- The capture array `["full", "Chrome", "99"]`. -/
def sampleCaptures : List GoString := ["full".toList, "Chrome".toList, "99".toList]

/-- Whether `needle` occurs in `line`. -/
def isInfixOf (needle line : GoString) : Bool :=
  line.tails.any (fun t => needle.isPrefixOf t)

/-- The compiled form of a regular expression that is a plain word without capture
groups, such as `Chrome`: it matches the lines that contain the word. -/
def Regexp.literal (needle : GoString) : Regexp where
  FindStringSubmatch := fun line => if isInfixOf needle line then [needle] else []
  NumSubexp := 0
  submatch_length := by
    intro line
    by_cases h : isInfixOf needle line <;> simp [h]
  numSubexp_lt := by decide

/-- The compiled form of `(.*)`: it matches every line, and its one capture group is the
line. -/
def Regexp.wholeLine : Regexp where
  FindStringSubmatch := fun line => [line, line]
  NumSubexp := 1
  submatch_length := by
    intro line
    simp
  numSubexp_lt := by decide

/-- The compiled form of `.*`: it matches every line and has no capture group. -/
def Regexp.anyLine : Regexp where
  FindStringSubmatch := fun line => [line]
  NumSubexp := 0
  submatch_length := by
    intro line
    simp
  numSubexp_lt := by decide

/-- An implementation of `sort.Sort` by insertion sort. -/
def insertionSorter : SortImpl where
  sort := fun _ less l => List.insertionSort (fun x y => less y x = false) l
  perm := fun _ less l => List.perm_insertionSort (fun x y => less y x = false) l
  sorted := fun α less l h => by
    haveI : IsTotal α (fun x y => less y x = false) := ⟨fun a b => by
      by_cases hab : less b a = false
      · exact Or.inl hab
      · right
        simp only [Bool.not_eq_false] at hab
        by_contra hba
        simp only [Bool.not_eq_false] at hba
        have := h.trans _ _ _ hab hba
        simp [h.irrefl] at this⟩
    haveI : IsTrans α (fun x y => less y x = false) :=
      ⟨fun a b c hab hbc => h.incomp_trans _ _ _ hbc hab⟩
    exact List.sorted_insertionSort (fun x y => less y x = false) l

/-- A sample environment: the sample tables, insertion sort, and `Match` methods of the
other two categories that set the family to the first replacement template of the
pattern when the pattern's regular expression matches the line. -/
def sampleEnv : Env where
  unicode := sampleTables
  sorter := insertionSorter
  uaMatch := fun p line ua =>
    if p.Regexp.FindStringSubmatch line = [] then ua
    else { ua with Family := p.Replacements.headD [] }
  osMatch := fun p line os =>
    if p.Regexp.FindStringSubmatch line = [] then os
    else { os with Family := p.Replacements.headD [] }

/-- A device pattern with the given compiled expression, device replacement template and
match count. -/
def sampleDevicePattern (re : Regexp) (src repl : String) (count : Int) : DevicePattern where
  Regexp := re
  Regex := src.toList
  RegexFlag := []
  BrandReplacement := []
  DeviceReplacement := repl.toList
  ModelReplacement := []
  MatchesCount := count

/-- A user-agent pattern with the given compiled expression, family template and match
count. -/
def sampleUserAgentPattern (re : Regexp) (src family : String) (count : Int) :
    UserAgentPattern where
  Regexp := re
  Regex := src.toList
  Replacements := [family.toList]
  MatchesCount := count

/-- An OS pattern with the given compiled expression, family template and match count. -/
def sampleOsPattern (re : Regexp) (src family : String) (count : Int) : OsPattern where
  Regexp := re
  Regex := src.toList
  Replacements := [family.toList]
  MatchesCount := count

/-- A parser whose three catalogs are `[{regex: "Chrome"}, {regex: "(.*)"}]`, resp.
`[{regex: "Chrome"}, {regex: ".*"}]`, with all three categories enabled. -/
def sampleParser : Parser where
  UserAgentPatterns :=
    [sampleUserAgentPattern (Regexp.literal "Chrome".toList) "Chrome" "Chrome" 0,
     sampleUserAgentPattern Regexp.anyLine ".*" "Other" 0]
  UserAgentMisses := 0
  OsPatterns :=
    [sampleOsPattern (Regexp.literal "Linux".toList) "Linux" "Linux" 0,
     sampleOsPattern Regexp.anyLine ".*" "Other" 0]
  OsMisses := 0
  DevicePatterns :=
    [sampleDevicePattern (Regexp.literal "Chrome".toList) "Chrome" "Chrome" 0,
     sampleDevicePattern Regexp.wholeLine "(.*)" " dev $1 " 5]
  DeviceMisses := 0
  Mode := 7

/-- The sample parser with only the pattern `Chrome` left in its device catalog. -/
def chromeOnlyParser : Parser :=
  { sampleParser with
    DevicePatterns := [sampleDevicePattern (Regexp.literal "Chrome".toList) "Chrome" "Chrome" 0] }

/-- The ShellSort pass `for i := a + 6; i < b; i++ { if Less(i, i-6) { Swap(i, i-6) } }`
on a slice of at most 12 elements: the pairs `(i-6, i)` are disjoint, so the pass works
position by position on the first six elements `xs` and the remaining ones `ys`. -/
def shellPairs {α : Type} (less : α → α → Bool) : List α → List α → List α × List α
  | [], ys => ([], ys)
  | x :: xs, [] => (x :: xs, [])
  | x :: xs, y :: ys =>
    if less y x then (y :: (shellPairs less xs ys).1, x :: (shellPairs less xs ys).2)
    else (x :: (shellPairs less xs ys).1, y :: (shellPairs less xs ys).2)

/-- The ShellSort pass with gap 6 on a whole slice of at most 12 elements. -/
def shellPass {α : Type} (less : α → α → Bool) (l : List α) : List α :=
  (shellPairs less (l.take 6) (l.drop 6)).1 ++ (shellPairs less (l.take 6) (l.drop 6)).2

/-- An implementation of `sort.Sort` that treats a slice of at most 12 elements as the
`quickSort` of Go 1.6 to 1.18 does: a ShellSort pass with gap 6, then insertion sort.
Longer slices are sorted by insertion sort alone. -/
def shellInsertionSorter : SortImpl where
  sort := fun _ less l =>
    List.insertionSort (fun x y => less y x = false)
      (if l.length ≤ 12 then shellPass less l else l)
  perm := fun α less l => by
    have key : ∀ xs ys : List α,
        ((shellPairs less xs ys).1 ++ (shellPairs less xs ys).2).Perm (xs ++ ys) := by
      intro xs
      induction xs with
      | nil => intro ys; simp [shellPairs]
      | cons x xs ih =>
        intro ys
        cases ys with
        | nil => simp [shellPairs]
        | cons y ys =>
          have h := ih ys
          by_cases hl : less y x = true
          · simp only [shellPairs, hl, if_true, List.cons_append]
            have h1 : (y :: ((shellPairs less xs ys).1 ++ x :: (shellPairs less xs ys).2)).Perm
                (y :: x :: ((shellPairs less xs ys).1 ++ (shellPairs less xs ys).2)) :=
              List.Perm.cons y List.perm_middle
            have h2 : (y :: x :: ((shellPairs less xs ys).1 ++ (shellPairs less xs ys).2)).Perm
                (x :: y :: (xs ++ ys)) :=
              (List.Perm.swap x y _).trans (List.Perm.cons x (List.Perm.cons y h))
            have h3 : (x :: y :: (xs ++ ys)).Perm (x :: (xs ++ y :: ys)) :=
              List.Perm.cons x List.perm_middle.symm
            exact h1.trans (h2.trans h3)
          · simp only [shellPairs, hl, Bool.false_eq_true, if_false, List.cons_append]
            have h1 : (x :: ((shellPairs less xs ys).1 ++ y :: (shellPairs less xs ys).2)).Perm
                (x :: y :: ((shellPairs less xs ys).1 ++ (shellPairs less xs ys).2)) :=
              List.Perm.cons x List.perm_middle
            have h3 : (x :: y :: (xs ++ ys)).Perm (x :: (xs ++ y :: ys)) :=
              List.Perm.cons x List.perm_middle.symm
            exact h1.trans ((List.Perm.cons x (List.Perm.cons y h)).trans h3)
    refine (List.perm_insertionSort (fun x y => less y x = false) _).trans ?_
    by_cases hlen : l.length ≤ 12
    · rw [if_pos hlen]
      have := key (l.take 6) (l.drop 6)
      rw [List.take_append_drop] at this
      exact this
    · rw [if_neg hlen]
  sorted := fun α less l h => by
    haveI : IsTotal α (fun x y => less y x = false) := ⟨fun a b => by
      by_cases hab : less b a = false
      · exact Or.inl hab
      · right
        simp only [Bool.not_eq_false] at hab
        by_contra hba
        simp only [Bool.not_eq_false] at hba
        have := h.trans _ _ _ hab hba
        simp [h.irrefl] at this⟩
    haveI : IsTrans α (fun x y => less y x = false) :=
      ⟨fun a b c hab hbc => h.incomp_trans _ _ _ hbc hab⟩
    exact List.sorted_insertionSort (fun x y => less y x = false) _

/-- The sample environment with `shellInsertionSorter` for `sort.Sort`. -/
def shellEnv : Env := { sampleEnv with sorter := shellInsertionSorter }

/-- A device pattern named `name` (its `Regex`) with the given match count. -/
def countedPattern (name : String) (count : Int) : DevicePattern :=
  sampleDevicePattern (Regexp.literal name.toList) name "" count

/-- A parser whose device catalog is `a b c d e f g` with match counts `1 1 0 0 0 0 2` and
whose device miss count has reached the initial threshold. -/
def tieParser : Parser :=
  { sampleParser with
    DevicePatterns :=
      [countedPattern "a" 1, countedPattern "b" 1, countedPattern "c" 0, countedPattern "d" 0,
       countedPattern "e" 0, countedPattern "f" 0, countedPattern "g" 2]
    DeviceMisses := 500000 }

/-- The list `after` is `before` reordered by non-increasing `count`: a permutation in which no
element has a smaller count than a later one, so that the first one has the greatest. -/
def Reordered {π : Type} (count : π → Int) (before after : List π) : Prop :=
  after.Perm before ∧ after.Pairwise (fun x y => count x ≥ count y) ∧
    ∀ a ∈ after.head?, ∀ x ∈ after, count x ≤ count a

/-! ## parser.go: `GetExportedName` and `ToStruct` -/

/-- The character class `[0-9A-Za-z]` of `exportedNameRegex`. -/
def isAlnum (c : Char) : Bool :=
  (decide ('0'.toNat ≤ c.toNat) && decide (c.toNat ≤ '9'.toNat))
    || (decide ('A'.toNat ≤ c.toNat) && decide (c.toNat ≤ 'Z'.toNat))
    || (decide ('a'.toNat ≤ c.toNat) && decide (c.toNat ≤ 'z'.toNat))

/-- The call `exportedNameRegex.FindAll(byteSrc, -1)`: the maximal runs of characters of
the class `[0-9A-Za-z]`, from left to right; `cur` is the run being read. -/
def findAllAlnum (cur : GoString) : GoString → List GoString
  | [] => if cur.isEmpty then [] else [cur]
  | c :: cs =>
    if isAlnum c then findAllAlnum (cur ++ [c]) cs
    else (if cur.isEmpty then [] else [cur]) ++ findAllAlnum [] cs

/-- The function `unicode.ToTitle` on ASCII: a lower-case letter becomes the upper-case
one, every other ASCII character stays. -/
def toTitle (c : Char) : Char :=
  if 'a'.toNat ≤ c.toNat ∧ c.toNat ≤ 'z'.toNat then Char.ofNat (c.toNat - 32) else c

/-- The function `isSeparator` of package `bytes` on ASCII: letters, digits and the
underscore are not separators, every other ASCII character is. -/
def isSeparator (c : Char) : Bool :=
  !(isAlnum c || c == '_')

/-- The loop of `bytes.Title`: a character that follows a separator is mapped by
`unicode.ToTitle`, every other one is kept; `prev` is the character before. -/
def bytesTitleFrom (prev : Char) : GoString → GoString
  | [] => []
  | r :: rs => (if isSeparator prev then toTitle r else r) :: bytesTitleFrom r rs

/-- The function `bytes.Title`, as far as the program uses it: on a chunk found by
`exportedNameRegex`, that is, on ASCII letters and digits. -/
def bytesTitle (s : GoString) : GoString := bytesTitleFrom ' ' s

/-- The function `GetExportedName(src)`: every chunk goes through `bytes.Title`, and the
chunks are joined. -/
def GetExportedName (src : GoString) : GoString :=
  ((findAllAlnum [] src).map bytesTitle).flatten

/-- A `map[string]string` of the configuration, as the list of its entries in the order
in which `range` visits them. -/
abbrev Rule := List (GoString × GoString)

/-- The inner loop of `ToStruct`, `structVal.FieldByName(GetExportedName(key))
.SetString(value)` for every entry of the map; `setString` is
`FieldByName(name).SetString(value)` on the struct type at hand, and `none` is its
panic. -/
def ToStruct.fill {σ : Type} (setString : σ → GoString → GoString → Option σ) :
    σ → Rule → Option σ
  | structVal, [] => some structVal
  | structVal, (key, value) :: rest =>
    (setString structVal (GetExportedName key) value).bind
      (fun s => ToStruct.fill setString s rest)

/-- The function `ToStruct(interfaceArr, typeInterface, &returnVal)` for a struct type
with zero value `zero`: the value stored in `returnVal`, `none` being a panic. -/
def ToStruct {σ : Type} (zero : σ) (setString : σ → GoString → GoString → Option σ) :
    List Rule → Option (List σ)
  | [] => some []
  | interfaceMap :: rest =>
    (ToStruct.fill setString zero interfaceMap).bind
      (fun s => (ToStruct zero setString rest).map (fun structArr => s :: structArr))

/-- The nil `*regexp.Regexp` of a zero-valued pattern; the loader replaces it by the
compiled expression before the pattern is stored in a parser. -/
def Regexp.zero : Regexp where
  FindStringSubmatch := fun _ => []
  NumSubexp := 0
  submatch_length := by
    intro line
    exact Or.inl rfl
  numSubexp_lt := by decide

/-- The zero value of `DevicePattern`. -/
def DevicePattern.zero : DevicePattern where
  Regexp := Regexp.zero
  Regex := []
  RegexFlag := []
  BrandReplacement := []
  DeviceReplacement := []
  ModelReplacement := []
  MatchesCount := 0

/-- The call `FieldByName(name).SetString(value)` on a `DevicePattern`: it sets one of
the five string fields; on `Regexp` and `MatchesCount`, which are not strings, and on a
name that is no field, `SetString` panics. -/
def DevicePattern.setString (p : DevicePattern) (name value : GoString) :
    Option DevicePattern :=
  if name = "Regex".toList then some { p with Regex := value }
  else if name = "RegexFlag".toList then some { p with RegexFlag := value }
  else if name = "BrandReplacement".toList then some { p with BrandReplacement := value }
  else if name = "DeviceReplacement".toList then some { p with DeviceReplacement := value }
  else if name = "ModelReplacement".toList then some { p with ModelReplacement := value }
  else none

/-- The zero value of `UserAgentPattern`. -/
def UserAgentPattern.zero : UserAgentPattern where
  Regexp := Regexp.zero
  Regex := []
  Replacements := []
  MatchesCount := 0

/-- The zero value of `OsPattern`. -/
def OsPattern.zero : OsPattern where
  Regexp := Regexp.zero
  Regex := []
  Replacements := []
  MatchesCount := 0

/-! ## parser.go: the loader and the constructors -/

/-- A Go `error` value that is not nil, as its message. -/
abbrev GoError := GoString

/-- A `[]byte`. -/
abbrev Bytes := List UInt8

/-- The map `m` of `newFromBytes` after `yaml.Unmarshal`, a
`map[string][]map[string]string`: the rules stored under a key, nil for a key that is
absent. -/
abbrev YamlDoc := GoString → List Rule

/-- What the loader takes from outside parser.go and device.go: the file system
(`ioutil.ReadFile`), the YAML parser (`yaml.Unmarshal` into the map `m`), the compiler of
regular expressions (`regexp.Compile`, `none` when the expression does not compile), and
`FieldByName(name).SetString(value)` on the pattern structs of the two categories whose
declarations are absent (`none` is its panic). -/
structure LoadEnv where
  readFile : GoString → Except GoError Bytes
  yamlUnmarshal : Bytes → Except GoError YamlDoc
  compile : GoString → Option Regexp
  uaSetString : UserAgentPattern → GoString → GoString → Option UserAgentPattern
  osSetString : OsPattern → GoString → GoString → Option OsPattern

/-- The result of a call that returns `(*Parser, error)`: `none` is a panic,
`some (Except.error e)` is the return of `nil, err`, `some (Except.ok p)` the return of
`p, nil`. -/
abbrev Outcome := Option (Except GoError Parser)

/-- The call `regexp.MustCompile(str)`: the compiled expression, or a panic. -/
def mustCompile (L : LoadEnv) (str : GoString) : Option Regexp := L.compile str

/-- The loop `for i, inter := range uaInterfaces` of the first goroutine of
`newFromBytes`: `none` is the panic of `MustCompile`. -/
def newFromBytes.uaLoop (L : LoadEnv) : List UserAgentPattern → Option (List UserAgentPattern)
  | [] => some []
  | p :: rest =>
    (mustCompile L p.Regex).bind (fun re =>
      (newFromBytes.uaLoop L rest).map
        (fun ps => { p with Regexp := re, MatchesCount := 0 } :: ps))

/-- The loop `for i, inter := range osInterfaces` of the second goroutine of
`newFromBytes`. -/
def newFromBytes.osLoop (L : LoadEnv) : List OsPattern → Option (List OsPattern)
  | [] => some []
  | p :: rest =>
    (mustCompile L p.Regex).bind (fun re =>
      (newFromBytes.osLoop L rest).map (fun ps => { p with Regexp := re } :: ps))

/-- The string `regexString` that the third goroutine of `newFromBytes` compiles for a
device pattern: `flags` is `"(?i)"` when `strings.Contains(RegexFlag, "i")`, and
`regexString` is `fmt.Sprintf("%s%s", flags, Regex)`. -/
def newFromBytes.regexString (p : DevicePattern) : GoString :=
  let flags : GoString := if 'i' ∈ p.RegexFlag then "(?i)".toList else []
  flags ++ p.Regex

/-- The loop `for i, inter := range dvcInterfaces` of the third goroutine of
`newFromBytes`. -/
def newFromBytes.dvcLoop (L : LoadEnv) : List DevicePattern → Option (List DevicePattern)
  | [] => some []
  | p :: rest =>
    (mustCompile L (newFromBytes.regexString p)).bind (fun re =>
      (newFromBytes.dvcLoop L rest).map
        (fun ps => { p with Regexp := re, MatchesCount := 0 } :: ps))

/-- The first goroutine of `newFromBytes`: `ToStruct` on `m["user_agent_parsers"]`, then
the loop; the result is `uaPatterns`, and `none` is a panic. -/
def newFromBytes.userAgent (L : LoadEnv) (m : YamlDoc) : Option (List UserAgentPattern) :=
  (ToStruct UserAgentPattern.zero L.uaSetString (m "user_agent_parsers".toList)).bind
    (newFromBytes.uaLoop L)

/-- The second goroutine of `newFromBytes`: `ToStruct` on `m["os_parsers"]`, then the
loop; the result is `osPatterns`. -/
def newFromBytes.os (L : LoadEnv) (m : YamlDoc) : Option (List OsPattern) :=
  (ToStruct OsPattern.zero L.osSetString (m "os_parsers".toList)).bind
    (newFromBytes.osLoop L)

/-- The third goroutine of `newFromBytes`: `ToStruct` on `m["device_parsers"]`, then the
loop; the result is `dvcPatterns`. -/
def newFromBytes.device (L : LoadEnv) (m : YamlDoc) : Option (List DevicePattern) :=
  (ToStruct DevicePattern.zero DevicePattern.setString (m "device_parsers".toList)).bind
    (newFromBytes.dvcLoop L)

/-- The three goroutines of `newFromBytes` on the map `m`, one after the other: a panic
in any of them ends the program, whatever the others do. The result is the three pattern
slices. -/
def newFromBytes.load (L : LoadEnv) (m : YamlDoc) :
    Option (List UserAgentPattern × List OsPattern × List DevicePattern) :=
  (newFromBytes.userAgent L m).bind (fun uaPatterns =>
    (newFromBytes.os L m).bind (fun osPatterns =>
      (newFromBytes.device L m).map (fun dvcPatterns =>
        (uaPatterns, osPatterns, dvcPatterns))))

/-- The method `(parser *Parser).newFromBytes(data)`. -/
def newFromBytes (L : LoadEnv) (parser : Parser) (data : Bytes) : Outcome :=
  match L.yamlUnmarshal data with
  | Except.error err => some (Except.error err)
  | Except.ok m =>
    (newFromBytes.load L m).map (fun r =>
      Except.ok { parser with
        UserAgentPatterns := r.1
        OsPatterns := r.2.1
        DevicePatterns := r.2.2 })

/-- The value of `new(Parser)`. -/
def Parser.zero : Parser where
  UserAgentPatterns := []
  UserAgentMisses := 0
  OsPatterns := []
  OsMisses := 0
  DevicePatterns := []
  DeviceMisses := 0
  Mode := 0

/-- The Go expression `a | b` on `int`: bitwise OR of the two's complement patterns. -/
def intOr (a b : Int) : Int := wrapInt (Nat.lor (toUint64 a) (toUint64 b))

/-- The function `NewWithOptions(regexFile, mode, treshold, topCnt)`, called when the
package variables are `T`: the package variables after the call, and its result. -/
def NewWithOptions (L : LoadEnv) (T : Tuning) (regexFile : GoString)
    (mode treshold topCnt : Int) : Tuning × Outcome :=
  match L.readFile regexFile with
  | Except.error err => (T, some (Except.error err))
  | Except.ok data =>
    let T1 : Tuning := if topCnt ≥ 0 then { T with matchIdxNotOk := topCnt } else T
    let T2 : Tuning :=
      if treshold > cMinMissesTreshold then { T1 with missesTreshold := treshold } else T1
    (T2, newFromBytes L { Parser.zero with Mode := mode } data)

/-- The function `New(regexFile)`, called when the package variables are `T`. -/
def New (L : LoadEnv) (T : Tuning) (regexFile : GoString) : Tuning × Outcome :=
  match L.readFile regexFile with
  | Except.error err => (T, some (Except.error err))
  | Except.ok data =>
    ({ matchIdxNotOk := CDefaultMatchIdxNotOk, missesTreshold := CDefaultMissesTreshold },
      newFromBytes L
        { Parser.zero with
          Mode := intOr (intOr EOsLookUpMode EUserAgentLookUpMode) EDeviceLookUpMode } data)

/-- The function `NewFromBytes(regexBytes)`, called when the package variables are
`T`. -/
def NewFromBytes (L : LoadEnv) (T : Tuning) (regexBytes : Bytes) : Tuning × Outcome :=
  (T, newFromBytes L Parser.zero regexBytes)

/-- The states of the package variables that the program can be in: the initial one, and
from each such state the one after a call of `New`, `NewWithOptions` or `NewFromBytes`
with any arguments, in any state of the file system. -/
inductive Tuning.Reachable : Tuning → Prop where
  | initial : Tuning.Reachable Tuning.initial
  | new (L : LoadEnv) (T : Tuning) (regexFile : GoString) :
      Tuning.Reachable T → Tuning.Reachable (New L T regexFile).1
  | newWithOptions (L : LoadEnv) (T : Tuning) (regexFile : GoString)
      (mode treshold topCnt : Int) :
      Tuning.Reachable T →
        Tuning.Reachable (NewWithOptions L T regexFile mode treshold topCnt).1
  | newFromBytes (L : LoadEnv) (T : Tuning) (regexBytes : Bytes) :
      Tuning.Reachable T → Tuning.Reachable (NewFromBytes L T regexBytes).1

/-- The sample parser with only the OS lookup enabled, whose user-agent catalog is
`a b` with match counts `0 5` and whose user-agent miss count has reached the initial
threshold. -/
def osOnlyParser : Parser :=
  { sampleParser with
    Mode := EOsLookUpMode
    UserAgentPatterns :=
      [sampleUserAgentPattern (Regexp.literal "a".toList) "a" "A" 0,
       sampleUserAgentPattern (Regexp.literal "b".toList) "b" "B" 5]
    UserAgentMisses := 500000 }

/-- The parser after the first `if` statement of `Parse`. -/
def Parse.afterUserAgent (E : Env) (T : Tuning) (parser : Parser) (line : GoString) : Parser :=
  if intAnd EUserAgentLookUpMode parser.Mode = EUserAgentLookUpMode then
    (ParseUserAgent E T parser line).2
  else parser

/-- The parser after the second `if` statement of `Parse`. -/
def Parse.afterOs (E : Env) (T : Tuning) (parser : Parser) (line : GoString) : Parser :=
  if intAnd EOsLookUpMode parser.Mode = EOsLookUpMode then
    (ParseOs E T (Parse.afterUserAgent E T parser line) line).2
  else Parse.afterUserAgent E T parser line

/-- A sample configuration: two user-agent rules, one OS rule and two device rules, the
first of them with the flag `i`. -/
def sampleDoc : YamlDoc := fun key =>
  if key = "user_agent_parsers".toList then
    [[("regex".toList, "Chrome".toList), ("family_replacement".toList, "Chrome".toList)],
     [("regex".toList, ".*".toList), ("family_replacement".toList, "Other".toList)]]
  else if key = "os_parsers".toList then
    [[("regex".toList, "Linux".toList), ("family_replacement".toList, "Linux".toList)]]
  else if key = "device_parsers".toList then
    [[("regex".toList, "iphone".toList), ("regex_flag".toList, "i".toList),
      ("device_replacement".toList, "iPhone".toList)],
     [("regex".toList, "(.*)".toList)]]
  else []

/-- A configuration whose only rule is a device rule with the regex `(`, which does not
compile. -/
def brokenDoc : YamlDoc := fun key =>
  if key = "device_parsers".toList then [[("regex".toList, "(".toList)]] else []

/-- A configuration whose only rule is a device rule with the key `REGEX`. -/
def upperDoc : YamlDoc := fun key =>
  if key = "device_parsers".toList then [[("REGEX".toList, "Chrome".toList)]] else []

/-- A sample of the outside of the loader: every file can be read; the bytes `[]` parse
to `sampleDoc`, `[1]` to `brokenDoc`, `[2]` to `upperDoc`, and nothing else is YAML; the
expression `(` does not compile, `(.*)` and `.*` compile to the expressions above and any
other text to the expression that finds this text; the pattern structs of the user-agent
and OS categories have the string fields `Regex` and `FamilyReplacement`. -/
def sampleLoadEnv : LoadEnv where
  readFile := fun _ => Except.ok []
  yamlUnmarshal := fun data =>
    if data = [] then Except.ok sampleDoc
    else if data = [1] then Except.ok brokenDoc
    else if data = [2] then Except.ok upperDoc
    else Except.error "yaml: unmarshal error".toList
  compile := fun str =>
    if str = "(".toList then none
    else if str = "(.*)".toList then some Regexp.wholeLine
    else if str = ".*".toList then some Regexp.anyLine
    else some (Regexp.literal str)
  uaSetString := fun p name value =>
    if name = "Regex".toList then some { p with Regex := value }
    else if name = "FamilyReplacement".toList then some { p with Replacements := [value] }
    else none
  osSetString := fun p name value =>
    if name = "Regex".toList then some { p with Regex := value }
    else if name = "FamilyReplacement".toList then some { p with Replacements := [value] }
    else none

/-- What is compared of an outcome of the loader: whether it panicked, the error it
returned, or the mode, the miss counts and, per catalog, the `Regex` and `MatchesCount`
of the patterns it loaded. -/
def Outcome.summary (o : Outcome) :
    Option (Except GoError (Int × (Int × Int × Int) ×
      List (GoString × Int) × List (GoString × Int) × List (GoString × Int))) :=
  o.map (fun r => r.map (fun p =>
    (p.Mode, (p.UserAgentMisses, p.OsMisses, p.DeviceMisses),
      p.UserAgentPatterns.map (fun q => (q.Regex, q.MatchesCount)),
      p.OsPatterns.map (fun q => (q.Regex, q.MatchesCount)),
      p.DevicePatterns.map (fun q => (q.Regex, q.MatchesCount)))))

/-- The parser that `NewFromBytes` builds from the sample configuration. -/
def sampleLoaded : Parser :=
  match newFromBytes sampleLoadEnv Parser.zero [] with
  | some (Except.ok p) => p
  | _ => Parser.zero

/-! ## Vocabulary of the statements on the lookups and the loader -/

/-- The record `*ua` of `ParseUserAgent` after `uaPattern.Match(line, ua)` has been called
for the patterns `ps`, in their order, starting from the record `ua`. -/
def uaAfter (E : Env) (line : GoString) (ua : UserAgent) (ps : List UserAgentPattern) :
    UserAgent :=
  ps.foldl (fun u q => E.uaMatch q line u) ua

/-- The record `*os` of `ParseOs` after `osPattern.Match(line, os)` has been called for
the patterns `ps`, in their order, starting from the record `os`. -/
def osAfter (E : Env) (line : GoString) (os : Os) (ps : List OsPattern) : Os :=
  ps.foldl (fun u q => E.osMatch q line u) os

/-- The value a string field called `name` has after `ToStruct` has gone through the
entries of the rule: the value of the last entry whose key has the exported name `name`,
and `dflt`, the value before, when the rule has no such entry. -/
def fieldValue (name dflt : GoString) (rule : Rule) : GoString :=
  rule.foldl (fun acc kv => if GetExportedName kv.1 = name then kv.2 else acc) dflt

/-- The package variables after `NewWithOptions` was called with `topCnt = 0`: only a
match by the first pattern of a catalog is not a miss. -/
def strictTuning : Tuning := { missesTreshold := 500000, matchIdxNotOk := 0 }

/-! ## Lemmas on `strconv.Atoi` -/

theorem decAcc_ge (ds : GoString) (n : Nat) : n ≤ decAcc n ds := by
  induction ds generalizing n with
  | nil => simp [decAcc]
  | cons c cs ih =>
    have h := ih (n * 10 + (c.toNat - '0'.toNat))
    simp only [decAcc, List.foldl_cons] at h ⊢
    omega

theorem decAcc_cons (c : Char) (cs : GoString) (n : Nat) :
    decAcc n (c :: cs) = decAcc (n * 10 + (c.toNat - '0'.toNat)) cs := rfl

theorem maxUint64_eq : maxUint64 = 18446744073709551615 := by decide

theorem maxInt_eq : maxInt = 9223372036854775807 := by decide

theorem parseUintLoop_ascii (ds : GoString) (n : Nat) (hn : n ≤ maxUint64)
    (h : ∀ c ∈ ds, isAsciiDigit c = true) :
    parseUintLoop ds n =
      if decAcc n ds ≤ maxUint64 then (decAcc n ds, none)
      else (maxUint64, some NumErr.ErrRange) := by
  induction ds generalizing n with
  | nil => simp [parseUintLoop, decAcc, hn]
  | cons c cs ih =>
    have hc : isAsciiDigit c = true := h c (List.mem_cons_self _ _)
    have hcs : ∀ d ∈ cs, isAsciiDigit d = true := fun d hd => h d (List.mem_cons_of_mem _ hd)
    have hge := decAcc_ge cs (n * 10 + (c.toNat - '0'.toNat))
    rw [decAcc_cons]
    simp only [parseUintLoop, hc, Bool.not_true, Bool.false_eq_true, if_false]
    rw [maxUint64_eq] at *
    by_cases h1 : n ≥ 18446744073709551615 / 10 + 1
    · rw [if_pos h1, if_neg (by omega)]
    · rw [if_neg h1]
      by_cases h2 : n * 10 + (c.toNat - '0'.toNat) > 18446744073709551615
      · simp only [h2, if_true]
        rw [if_neg (by omega)]
      · simp only [h2, if_false]
        exact ih _ (by omega) hcs

theorem parseUintLoop_noErr (ds : GoString) (n : Nat)
    (h : (parseUintLoop ds n).2 = none) : ∀ c ∈ ds, isAsciiDigit c = true := by
  induction ds generalizing n with
  | nil => simp
  | cons c cs ih =>
    simp only [parseUintLoop] at h
    by_cases hc : isAsciiDigit c = true
    · simp only [hc, Bool.not_true, Bool.false_eq_true, if_false] at h
      split at h
      · simp at h
      · split at h
        · simp at h
        · intro d hd
          rcases List.mem_cons.1 hd with rfl | hd
          · exact hc
          · exact ih _ h d hd
    · simp [hc] at h


theorem isAsciiDigit_not_sign (c : Char) (h : isAsciiDigit c = true) :
    (c == '+' || c == '-') = false := by
  simp only [isAsciiDigit, Bool.and_eq_true, decide_eq_true_eq] at h
  have h1 : c ≠ '+' := by rintro rfl; revert h; decide
  have h2 : c ≠ '-' := by rintro rfl; revert h; decide
  simp [h1, h2]

theorem unicodeIsDigit_not_sign (U : UnicodeTables) (c : Char) (h : unicodeIsDigit U c = true) :
    (c == '+' || c == '-') = false := by
  have h1 : c ≠ '+' := by rintro rfl; revert h; simp [unicodeIsDigit, maxLatin1]
  have h2 : c ≠ '-' := by rintro rfl; revert h; simp [unicodeIsDigit, maxLatin1]
  simp [h1, h2]

theorem isAsciiDigit_unicodeIsDigit (U : UnicodeTables) (c : Char) (h : isAsciiDigit c = true) :
    unicodeIsDigit U c = true := by
  simp only [isAsciiDigit, Bool.and_eq_true, decide_eq_true_eq] at h
  have : c.toNat ≤ maxLatin1 := by
    have : '9'.toNat = 57 := by decide
    simp only [maxLatin1]; omega
  simp only [unicodeIsDigit, this, if_true, Bool.and_eq_true, decide_eq_true_eq]
  exact h

theorem unicodeIsDigit_not_dollar (U : UnicodeTables) : unicodeIsDigit U '$' = false := by
  simp [unicodeIsDigit, maxLatin1]

theorem strconvAtoi_nosign (c : Char) (rest : GoString) (hc : (c == '+' || c == '-') = false) :
    strconvAtoi (c :: rest) = parseIntFinish false (parseUintLoop (c :: rest) 0) := by
  have hneg : (c == '-') = false := by
    simp only [Bool.or_eq_false_iff] at hc; exact hc.2
  have hplus : c ≠ '+' := by
    rintro rfl; simp at hc
  simp only [strconvAtoi, hc, hneg, parseUint]
  simp [hplus]

theorem parseIntFinish_range (neg : Bool) (r : Nat × Option NumErr)
    (h : (parseIntFinish neg r).2 = some NumErr.ErrRange) :
    (parseIntFinish neg r).1 = (maxInt : Int) ∨ (parseIntFinish neg r).1 = -(2 ^ 63 : Int) := by
  unfold parseIntFinish at h ⊢
  by_cases h1 : r.2 = some NumErr.ErrSyntax
  · simp [h1] at h
  · by_cases h2 : (!neg && decide (r.1 ≥ 2 ^ 63)) = true
    · left; simp only [h1, h2, if_false, if_true]
    · by_cases h3 : (neg && decide (r.1 > 2 ^ 63)) = true
      · right; simp only [h1, h3, if_false, if_true]
        rw [if_neg h2]
      · simp only [h1, h2, h3, if_false] at h
        simp at h

theorem parseIntFinish_noErr (neg : Bool) (r : Nat × Option NumErr)
    (h : (parseIntFinish neg r).2 = none) : r.2 = none ∨ r.2 = some NumErr.ErrRange := by
  cases hr : r.2 with
  | none => left; rfl
  | some e =>
    cases e with
    | ErrSyntax => simp [parseIntFinish, hr] at h
    | ErrRange => right; rfl

theorem parseUintLoop_range (ds : GoString) (n : Nat)
    (h : (parseUintLoop ds n).2 = some NumErr.ErrRange) : (parseUintLoop ds n).1 = maxUint64 := by
  induction ds generalizing n with
  | nil => simp [parseUintLoop] at h
  | cons c cs ih =>
    simp only [parseUintLoop] at h ⊢
    split
    · rename_i h1; simp [h1] at h
    · rename_i h1
      simp only [h1, if_false] at h
      split
      · rfl
      · rename_i h2
        simp only [h2, if_false] at h
        split
        · rfl
        · rename_i h3
          simp only [h3, if_false] at h
          exact ih _ h

theorem strconvAtoi_ascii (ds : GoString) (hne : ds ≠ [])
    (h : ∀ c ∈ ds, isAsciiDigit c = true) :
    strconvAtoi ds =
      if decVal ds ≤ maxInt then ((decVal ds : Int), none)
      else ((maxInt : Int), some NumErr.ErrRange) := by
  cases ds with
  | nil => exact absurd rfl hne
  | cons c rest =>
    rw [strconvAtoi_nosign c rest (isAsciiDigit_not_sign c (h c (List.mem_cons_self _ _)))]
    rw [parseUintLoop_ascii (c :: rest) 0 (Nat.zero_le _) h]
    simp only [decVal, parseIntFinish]
    rw [maxUint64_eq, maxInt_eq]
    by_cases h1 : decAcc 0 (c :: rest) ≤ 18446744073709551615
    · by_cases h2 : decAcc 0 (c :: rest) ≤ 9223372036854775807
      · simp [h1, h2]; omega
      · simp [h1, h2]; omega
    · have h2 : ¬ decAcc 0 (c :: rest) ≤ 9223372036854775807 := by omega
      simp [h1, h2]

theorem strconvAtoi_range (s : GoString) (h : (strconvAtoi s).2 = some NumErr.ErrRange) :
    (strconvAtoi s).1 = (maxInt : Int) ∨ (strconvAtoi s).1 = -(2 ^ 63 : Int) := by
  cases s with
  | nil => simp [strconvAtoi] at h
  | cons c rest => exact parseIntFinish_range _ _ h

theorem strconvAtoi_noErr_ascii (U : UnicodeTables) (ds : GoString)
    (hd : ∀ c ∈ ds, unicodeIsDigit U c = true) (h : (strconvAtoi ds).2 = none) :
    ∀ c ∈ ds, isAsciiDigit c = true := by
  cases ds with
  | nil => simp
  | cons c rest =>
    rw [strconvAtoi_nosign c rest
      (unicodeIsDigit_not_sign U c (hd c (List.mem_cons_self _ _)))] at h
    apply parseUintLoop_noErr (c :: rest) 0
    rcases parseIntFinish_noErr _ _ h with h1 | h1
    · exact h1
    · exfalso
      have h2 := parseUintLoop_range _ _ h1
      simp [parseIntFinish, h1, h2, maxUint64_eq] at h

/-! ## Lemmas on `writeTokenValue` -/

theorem writeTokenValue_idle (m : List GoString) (o rt : GoString) :
    writeTokenValue m { output := o, readingToken := false, readToken := rt } =
      some { output := o, readingToken := false, readToken := rt } := by
  simp [writeTokenValue]

theorem writeTokenValue_token (m : List GoString) (o ds : GoString) :
    writeTokenValue m { output := o, readingToken := true, readToken := ds } =
      (tokenOutput m ds).map
        (fun v => { output := o ++ v, readingToken := true, readToken := [] }) := by
  unfold tokenOutput writeTokenValue
  simp only [Bool.not_true, Bool.false_eq_true, if_false]
  by_cases h0 : ds.length = 0
  · have : ds = [] := List.length_eq_zero.1 h0
    subst this
    simp
  · simp only [h0, if_false]
    split
    · simp
    · split
      · simp
      · cases hg : m[(strconvAtoi ds).1.toNat]? with
        | none => simp
        | some v => simp

theorem tokenOutput_nil (m : List GoString) : tokenOutput m [] = some ['$'] := by
  simp [tokenOutput, writeTokenValue]

/-- A token whose digits are ASCII and whose value is a valid index is replaced by the
capture at that index. -/
theorem tokenOutput_inRange (m : List GoString) (ds : GoString) (hne : ds ≠ [])
    (hd : ∀ c ∈ ds, isAsciiDigit c = true) (h1 : 1 ≤ decVal ds) (h2 : decVal ds < m.length)
    (hm : m.length ≤ maxInt) :
    tokenOutput m ds = m[decVal ds]? := by
  have hlen : ds.length ≠ 0 := fun h => hne (List.length_eq_zero.1 h)
  have hle : decVal ds ≤ maxInt := by omega
  simp only [tokenOutput, writeTokenValue, Bool.not_true, Bool.false_eq_true, if_false, hlen,
    strconvAtoi_ascii ds hne hd, hle, if_true]
  have e1 : ¬ ((decVal ds : Int) ≤ 0) := by omega
  have e2 : ¬ ((decVal ds : Int) ≥ (m.length : Int)) := by omega
  simp only [ne_eq, not_true_eq_false, decide_False, Bool.false_and, e1, e2, Bool.or_self,
    Bool.false_eq_true, if_false, Int.toNat_ofNat]
  cases hg : m[decVal ds]? with
  | none => simp
  | some v => simp

/-- A token that is not a valid index is written back unchanged. -/
theorem tokenOutput_dead (U : UnicodeTables) (m : List GoString) (ds : GoString)
    (hu : ∀ c ∈ ds, unicodeIsDigit U c = true) (hm : m.length ≤ maxInt)
    (h : ds = [] ∨ (∃ c ∈ ds, isAsciiDigit c = false) ∨ decVal ds = 0 ∨ m.length ≤ decVal ds) :
    tokenOutput m ds = some ('$' :: ds) := by
  by_cases hne : ds = []
  · subst hne; exact tokenOutput_nil m
  have hlen : ds.length ≠ 0 := fun h => hne (List.length_eq_zero.1 h)
  simp only [tokenOutput, writeTokenValue, Bool.not_true, Bool.false_eq_true, if_false, hlen]
  have key : ((decide ((strconvAtoi ds).2 ≠ none) &&
        decide ((strconvAtoi ds).2 ≠ some NumErr.ErrRange))
      || decide ((strconvAtoi ds).1 ≤ 0)
      || decide ((strconvAtoi ds).1 ≥ (m.length : Int))) = true := by
    cases he : (strconvAtoi ds).2 with
    | some e =>
      cases e with
      | ErrSyntax => simp
      | ErrRange =>
        rcases strconvAtoi_range ds he with h1 | h1
        · have : (m.length : Int) ≤ (strconvAtoi ds).1 := by rw [h1]; exact_mod_cast hm
          simp [this]
        · have : (strconvAtoi ds).1 ≤ 0 := by rw [h1]; norm_num
          simp [this]
    | none =>
      have hasc := strconvAtoi_noErr_ascii U ds hu he
      have hv := strconvAtoi_ascii ds hne hasc
      rcases h with h | ⟨c, hc, hc'⟩ | h | h
      · exact absurd h hne
      · rw [hasc c hc] at hc'; simp at hc'
      · rw [if_pos (by omega)] at hv
        simp [hv, h]
      · by_cases hle : decVal ds ≤ maxInt
        · rw [if_pos hle] at hv
          have : (m.length : Int) ≤ (decVal ds : Int) := by exact_mod_cast h
          simp [hv, this]
        · rw [if_neg hle] at hv
          have : (m.length : Int) ≤ (maxInt : Int) := by exact_mod_cast hm
          simp [hv, this]
  simp only [key, if_true]
  simp

/-- The closure never panics on a capture array whose length fits an `int`. -/
theorem tokenOutput_isSome (m : List GoString) (ds : GoString) (hm : m.length ≤ maxInt) :
    ∃ v, tokenOutput m ds = some v := by
  by_cases hne : ds = []
  · subst hne; exact ⟨_, tokenOutput_nil m⟩
  have hlen : ds.length ≠ 0 := fun h => hne (List.length_eq_zero.1 h)
  simp only [tokenOutput, writeTokenValue, Bool.not_true, Bool.false_eq_true, if_false, hlen]
  split
  · exact ⟨_, rfl⟩
  · rename_i hoor
    simp only [Bool.or_eq_true, Bool.and_eq_true, decide_eq_true_eq, not_or, not_and,
      not_le] at hoor
    obtain ⟨⟨h1, h2⟩, h3⟩ := hoor
    cases he : (strconvAtoi ds).2 with
    | some e =>
      exfalso
      cases e with
      | ErrSyntax => exact absurd (h1 (by simp [he])) (by simp [he])
      | ErrRange =>
        rcases strconvAtoi_range ds he with h4 | h4
        · have : (m.length : Int) ≤ (maxInt : Int) := by exact_mod_cast hm
          omega
        · rw [h4] at h2; norm_num at h2
    | none =>
      simp only [ne_eq, not_true_eq_false, if_false]
      have hlt : (strconvAtoi ds).1.toNat < m.length := by omega
      rw [List.getElem?_eq_getElem hlt]
      exact ⟨_, rfl⟩

/-! ## Lemmas on the loop of `allMatchesReplacement` -/

theorem render_nil (U : UnicodeTables) (m : List GoString) (o : GoString) :
    render U m o [] = some o := by
  simp [render, replLoop, writeTokenValue]

theorem render_lit (U : UnicodeTables) (m : List GoString) (o : GoString) (c : Char)
    (cs : GoString) (hc : c ≠ '$') :
    render U m o (c :: cs) = render U m (o ++ [c]) cs := by
  simp [render, replLoop, replStep, hc]

theorem replLoop_dollar (U : UnicodeTables) (m : List GoString) (o rt cs : GoString) :
    replLoop U m { output := o, readingToken := false, readToken := rt } ('$' :: cs) =
      replLoop U m { output := o, readingToken := true, readToken := rt } cs := by
  simp [replLoop, replStep]

theorem replLoop_digits (U : UnicodeTables) (m : List GoString) (o rt ds rest : GoString)
    (hd : ∀ c ∈ ds, unicodeIsDigit U c = true) :
    replLoop U m { output := o, readingToken := true, readToken := rt } (ds ++ rest) =
      replLoop U m { output := o, readingToken := true, readToken := rt ++ ds } rest := by
  induction ds generalizing rt with
  | nil => simp
  | cons c cs ih =>
    have hc := hd c (List.mem_cons_self _ _)
    have hcs : ∀ d ∈ cs, unicodeIsDigit U d = true := fun d h => hd d (List.mem_cons_of_mem _ h)
    simp only [List.cons_append, replLoop, replStep, Bool.not_true, Bool.false_and,
      Bool.false_eq_true, if_false, hc, if_true]
    have := ih (rt ++ [c]) hcs
    simp only [List.append_assoc, List.singleton_append] at this
    exact this

/-- A whole token: `$`, its digits `ds`, and a remainder that does not go on with a
digit. -/
theorem render_token (U : UnicodeTables) (m : List GoString) (o ds rest : GoString)
    (hd : ∀ c ∈ ds, unicodeIsDigit U c = true)
    (hr : ∀ c ∈ rest.head?, unicodeIsDigit U c = false) :
    render U m o ('$' :: (ds ++ rest)) =
      (tokenOutput m ds).bind (fun v => render U m (o ++ v) rest) := by
  unfold render
  rw [replLoop_dollar, replLoop_digits U m o [] ds rest hd]
  simp only [List.nil_append]
  cases rest with
  | nil =>
    simp only [replLoop, writeTokenValue_token, writeTokenValue_idle]
    cases tokenOutput m ds <;> simp
  | cons c cs =>
    have hc : unicodeIsDigit U c = false := hr c (by simp)
    by_cases hdol : c = '$'
    · subst hdol
      simp only [replLoop, replStep, Bool.not_true, Bool.false_and, Bool.false_eq_true, if_false,
        hc, writeTokenValue_token]
      cases tokenOutput m ds with
      | none => simp
      | some v => simp [replLoop, replStep]
    · simp only [replLoop, replStep, Bool.not_true, Bool.false_and, Bool.false_eq_true, if_false,
        hc, writeTokenValue_token]
      cases tokenOutput m ds with
      | none => simp
      | some v =>
        have hb : (c == '$') = false := by simp [hdol]
        simp [replLoop, replStep, hdol, hb]

theorem allMatchesReplacement_eq_render (U : UnicodeTables) (t : GoString) (m : List GoString) :
    allMatchesReplacement U t m = render U m [] t := rfl

/-- Every template is empty, starts with a character other than `$`, or starts with a
token followed by a remainder that does not go on with a digit. -/
theorem template_cases (U : UnicodeTables) (t : GoString) :
    t = [] ∨ (∃ c cs, c ≠ '$' ∧ t = c :: cs) ∨
      (∃ ds rest, (∀ c ∈ ds, unicodeIsDigit U c = true) ∧
        (∀ c ∈ rest.head?, unicodeIsDigit U c = false) ∧ t = '$' :: (ds ++ rest)) := by
  cases t with
  | nil => left; rfl
  | cons c cs =>
    right
    by_cases hc : c = '$'
    · right
      subst hc
      refine ⟨cs.takeWhile (unicodeIsDigit U), cs.dropWhile (unicodeIsDigit U), ?_, ?_, ?_⟩
      · intro c hc; exact List.mem_takeWhile_imp hc
      · intro c hc
        have := List.head?_dropWhile_not (unicodeIsDigit U) cs
        rw [Option.mem_def] at hc
        rw [hc] at this
        simpa using this
      · rw [List.takeWhile_append_dropWhile]
    · left; exact ⟨c, cs, hc, rfl⟩

/-- Text already in `output` is never looked at again. -/
theorem render_output (U : UnicodeTables) (m : List GoString) (t o : GoString) :
    render U m o t = (render U m [] t).map (fun v => o ++ v) := by
  generalize hn : t.length = n
  induction n using Nat.strong_induction_on generalizing t o with
  | _ n ih =>
    rcases template_cases U t with rfl | ⟨c, cs, hc, rfl⟩ | ⟨ds, rest, hd, hr, rfl⟩
    · simp [render_nil]
    · rw [render_lit U m o c cs hc, render_lit U m [] c cs hc]
      rw [ih cs.length (by simp at hn; omega) cs (o ++ [c]) rfl,
        ih cs.length (by simp at hn; omega) cs ([] ++ [c]) rfl]
      cases render U m [] cs <;> simp
    · rw [render_token U m o ds rest hd hr, render_token U m [] ds rest hd hr]
      cases tokenOutput m ds with
      | none => simp
      | some v =>
        simp only [Option.some_bind, List.nil_append]
        rw [ih rest.length (by simp at hn; omega) rest (o ++ v) rfl,
          ih rest.length (by simp at hn; omega) rest v rfl]
        cases render U m [] rest <;> simp

/-! ## Lemmas on decimal numerals -/

theorem digitChar_ascii (d : Nat) (hd : d < 10) :
    isAsciiDigit (Nat.digitChar d) = true ∧ (Nat.digitChar d).toNat - '0'.toNat = d := by
  interval_cases d <;> decide

theorem toDigitsCore_append (fuel n : Nat) (acc : List Char) :
    Nat.toDigitsCore 10 fuel n acc = Nat.toDigitsCore 10 fuel n [] ++ acc := by
  induction fuel generalizing n acc with
  | zero => simp [Nat.toDigitsCore]
  | succ f ih =>
    simp only [Nat.toDigitsCore]
    split
    · simp
    · rw [ih (n / 10) (Nat.digitChar (n % 10) :: acc), ih (n / 10) [Nat.digitChar (n % 10)]]
      simp

theorem decAcc_append (a : Nat) (xs ys : GoString) :
    decAcc a (xs ++ ys) = decAcc (decAcc a xs) ys := by
  simp [decAcc, List.foldl_append]

theorem toDigitsCore_spec (fuel n : Nat) (h : n < fuel) :
    decVal (Nat.toDigitsCore 10 fuel n []) = n ∧
      (∀ c ∈ Nat.toDigitsCore 10 fuel n [], isAsciiDigit c = true) ∧
      Nat.toDigitsCore 10 fuel n [] ≠ [] := by
  induction fuel generalizing n with
  | zero => omega
  | succ f ih =>
    have hd := digitChar_ascii (n % 10) (Nat.mod_lt _ (by decide))
    simp only [Nat.toDigitsCore]
    by_cases h0 : n / 10 = 0
    · simp only [h0, if_true]
      refine ⟨?_, ?_, by simp⟩
      · simp only [decVal, decAcc, List.foldl_cons, List.foldl_nil]
        rw [hd.2]; omega
      · intro c hc
        simp only [List.mem_singleton] at hc
        rw [hc]; exact hd.1
    · simp only [h0, if_false]
      rw [toDigitsCore_append]
      have hlt : n / 10 < f := by omega
      obtain ⟨i1, i2, i3⟩ := ih (n / 10) hlt
      refine ⟨?_, ?_, by simp [i3]⟩
      · simp only [decVal] at i1 ⊢
        rw [decAcc_append, i1]
        simp only [decAcc, List.foldl_cons, List.foldl_nil]
        rw [hd.2]; omega
      · intro c hc
        rcases List.mem_append.1 hc with hc | hc
        · exact i2 c hc
        · simp only [List.mem_singleton] at hc
          rw [hc]; exact hd.1

/-- The decimal numeral of `k` is a non-empty run of ASCII digits of value `k`. -/
theorem toDigits_spec (k : Nat) :
    decVal (Nat.toDigits 10 k) = k ∧ (∀ c ∈ Nat.toDigits 10 k, isAsciiDigit c = true) ∧
      Nat.toDigits 10 k ≠ [] :=
  toDigitsCore_spec (k + 1) k (Nat.lt_succ_self k)

/-! ## C3: in-range tokens are substituted -/

theorem render_lits (U : UnicodeTables) (m : List GoString) (lit o rest : GoString)
    (h : '$' ∉ lit) : render U m o (lit ++ rest) = render U m (o ++ lit) rest := by
  induction lit generalizing o with
  | nil => simp
  | cons c cs ih =>
    have hc : c ≠ '$' := fun e => h (by simp [e])
    have hcs : '$' ∉ cs := fun e => h (List.mem_cons_of_mem _ e)
    rw [List.cons_append, render_lit U m o c _ hc, ih _ hcs]
    simp

theorem templateOf_head (U : UnicodeTables) (lit : GoString) (toks : List (Nat × GoString))
    (h : ∀ c ∈ lit.head?, unicodeIsDigit U c = false) :
    ∀ c ∈ (templateOf lit toks).head?, unicodeIsDigit U c = false := by
  cases lit with
  | cons a as =>
    cases toks with
    | nil => simpa [templateOf] using h
    | cons p ps =>
      obtain ⟨k, l⟩ := p
      simpa [templateOf] using h
  | nil =>
    cases toks with
    | nil => simp [templateOf]
    | cons p ps =>
      obtain ⟨k, l⟩ := p
      simp [templateOf, unicodeIsDigit_not_dollar]

theorem render_templateOf (U : UnicodeTables) (m : List GoString) (toks : List (Nat × GoString))
    (lit0 o : GoString) (hm : m.length ≤ maxInt)
    (hk : ∀ p ∈ toks, 1 ≤ p.1 ∧ p.1 < m.length) (h0 : '$' ∉ lit0)
    (hl : ∀ p ∈ toks, '$' ∉ p.2 ∧ ∀ c ∈ p.2.head?, unicodeIsDigit U c = false) :
    render U m o (templateOf lit0 toks) = some (o ++ expansionOf m lit0 toks) := by
  induction toks generalizing lit0 o with
  | nil =>
    have := render_lits U m lit0 o [] h0
    simp only [List.append_nil] at this
    simp [templateOf, expansionOf, this, render_nil]
  | cons p ps ih =>
    obtain ⟨k, lit⟩ := p
    have hkp := hk (k, lit) (List.mem_cons_self _ _)
    have hlp := hl (k, lit) (List.mem_cons_self _ _)
    obtain ⟨d1, d2, d3⟩ := toDigits_spec k
    simp only [templateOf, expansionOf]
    rw [render_lits U m lit0 o _ h0]
    rw [render_token U m (o ++ lit0) (Nat.toDigits 10 k) (templateOf lit ps)
      (fun c hc => isAsciiDigit_unicodeIsDigit U c (d2 c hc))
      (templateOf_head U lit ps hlp.2)]
    rw [tokenOutput_inRange m _ d3 d2 (by rw [d1]; exact hkp.1) (by rw [d1]; exact hkp.2) hm, d1]
    rw [List.getElem?_eq_getElem hkp.2]
    simp only [Option.some_bind]
    rw [ih lit _ (fun q hq => hk q (List.mem_cons_of_mem _ hq)) hlp.1
      (fun q hq => hl q (List.mem_cons_of_mem _ hq))]
    have hkl : k < m.length := hkp.2
    simp [List.getD_eq_getElem?_getD, List.getElem?_eq_getElem hkl]

/-- C3. In-range tokens are substituted: for a capture array `m` (of a length that fits
an `int`) and a template `lit0 $k1 lit1 ... $kn litn` in which every `ki` is written in
decimal with `1 ≤ ki < len(m)`, no literal contains `$` and no `lit1..litn` begins with a
`unicode.IsDigit` character, `allMatchesReplacement` returns
`lit0 m[k1] lit1 ... m[kn] litn`, whatever the captures contain. -/
theorem allMatchesReplacement_substitutes (U : UnicodeTables) (m : List GoString)
    (lit0 : GoString) (toks : List (Nat × GoString)) (hm : m.length ≤ maxInt)
    (hk : ∀ p ∈ toks, 1 ≤ p.1 ∧ p.1 < m.length) (h0 : '$' ∉ lit0)
    (hl : ∀ p ∈ toks, '$' ∉ p.2 ∧ ∀ c ∈ p.2.head?, unicodeIsDigit U c = false) :
    allMatchesReplacement U (templateOf lit0 toks) m = some (expansionOf m lit0 toks) := by
  rw [allMatchesReplacement_eq_render, render_templateOf U m toks lit0 [] hm hk h0 hl]
  simp

/-- C3, witness: `"$1 $2"` against `["full", "Chrome", "99"]` yields `"Chrome 99"`. -/
theorem allMatchesReplacement_substitutes_witness :
    allMatchesReplacement sampleTables "$1 $2".toList sampleCaptures = some "Chrome 99".toList :=
  allMatchesReplacement_substitutes sampleTables sampleCaptures [] [(1, [' ']), (2, [])]
    (by decide) (by decide) (by decide) (by decide)

/-! ## C4 and C5: tokens that are not substituted -/

theorem allTokensDead_drop (U : UnicodeTables) (m : List GoString) (ds rest : GoString)
    (h : allTokensDead U m (ds ++ rest) = true) : allTokensDead U m rest = true := by
  induction ds with
  | nil => simpa using h
  | cons c cs ih =>
    simp only [List.cons_append, allTokensDead, Bool.and_eq_true] at h
    exact ih h.2

theorem takeWhile_digits (U : UnicodeTables) (ds rest : GoString)
    (hd : ∀ c ∈ ds, unicodeIsDigit U c = true)
    (hr : ∀ c ∈ rest.head?, unicodeIsDigit U c = false) :
    (ds ++ rest).takeWhile (unicodeIsDigit U) = ds := by
  induction ds with
  | nil =>
    cases rest with
    | nil => simp
    | cons c cs =>
      have := hr c (by simp)
      simp [List.takeWhile, this]
  | cons c cs ih =>
    have hc := hd c (List.mem_cons_self _ _)
    have := ih (fun d h => hd d (List.mem_cons_of_mem _ h))
    simp only [List.cons_append, List.takeWhile_cons, hc, if_true, this]

theorem render_allTokensDead (U : UnicodeTables) (m : List GoString) (t o : GoString)
    (hm : m.length ≤ maxInt) (h : allTokensDead U m t = true) :
    render U m o t = some (o ++ t) := by
  generalize hn : t.length = n
  induction n using Nat.strong_induction_on generalizing t o with
  | _ n ih =>
    rcases template_cases U t with rfl | ⟨c, cs, hc, rfl⟩ | ⟨ds, rest, hd, hr, rfl⟩
    · simp [render_nil]
    · rw [render_lit U m o c cs hc]
      simp only [allTokensDead, Bool.and_eq_true] at h
      rw [ih cs.length (by simp at hn; omega) cs (o ++ [c]) h.2 rfl]
      simp
    · rw [render_token U m o ds rest hd hr]
      simp only [allTokensDead, if_true, Bool.and_eq_true] at h
      obtain ⟨h1, h2⟩ := h
      simp only [deadToken, takeWhile_digits U ds rest hd hr, Bool.or_eq_true,
        List.isEmpty_iff, Bool.not_eq_true', List.all_eq_false, beq_iff_eq,
        decide_eq_true_eq] at h1
      have hdead : ds = [] ∨ (∃ c ∈ ds, isAsciiDigit c = false) ∨ decVal ds = 0 ∨
          m.length ≤ decVal ds := by
        rcases h1 with ((h1 | ⟨c, hc, hc'⟩) | h1) | h1
        · exact Or.inl h1
        · exact Or.inr (Or.inl ⟨c, hc, by simpa using hc'⟩)
        · exact Or.inr (Or.inr (Or.inl h1))
        · exact Or.inr (Or.inr (Or.inr h1))
      rw [tokenOutput_dead U m ds hd hm hdead]
      simp only [Option.some_bind]
      rw [ih rest.length (by simp at hn; omega) rest _ (allTokensDead_drop U m ds rest h2) rfl]
      simp

theorem allTokensDead_of_no_dollar (U : UnicodeTables) (m : List GoString) (t : GoString)
    (h : '$' ∉ t) : allTokensDead U m t = true := by
  induction t with
  | nil => rfl
  | cons c cs ih =>
    have hc : c ≠ '$' := fun e => h (by simp [e])
    simp [allTokensDead, hc, ih (fun e => h (List.mem_cons_of_mem _ e))]

theorem allTokensDead_of_short (U : UnicodeTables) (m : List GoString) (t : GoString)
    (h : m.length ≤ 1) : allTokensDead U m t = true := by
  induction t with
  | nil => rfl
  | cons c cs ih =>
    simp only [allTokensDead, ih, Bool.and_true]
    split
    · simp only [deadToken, Bool.or_eq_true, beq_iff_eq, decide_eq_true_eq]
      by_cases h0 : decVal (List.takeWhile (unicodeIsDigit U) cs) = 0
      · exact Or.inl (Or.inr h0)
      · exact Or.inr (by omega)
    · rfl

/-- C4. Out-of-range tokens are left unchanged: for a capture array `m` (of a length that
fits an `int`) and a template `t` in which every `$` is followed by a maximal run of
digits that is empty (also a trailing `$`), is not an ASCII numeral, or has value 0 or a
value `≥ len(m)`, `allMatchesReplacement(t, m) = t`; in particular when `t` contains no
`$`, and when `len(m) ≤ 1`. -/
theorem allMatchesReplacement_unchanged (U : UnicodeTables) (t : GoString) (m : List GoString)
    (hm : m.length ≤ maxInt)
    (h : allTokensDead U m t = true ∨ '$' ∉ t ∨ m.length ≤ 1) :
    allMatchesReplacement U t m = some t := by
  have hdead : allTokensDead U m t = true := by
    rcases h with h | h | h
    · exact h
    · exact allTokensDead_of_no_dollar U m t h
    · exact allTokensDead_of_short U m t h
  rw [allMatchesReplacement_eq_render, render_allTokensDead U m t [] hm hdead]
  simp

/-- C4, witness: `"$9"` against the three captures `["full", "Chrome", "99"]` yields
`"$9"`. -/
theorem allMatchesReplacement_unchanged_witness :
    allMatchesReplacement sampleTables "$9".toList sampleCaptures = some "$9".toList :=
  allMatchesReplacement_unchanged sampleTables "$9".toList sampleCaptures (by decide)
    (Or.inl (by decide))

/-- C5. `$` only starts a token and is not an escape: for every capture array `m` and
every template `t` that begins with `$`, `allMatchesReplacement("$" ++ t, m)` is `"$"`
followed by `allMatchesReplacement(t, m)` (and panics exactly when the latter does). -/
theorem allMatchesReplacement_dollar_dollar (U : UnicodeTables) (m : List GoString)
    (t : GoString) (ht : t.head? = some '$') :
    allMatchesReplacement U ('$' :: t) m =
      (allMatchesReplacement U t m).map (fun v => '$' :: v) := by
  cases t with
  | nil => simp at ht
  | cons c cs =>
    simp only [List.head?_cons, Option.some.injEq] at ht
    subst ht
    rw [allMatchesReplacement_eq_render, allMatchesReplacement_eq_render]
    have h := render_token U m [] [] ('$' :: cs) (by simp)
      (by simp [unicodeIsDigit_not_dollar])
    simp only [List.nil_append] at h
    rw [h, tokenOutput_nil]
    simp only [Option.some_bind]
    rw [render_output]
    rfl

/-- C5, witness: `"$$1"` is rendered as `"$"` followed by the rendering of `"$1"`, for
the captures `["full", "Chrome", "99"]`. -/
theorem allMatchesReplacement_dollar_dollar_witness :
    allMatchesReplacement sampleTables "$$1".toList sampleCaptures =
      (allMatchesReplacement sampleTables "$1".toList sampleCaptures).map (fun v => '$' :: v) :=
  allMatchesReplacement_dollar_dollar sampleTables sampleCaptures "$1".toList (by decide)

/-! ## Lemmas on `TrimSpace` and `DevicePattern.Match` -/

/-- The function `allMatchesReplacement` does not panic on a capture array whose length fits an
`int`. -/
theorem render_isSome (U : UnicodeTables) (m : List GoString) (t o : GoString)
    (hm : m.length ≤ maxInt) : ∃ v, render U m o t = some v := by
  generalize hn : t.length = n
  induction n using Nat.strong_induction_on generalizing t o with
  | _ n ih =>
    rcases template_cases U t with rfl | ⟨c, cs, hc, rfl⟩ | ⟨ds, rest, hd, hr, rfl⟩
    · exact ⟨o, render_nil U m o⟩
    · rw [render_lit U m o c cs hc]
      exact ih cs.length (by simp at hn; omega) cs _ rfl
    · rw [render_token U m o ds rest hd hr]
      obtain ⟨v, hv⟩ := tokenOutput_isSome m ds hm
      rw [hv]
      exact ih rest.length (by simp at hn; omega) rest _ rfl

theorem allMatchesReplacement_isSome (U : UnicodeTables) (t : GoString) (m : List GoString)
    (hm : m.length ≤ maxInt) : ∃ v, allMatchesReplacement U t m = some v :=
  render_isSome U m t [] hm

theorem Regexp.captures_le (re : Regexp) (line : GoString) :
    (re.FindStringSubmatch line).length ≤ maxInt := by
  rcases re.submatch_length line with h | h
  · rw [h]; simp
  · rw [h]; exact re.numSubexp_lt

theorem TrimSpace_nil (U : UnicodeTables) : TrimSpace U [] = [] := by
  simp [TrimSpace, List.rdropWhile]

theorem TrimSpace_head (U : UnicodeTables) (s : GoString) :
    ∀ c ∈ (TrimSpace U s).head?, unicodeIsSpace U c = false := by
  intro c hc
  have hp : TrimSpace U s <+: List.dropWhile (unicodeIsSpace U) s :=
    List.rdropWhile_prefix _ _
  obtain ⟨r, hr⟩ := hp
  cases ht : TrimSpace U s with
  | nil => rw [ht] at hc; simp at hc
  | cons a as =>
    rw [ht] at hc hr
    simp only [List.head?_cons, Option.mem_def, Option.some.injEq] at hc
    subst hc
    have := List.head?_dropWhile_not (unicodeIsSpace U) s
    rw [← hr] at this
    simpa using this

theorem TrimSpace_last (U : UnicodeTables) (s : GoString) :
    ∀ c ∈ (TrimSpace U s).getLast?, unicodeIsSpace U c = false := by
  intro c hc
  by_cases hne : TrimSpace U s = []
  · rw [hne] at hc; simp at hc
  · have := List.rdropWhile_last_not (unicodeIsSpace U)
      (List.dropWhile (unicodeIsSpace U) s) hne
    rw [List.getLast?_eq_getLast _ hne] at hc
    simp only [Option.mem_def, Option.some.injEq] at hc
    rw [← hc]
    simpa [TrimSpace] using this

theorem Match_noMatch (U : UnicodeTables) (p : DevicePattern) (line : GoString) (d : Device)
    (h : p.Regexp.FindStringSubmatch line = []) : p.Match U line d = some d := by
  simp [DevicePattern.Match, h]

theorem Match_template (U : UnicodeTables) (p : DevicePattern) (line : GoString) (d : Device)
    (h : p.Regexp.FindStringSubmatch line ≠ []) (hr : p.DeviceReplacement ≠ []) :
    ∃ v, allMatchesReplacement U p.DeviceReplacement (p.Regexp.FindStringSubmatch line) = some v ∧
      p.Match U line d = some { Family := TrimSpace U v } := by
  obtain ⟨v, hv⟩ := allMatchesReplacement_isSome U p.DeviceReplacement
    (p.Regexp.FindStringSubmatch line) (p.Regexp.captures_le line)
  refine ⟨v, hv, ?_⟩
  have h1 : ¬ (p.Regexp.FindStringSubmatch line).length = 0 := fun e => h (List.length_eq_zero.1 e)
  have h2 : p.DeviceReplacement.length > 0 := List.length_pos.2 hr
  simp [DevicePattern.Match, h1, h2, hv]

theorem Match_group (U : UnicodeTables) (p : DevicePattern) (line : GoString) (d : Device)
    (h : p.Regexp.FindStringSubmatch line ≠ []) (hr : p.DeviceReplacement = [])
    (hg : p.Regexp.NumSubexp ≥ 1) :
    ∃ v, (p.Regexp.FindStringSubmatch line)[1]? = some v ∧
      p.Match U line d = some { Family := TrimSpace U v } := by
  have h1 : ¬ (p.Regexp.FindStringSubmatch line).length = 0 := fun e => h (List.length_eq_zero.1 e)
  have hlen : 1 < (p.Regexp.FindStringSubmatch line).length := by
    rcases p.Regexp.submatch_length line with e | e
    · exact absurd e h
    · omega
  refine ⟨_, List.getElem?_eq_getElem hlen, ?_⟩
  simp [DevicePattern.Match, h1, hr, hg, List.getElem?_eq_getElem hlen]

theorem Match_plain (U : UnicodeTables) (p : DevicePattern) (line : GoString) (d : Device)
    (h : p.Regexp.FindStringSubmatch line ≠ []) (hr : p.DeviceReplacement = [])
    (hg : p.Regexp.NumSubexp = 0) :
    p.Match U line d = some { Family := TrimSpace U d.Family } := by
  have h1 : ¬ (p.Regexp.FindStringSubmatch line).length = 0 := fun e => h (List.length_eq_zero.1 e)
  simp [DevicePattern.Match, h1, hr, hg]

/-- The method `Match` never panics. -/
theorem Match_isSome (U : UnicodeTables) (p : DevicePattern) (line : GoString) (d : Device) :
    ∃ d1, p.Match U line d = some d1 := by
  by_cases h : p.Regexp.FindStringSubmatch line = []
  · exact ⟨d, Match_noMatch U p line d h⟩
  · by_cases hr : p.DeviceReplacement = []
    · by_cases hg : p.Regexp.NumSubexp = 0
      · exact ⟨_, Match_plain U p line d h hr hg⟩
      · obtain ⟨v, _, hv⟩ := Match_group U p line d h hr (by omega)
        exact ⟨_, hv⟩
    · obtain ⟨v, _, hv⟩ := Match_template U p line d h hr
      exact ⟨_, hv⟩

/-! ## Lemmas on `ParseDevice` -/

theorem modify_length_append {α : Type} (f : α → α) (pre : List α) (p : α) (post : List α) :
    List.modify f pre.length (pre ++ p :: post) = pre ++ f p :: post := by
  induction pre with
  | nil => simp [List.modify]
  | cons a as ih => simpa [List.modify] using ih

/-- A list either has no element with property `A`, or splits at its first such
element. -/
theorem first_split {α : Type} (A : α → Prop) (l : List α) :
    (∀ q ∈ l, ¬ A q) ∨
      ∃ pre p post, l = pre ++ p :: post ∧ (∀ q ∈ pre, ¬ A q) ∧ A p := by
  induction l with
  | nil => left; simp
  | cons a as ih =>
    by_cases ha : A a
    · right; exact ⟨[], a, as, rfl, by simp, ha⟩
    · rcases ih with h | ⟨pre, p, post, e, h1, h2⟩
      · left
        intro q hq
        rcases List.mem_cons.1 hq with rfl | hq
        · exact ha
        · exact h q hq
      · right
        refine ⟨a :: pre, p, post, by simp [e], ?_, h2⟩
        intro q hq
        rcases List.mem_cons.1 hq with rfl | hq
        · exact ha
        · exact h1 q hq

theorem Device_eq_of_family (d : Device) (h : d.Family = []) : d = { Family := [] } := by
  cases d; simp at h; simp [h]

theorem ParseDevice_loop_found (E : Env) (line : GoString) (pre : List DevicePattern)
    (p : DevicePattern) (post : List DevicePattern) (d : Device) (i : Nat)
    (s : Scan Device DevicePattern) (hs : s.result = { Family := [] })
    (hpre : ∀ q ∈ pre, ∃ dq, q.Match E.unicode line { Family := [] } = some dq ∧ dq.Family = [])
    (hp : p.Match E.unicode line { Family := [] } = some d) (hd : d.Family ≠ []) :
    ParseDevice.loop E line (pre ++ p :: post) i s =
      some { result := d, found := true, foundIdx := ((i + pre.length : Nat) : Int),
             patterns := s.patterns.modify
               (fun q => { q with MatchesCount := intInc q.MatchesCount }) (i + pre.length) } := by
  induction pre generalizing i s with
  | nil =>
    have hlen : d.Family.length > 0 := List.length_pos.2 hd
    simp [ParseDevice.loop, hs, hp, hlen]
  | cons a as ih =>
    obtain ⟨dq, h1, h2⟩ := hpre a (List.mem_cons_self _ _)
    have hdq := Device_eq_of_family dq h2
    subst hdq
    have e : i + 1 + as.length = i + (as.length + 1) := by omega
    have hrec := ih (i + 1) { s with result := { Family := [] } } rfl
      (fun q hq => hpre q (List.mem_cons_of_mem _ hq))
    rw [List.cons_append, ParseDevice.loop]
    simp only [hs, h1, List.length_nil, gt_iff_lt, lt_self_iff_false, if_false,
      List.length_cons]
    rw [hrec, e]

theorem ParseDevice_loop_notFound (E : Env) (line : GoString) (ps : List DevicePattern)
    (i : Nat) (s : Scan Device DevicePattern) (hs : s.result = { Family := [] })
    (h : ∀ q ∈ ps, ∃ dq, q.Match E.unicode line { Family := [] } = some dq ∧ dq.Family = []) :
    ParseDevice.loop E line ps i s = some s := by
  induction ps generalizing i s with
  | nil => simp [ParseDevice.loop]
  | cons a as ih =>
    obtain ⟨dq, h1, h2⟩ := h a (List.mem_cons_self _ _)
    have hdq := Device_eq_of_family dq h2
    subst hdq
    simp only [ParseDevice.loop, hs, h1, List.length_nil, gt_iff_lt, lt_self_iff_false, if_false]
    rw [ih (i + 1) { s with result := { Family := [] } } rfl
      (fun q hq => h q (List.mem_cons_of_mem _ hq))]
    cases s
    simp only at hs
    simp [hs]

theorem ParseDevice_found (E : Env) (T : Tuning) (P : Parser) (line : GoString)
    (pre : List DevicePattern) (p : DevicePattern) (post : List DevicePattern) (d : Device)
    (hP : P.DevicePatterns = pre ++ p :: post)
    (hpre : ∀ q ∈ pre, ∃ dq, q.Match E.unicode line { Family := [] } = some dq ∧ dq.Family = [])
    (hp : p.Match E.unicode line { Family := [] } = some d) (hd : d.Family ≠ []) :
    ParseDevice E T P line =
      some (d, { P with
        DevicePatterns := pre ++ { p with MatchesCount := intInc p.MatchesCount } :: post
        DeviceMisses := if (pre.length : Int) > T.matchIdxNotOk then intInc P.DeviceMisses
          else P.DeviceMisses }) := by
  unfold ParseDevice ParseDevice.scan
  rw [hP, ParseDevice_loop_found E line pre p post d 0 _ rfl hpre hp hd]
  simp only [Nat.zero_add, Bool.not_true, Bool.false_eq_true, if_false]
  rw [modify_length_append]

theorem ParseDevice_notFound (E : Env) (T : Tuning) (P : Parser) (line : GoString)
    (h : ∀ q ∈ P.DevicePatterns,
      ∃ dq, q.Match E.unicode line { Family := [] } = some dq ∧ dq.Family = []) :
    ParseDevice E T P line =
      some ({ Family := "Other".toList }, { P with
        DeviceMisses := if (-1 : Int) > T.matchIdxNotOk then intInc P.DeviceMisses
          else P.DeviceMisses }) := by
  unfold ParseDevice ParseDevice.scan
  rw [ParseDevice_loop_notFound E line P.DevicePatterns 0 _ rfl h]
  simp

/-- Every catalog either has no pattern that yields a family for the line, or splits at
the first pattern that does. -/
theorem DevicePatterns_split (U : UnicodeTables) (line : GoString) (l : List DevicePattern) :
    (∀ q ∈ l, ∃ dq, q.Match U line { Family := [] } = some dq ∧ dq.Family = []) ∨
      ∃ pre p post d, l = pre ++ p :: post ∧
        (∀ q ∈ pre, ∃ dq, q.Match U line { Family := [] } = some dq ∧ dq.Family = []) ∧
        p.Match U line { Family := [] } = some d ∧ d.Family ≠ [] := by
  have key : ∀ q : DevicePattern,
      ¬ (∃ d, q.Match U line { Family := [] } = some d ∧ d.Family ≠ []) →
        ∃ dq, q.Match U line { Family := [] } = some dq ∧ dq.Family = [] := by
    intro q hq
    obtain ⟨d1, h1⟩ := Match_isSome U q line { Family := [] }
    refine ⟨d1, h1, ?_⟩
    by_contra hne
    exact hq ⟨d1, h1, hne⟩
  rcases first_split
    (fun q : DevicePattern => ∃ d, q.Match U line { Family := [] } = some d ∧ d.Family ≠ []) l
    with h | ⟨pre, p, post, e, h1, d, h2, h3⟩
  · left; exact fun q hq => key q (h q hq)
  · right; exact ⟨pre, p, post, d, e, fun q hq => key q (h1 q hq), h2, h3⟩

/-! ## C1: first match wins -/

theorem intInc_eq (x : Int) (h1 : -(2 ^ 63 : Int) ≤ x) (h2 : x < (maxInt : Int)) :
    intInc x = x + 1 := by
  have hm : (maxInt : Int) = 9223372036854775807 := by
    rw [maxInt_eq]; rfl
  rw [hm] at h2
  simp only [intInc, wrapInt]
  norm_num at h1 ⊢
  omega

/-- C1. First match wins. If `DevicePatterns` is `pre ++ p :: post`, where no pattern of
`pre` yields a family for the line and `p` yields the non-empty family of `d`, then
`ParseDevice` returns `d`, the catalog afterwards is `pre ++ p' :: post` with `p'` the
pattern `p` whose `MatchesCount` went through `MatchesCount++` (one more, below the
largest `int`): no other count and no position changes, and `post` has no influence. If
no pattern yields a family, it returns "Other" and the catalog is unchanged. One of the
two cases always applies. -/
theorem ParseDevice_first_match_wins (E : Env) (T : Tuning) (P : Parser) (line : GoString) :
    (∀ pre p post d, P.DevicePatterns = pre ++ p :: post →
      (∀ q ∈ pre, ∃ dq, q.Match E.unicode line { Family := [] } = some dq ∧ dq.Family = []) →
      p.Match E.unicode line { Family := [] } = some d → d.Family ≠ [] →
      ∃ P1, ParseDevice E T P line = some (d, P1) ∧
        P1.DevicePatterns = pre ++ { p with MatchesCount := intInc p.MatchesCount } :: post ∧
        (-(2 ^ 63 : Int) ≤ p.MatchesCount → p.MatchesCount < (maxInt : Int) →
          intInc p.MatchesCount = p.MatchesCount + 1)) ∧
    ((∀ q ∈ P.DevicePatterns,
        ∃ dq, q.Match E.unicode line { Family := [] } = some dq ∧ dq.Family = []) →
      ∃ P1, ParseDevice E T P line = some ({ Family := "Other".toList }, P1) ∧
        P1.DevicePatterns = P.DevicePatterns) ∧
    ((∀ q ∈ P.DevicePatterns,
        ∃ dq, q.Match E.unicode line { Family := [] } = some dq ∧ dq.Family = []) ∨
      ∃ pre p post d, P.DevicePatterns = pre ++ p :: post ∧
        (∀ q ∈ pre, ∃ dq, q.Match E.unicode line { Family := [] } = some dq ∧ dq.Family = []) ∧
        p.Match E.unicode line { Family := [] } = some d ∧ d.Family ≠ []) := by
  refine ⟨?_, ?_, DevicePatterns_split E.unicode line P.DevicePatterns⟩
  · intro pre p post d hP hpre hp hd
    exact ⟨_, ParseDevice_found E T P line pre p post d hP hpre hp hd, rfl,
      intInc_eq p.MatchesCount⟩
  · intro h
    exact ⟨_, ParseDevice_notFound E T P line h, rfl⟩

/-- C1, witness: on the catalog `[Chrome, (.*)]` the line `"Mozilla Chrome/99"` is
answered by the first pattern, whose count goes from 0 to 1. -/
theorem ParseDevice_first_match_wins_witness :
    ∃ P1, ParseDevice sampleEnv Tuning.initial sampleParser "Mozilla Chrome/99".toList =
        some ({ Family := "Chrome".toList }, P1) ∧
      P1.DevicePatterns =
        [] ++ { sampleDevicePattern (Regexp.literal "Chrome".toList) "Chrome" "Chrome" 0 with
                MatchesCount := intInc 0 } ::
          [sampleDevicePattern Regexp.wholeLine "(.*)" " dev $1 " 5] ∧
      (-(2 ^ 63 : Int) ≤ 0 → (0 : Int) < (maxInt : Int) → intInc 0 = 0 + 1) :=
  (ParseDevice_first_match_wins sampleEnv Tuning.initial sampleParser
    "Mozilla Chrome/99".toList).1 []
    (sampleDevicePattern (Regexp.literal "Chrome".toList) "Chrome" "Chrome" 0)
    [sampleDevicePattern Regexp.wholeLine "(.*)" " dev $1 " 5] { Family := "Chrome".toList }
    rfl (by simp) (by decide) (by decide)

/-! ## C6: `DevicePattern.Match` -/

/-- C6. `DevicePattern.Match` on pattern `p`, line and record `d`. If the regex does not
match, `d` is unchanged. If it matches with submatch array `m`, the family afterwards is
`TrimSpace(allMatchesReplacement(p.DeviceReplacement, m))` when `DeviceReplacement` is
non-empty, `TrimSpace(m[1])` when it is empty and the regex has at least one capture
group, and `TrimSpace` of the previous family otherwise (an unset family stays unset);
in each case the family has no leading and no trailing whitespace. -/
theorem Match_spec (U : UnicodeTables) (p : DevicePattern) (line : GoString) (d : Device) :
    (p.Regexp.FindStringSubmatch line = [] → p.Match U line d = some d) ∧
    (p.Regexp.FindStringSubmatch line ≠ [] →
      (p.DeviceReplacement ≠ [] →
        ∃ v, allMatchesReplacement U p.DeviceReplacement (p.Regexp.FindStringSubmatch line)
            = some v ∧
          p.Match U line d = some { Family := TrimSpace U v }) ∧
      (p.DeviceReplacement = [] → p.Regexp.NumSubexp ≥ 1 →
        ∃ v, (p.Regexp.FindStringSubmatch line)[1]? = some v ∧
          p.Match U line d = some { Family := TrimSpace U v }) ∧
      (p.DeviceReplacement = [] → p.Regexp.NumSubexp = 0 →
        p.Match U line d = some { Family := TrimSpace U d.Family } ∧
        (d.Family = [] → p.Match U line d = some d)) ∧
      (∃ d1, p.Match U line d = some d1 ∧
        (∀ c ∈ d1.Family.head?, unicodeIsSpace U c = false) ∧
        (∀ c ∈ d1.Family.getLast?, unicodeIsSpace U c = false))) := by
  refine ⟨Match_noMatch U p line d, fun h => ⟨Match_template U p line d h,
    Match_group U p line d h, ?_, ?_⟩⟩
  · intro hr hg
    refine ⟨Match_plain U p line d h hr hg, fun hd => ?_⟩
    rw [Match_plain U p line d h hr hg, hd, TrimSpace_nil]
    cases d
    simp only at hd
    simp [hd]
  · by_cases hr : p.DeviceReplacement = []
    · by_cases hg : p.Regexp.NumSubexp = 0
      · exact ⟨_, Match_plain U p line d h hr hg, TrimSpace_head U _, TrimSpace_last U _⟩
      · obtain ⟨v, _, hv⟩ := Match_group U p line d h hr (by omega)
        exact ⟨_, hv, TrimSpace_head U _, TrimSpace_last U _⟩
    · obtain ⟨v, _, hv⟩ := Match_template U p line d h hr
      exact ⟨_, hv, TrimSpace_head U _, TrimSpace_last U _⟩

/-- C6, witness: the pattern `(.*)` with template `" dev $1 "` turns the line `"x"` into
the family `"dev x"`. -/
theorem Match_spec_witness :
    ∃ v, allMatchesReplacement sampleTables " dev $1 ".toList
        (Regexp.wholeLine.FindStringSubmatch "x".toList) = some v ∧
      (sampleDevicePattern Regexp.wholeLine "(.*)" " dev $1 " 5).Match sampleTables "x".toList
        { Family := [] } = some { Family := TrimSpace sampleTables v } :=
  ((Match_spec sampleTables (sampleDevicePattern Regexp.wholeLine "(.*)" " dev $1 " 5)
    "x".toList { Family := [] }).2 (by decide)).1 (by decide)

/-! ## Lemmas on the loops of the lookups -/

theorem ParseUserAgent_loop_spec (E : Env) (line : GoString) (ps : List UserAgentPattern)
    (i : Nat) (s : Scan UserAgent UserAgentPattern) (hs : s.found = false) :
    ((ParseUserAgent.loop E line ps i s).found = true →
      (ParseUserAgent.loop E line ps i s).result.Family ≠ [] ∧
      (i : Int) ≤ (ParseUserAgent.loop E line ps i s).foundIdx ∧
      (ParseUserAgent.loop E line ps i s).foundIdx < ((i + ps.length : Nat) : Int)) ∧
    ((ParseUserAgent.loop E line ps i s).found = false →
      (ParseUserAgent.loop E line ps i s).patterns = s.patterns ∧
      (s.result.Family = [] → (ParseUserAgent.loop E line ps i s).result.Family = [])) := by
  induction ps generalizing i s with
  | nil => simp [ParseUserAgent.loop, hs]
  | cons a as ih =>
    rw [ParseUserAgent.loop]
    by_cases hf : (E.uaMatch a line s.result).Family.length > 0
    · simp only [hf, if_true]
      refine ⟨fun _ => ⟨List.length_pos.1 hf, le_refl _, ?_⟩, fun h => by simp at h⟩
      simp only [List.length_cons]
      omega
    · simp only [hf, if_false]
      have hfam : (E.uaMatch a line s.result).Family = [] := by
        apply List.length_eq_zero.1; omega
      obtain ⟨h1, h2⟩ := ih (i + 1) { s with result := E.uaMatch a line s.result } hs
      refine ⟨fun h => ?_, fun h => ?_⟩
      · obtain ⟨a1, a2, a3⟩ := h1 h
        refine ⟨a1, by omega, ?_⟩
        simp only [List.length_cons]
        omega
      · obtain ⟨b1, b2⟩ := h2 h
        exact ⟨b1, fun _ => b2 hfam⟩

theorem ParseOs_loop_spec (E : Env) (line : GoString) (ps : List OsPattern)
    (i : Nat) (s : Scan Os OsPattern) (hs : s.found = false) :
    ((ParseOs.loop E line ps i s).found = true →
      (ParseOs.loop E line ps i s).result.Family ≠ [] ∧
      (i : Int) ≤ (ParseOs.loop E line ps i s).foundIdx ∧
      (ParseOs.loop E line ps i s).foundIdx < ((i + ps.length : Nat) : Int)) ∧
    ((ParseOs.loop E line ps i s).found = false →
      (ParseOs.loop E line ps i s).patterns = s.patterns ∧
      (s.result.Family = [] → (ParseOs.loop E line ps i s).result.Family = [])) := by
  induction ps generalizing i s with
  | nil => simp [ParseOs.loop, hs]
  | cons a as ih =>
    rw [ParseOs.loop]
    by_cases hf : (E.osMatch a line s.result).Family.length > 0
    · simp only [hf, if_true]
      refine ⟨fun _ => ⟨List.length_pos.1 hf, le_refl _, ?_⟩, fun h => by simp at h⟩
      simp only [List.length_cons]
      omega
    · simp only [hf, if_false]
      have hfam : (E.osMatch a line s.result).Family = [] := by
        apply List.length_eq_zero.1; omega
      obtain ⟨h1, h2⟩ := ih (i + 1) { s with result := E.osMatch a line s.result } hs
      refine ⟨fun h => ?_, fun h => ?_⟩
      · obtain ⟨a1, a2, a3⟩ := h1 h
        refine ⟨a1, by omega, ?_⟩
        simp only [List.length_cons]
        omega
      · obtain ⟨b1, b2⟩ := h2 h
        exact ⟨b1, fun _ => b2 hfam⟩

theorem ParseUserAgent_scan_spec (E : Env) (P : Parser) (line : GoString) :
    ((ParseUserAgent.scan E P line).found = true →
      (ParseUserAgent.scan E P line).result.Family ≠ [] ∧
      0 ≤ (ParseUserAgent.scan E P line).foundIdx ∧
      (ParseUserAgent.scan E P line).foundIdx < (P.UserAgentPatterns.length : Int)) ∧
    ((ParseUserAgent.scan E P line).found = false →
      (ParseUserAgent.scan E P line).patterns = P.UserAgentPatterns ∧
      (ParseUserAgent.scan E P line).result.Family = []) := by
  have h := ParseUserAgent_loop_spec E line P.UserAgentPatterns 0
    { result := { Family := [], Major := [], Minor := [], Patch := [] },
      foundIdx := mathMaxInt32, found := false, patterns := P.UserAgentPatterns } rfl
  unfold ParseUserAgent.scan
  refine ⟨fun hf => ?_, fun hf => ?_⟩
  · obtain ⟨a1, a2, a3⟩ := h.1 hf
    refine ⟨a1, by simpa using a2, by simpa using a3⟩
  · obtain ⟨b1, b2⟩ := h.2 hf
    exact ⟨b1, b2 rfl⟩

theorem ParseOs_scan_spec (E : Env) (P : Parser) (line : GoString) :
    ((ParseOs.scan E P line).found = true →
      (ParseOs.scan E P line).result.Family ≠ [] ∧
      0 ≤ (ParseOs.scan E P line).foundIdx ∧
      (ParseOs.scan E P line).foundIdx < (P.OsPatterns.length : Int)) ∧
    ((ParseOs.scan E P line).found = false →
      (ParseOs.scan E P line).patterns = P.OsPatterns ∧
      (ParseOs.scan E P line).result.Family = []) := by
  have h := ParseOs_loop_spec E line P.OsPatterns 0
    { result := { Family := [], Major := [], Minor := [], Patch := [] },
      foundIdx := mathMaxInt32, found := false, patterns := P.OsPatterns } rfl
  unfold ParseOs.scan
  refine ⟨fun hf => ?_, fun hf => ?_⟩
  · obtain ⟨a1, a2, a3⟩ := h.1 hf
    refine ⟨a1, by simpa using a2, by simpa using a3⟩
  · obtain ⟨b1, b2⟩ := h.2 hf
    exact ⟨b1, b2 rfl⟩

theorem ParseDevice_scan_spec (E : Env) (P : Parser) (line : GoString) :
    ∃ s, ParseDevice.scan E P line = some s ∧
      (s.found = true → s.result.Family ≠ [] ∧ 0 ≤ s.foundIdx ∧
        s.foundIdx < (P.DevicePatterns.length : Int)) ∧
      (s.found = false → s.patterns = P.DevicePatterns ∧ s.result.Family = []) := by
  unfold ParseDevice.scan
  rcases DevicePatterns_split E.unicode line P.DevicePatterns with
    h | ⟨pre, p, post, d, e, h1, h2, h3⟩
  · refine ⟨_, ParseDevice_loop_notFound E line P.DevicePatterns 0 _ rfl h, ?_, ?_⟩
    · intro hf; simp at hf
    · intro _; exact ⟨rfl, rfl⟩
  · rw [e]
    refine ⟨_, ParseDevice_loop_found E line pre p post d 0 _ rfl h1 h2 h3, ?_, ?_⟩
    · intro _
      refine ⟨h3, by simp, ?_⟩
      simp only [List.length_append, List.length_cons]
      omega
    · intro hf; simp at hf

/-! ## Lemmas on `Parse` -/

theorem ParseUserAgent_mode (E : Env) (T : Tuning) (P : Parser) (line : GoString) :
    (ParseUserAgent E T P line).2.Mode = P.Mode := rfl

theorem ParseOs_mode (E : Env) (T : Tuning) (P : Parser) (line : GoString) :
    (ParseOs E T P line).2.Mode = P.Mode := rfl

theorem ParseUserAgent_family (E : Env) (T : Tuning) (P : Parser) (line : GoString) :
    (ParseUserAgent E T P line).1.Family ≠ [] := by
  obtain ⟨h1, h2⟩ := ParseUserAgent_scan_spec E P line
  unfold ParseUserAgent
  cases hf : (ParseUserAgent.scan E P line).found with
  | true => simpa [hf] using (h1 hf).1
  | false => simp [hf]

theorem ParseOs_family (E : Env) (T : Tuning) (P : Parser) (line : GoString) :
    (ParseOs E T P line).1.Family ≠ [] := by
  obtain ⟨h1, h2⟩ := ParseOs_scan_spec E P line
  unfold ParseOs
  cases hf : (ParseOs.scan E P line).found with
  | true => simpa [hf] using (h1 hf).1
  | false => simp [hf]

theorem ParseUserAgent_other (E : Env) (T : Tuning) (P : Parser) (line : GoString)
    (hf : (ParseUserAgent.scan E P line).found = false) :
    (ParseUserAgent E T P line).1.Family = "Other".toList := by
  simp [ParseUserAgent, hf]

theorem ParseOs_other (E : Env) (T : Tuning) (P : Parser) (line : GoString)
    (hf : (ParseOs.scan E P line).found = false) :
    (ParseOs E T P line).1.Family = "Other".toList := by
  simp [ParseOs, hf]

theorem ParseDevice_total (E : Env) (T : Tuning) (P : Parser) (line : GoString) :
    ∃ r, ParseDevice E T P line = some r ∧ r.1.Family ≠ [] ∧ r.2.Mode = P.Mode := by
  obtain ⟨s, hs, h1, h2⟩ := ParseDevice_scan_spec E P line
  unfold ParseDevice
  rw [hs]
  refine ⟨_, rfl, ?_, rfl⟩
  cases hf : s.found with
  | true => simpa [hf] using (h1 hf).1
  | false => simp [hf]

/-- The three `if` statements of `Parse` never panic; each sets its field of the client
to a record with a non-empty family when its mode bit is set and leaves it nil
otherwise. -/
theorem Parse_lookups_fields (E : Env) (T : Tuning) (P : Parser) (line : GoString) :
    ∃ st, Parse.lookups E T P line = some st ∧
      (intAnd EUserAgentLookUpMode P.Mode = EUserAgentLookUpMode →
        ∃ ua, st.1.UserAgent = some ua ∧ ua.Family ≠ []) ∧
      (intAnd EUserAgentLookUpMode P.Mode ≠ EUserAgentLookUpMode → st.1.UserAgent = none) ∧
      (intAnd EOsLookUpMode P.Mode = EOsLookUpMode → ∃ os, st.1.Os = some os ∧ os.Family ≠ []) ∧
      (intAnd EOsLookUpMode P.Mode ≠ EOsLookUpMode → st.1.Os = none) ∧
      (intAnd EDeviceLookUpMode P.Mode = EDeviceLookUpMode →
        ∃ dvc, st.1.Device = some dvc ∧ dvc.Family ≠ []) ∧
      (intAnd EDeviceLookUpMode P.Mode ≠ EDeviceLookUpMode → st.1.Device = none) := by
  unfold Parse.lookups
  by_cases hu : intAnd EUserAgentLookUpMode P.Mode = EUserAgentLookUpMode <;>
  by_cases ho : intAnd EOsLookUpMode P.Mode = EOsLookUpMode <;>
  by_cases hd : intAnd EDeviceLookUpMode P.Mode = EDeviceLookUpMode
  all_goals simp only [hu, ho, hd, if_true, if_false, ParseUserAgent_mode, ParseOs_mode]
  all_goals first
    | (obtain ⟨r, hr, hfam, _⟩ :=
        ParseDevice_total E T (ParseOs E T (ParseUserAgent E T P line).2 line).2 line
       rw [hr]
       refine ⟨_, rfl, ?_⟩
       simp [hfam, ParseUserAgent_family, ParseOs_family])
    | (obtain ⟨r, hr, hfam, _⟩ := ParseDevice_total E T (ParseUserAgent E T P line).2 line
       rw [hr]
       refine ⟨_, rfl, ?_⟩
       simp [hfam, ParseUserAgent_family, ParseOs_family])
    | (obtain ⟨r, hr, hfam, _⟩ := ParseDevice_total E T (ParseOs E T P line).2 line
       rw [hr]
       refine ⟨_, rfl, ?_⟩
       simp [hfam, ParseUserAgent_family, ParseOs_family])
    | (obtain ⟨r, hr, hfam, _⟩ := ParseDevice_total E T P line
       rw [hr]
       refine ⟨_, rfl, ?_⟩
       simp [hfam, ParseUserAgent_family, ParseOs_family])
    | (refine ⟨_, rfl, ?_⟩
       simp [ParseUserAgent_family, ParseOs_family])

/-! ## Lemmas on the mode bits -/

theorem toUint64_cast (m : Int) : ((toUint64 m : Nat) : Int) = m % 2 ^ 64 := by
  unfold toUint64
  exact Int.toNat_of_nonneg (Int.emod_nonneg _ (by norm_num))

theorem land_two_pow (i u : Nat) :
    Nat.land (2 ^ i) u = if u / 2 ^ i % 2 = 1 then 2 ^ i else 0 := by
  have h := Nat.two_pow_and u i
  have e : Nat.land (2 ^ i) u = 2 ^ i &&& u := rfl
  rw [e, h, Nat.testBit_to_div_mod]
  by_cases hb : u / 2 ^ i % 2 = 1 <;> simp [hb]

/-- The test `EUserAgentLookUpMode & parser.Mode == EUserAgentLookUpMode` holds exactly
when bit 1 of the two's complement pattern of `Mode` is set. -/
theorem intAnd_two (m : Int) : intAnd 2 m = 2 ↔ m / 2 % 2 = 1 := by
  have hc := toUint64_cast m
  have h2 : toUint64 2 = 2 ^ 1 := by decide
  unfold intAnd
  rw [h2, land_two_pow 1 (toUint64 m)]
  have key : (toUint64 m / 2 ^ 1 % 2 = 1) ↔ (m / 2 % 2 = 1) := by
    norm_num at hc ⊢
    omega
  by_cases hb : toUint64 m / 2 ^ 1 % 2 = 1
  · rw [if_pos hb]
    exact ⟨fun _ => key.1 hb, fun _ => by decide⟩
  · rw [if_neg hb]
    refine ⟨fun h => absurd h (by decide), fun h => absurd (key.2 h) hb⟩

theorem intAnd_one (m : Int) : intAnd 1 m = 1 ↔ m % 2 = 1 := by
  have hc := toUint64_cast m
  have h2 : toUint64 1 = 2 ^ 0 := by decide
  unfold intAnd
  rw [h2, land_two_pow 0 (toUint64 m)]
  have key : (toUint64 m / 2 ^ 0 % 2 = 1) ↔ (m % 2 = 1) := by
    norm_num at hc ⊢
    omega
  by_cases hb : toUint64 m / 2 ^ 0 % 2 = 1
  · rw [if_pos hb]
    exact ⟨fun _ => key.1 hb, fun _ => by decide⟩
  · rw [if_neg hb]
    refine ⟨fun h => absurd h (by decide), fun h => absurd (key.2 h) hb⟩

theorem intAnd_four (m : Int) : intAnd 4 m = 4 ↔ m / 4 % 2 = 1 := by
  have hc := toUint64_cast m
  have h2 : toUint64 4 = 2 ^ 2 := by decide
  unfold intAnd
  rw [h2, land_two_pow 2 (toUint64 m)]
  have key : (toUint64 m / 2 ^ 2 % 2 = 1) ↔ (m / 4 % 2 = 1) := by
    norm_num at hc ⊢
    omega
  by_cases hb : toUint64 m / 2 ^ 2 % 2 = 1
  · rw [if_pos hb]
    exact ⟨fun _ => key.1 hb, fun _ => by decide⟩
  · rw [if_neg hb]
    refine ⟨fun h => absurd h (by decide), fun h => absurd (key.2 h) hb⟩

/-! ## C2 and C10: the client returned by `Parse` -/

theorem Parse_some (E : Env) (T : Tuning) (P : Parser) (line : GoString)
    (st : Client × Parser) (hst : Parse.lookups E T P line = some st) :
    Parse E T P line = some (st.1, checkAndSort E T st.2) := by
  rw [Parse, hst]
  rfl

theorem Parse_eq (E : Env) (T : Tuning) (P : Parser) (line : GoString) :
    ∃ st, Parse.lookups E T P line = some st ∧
      Parse E T P line = some (st.1, checkAndSort E T st.2) := by
  obtain ⟨st, hst, _⟩ := Parse_lookups_fields E T P line
  exact ⟨st, hst, Parse_some E T P line st hst⟩

/-- C2. The records returned by `ParseUserAgent`, `ParseOs` and `ParseDevice` have a
non-empty `Family` (the literal "Other" when the loop found nothing), and `Parse` returns
a client in which every field of a category enabled in `Mode` is set to a record with a
non-empty `Family`. -/
theorem lookups_family_nonempty (E : Env) (T : Tuning) (P : Parser) (line : GoString) :
    ((ParseUserAgent E T P line).1.Family ≠ [] ∧
      ((ParseUserAgent.scan E P line).found = false →
        (ParseUserAgent E T P line).1.Family = "Other".toList)) ∧
    ((ParseOs E T P line).1.Family ≠ [] ∧
      ((ParseOs.scan E P line).found = false →
        (ParseOs E T P line).1.Family = "Other".toList)) ∧
    (∃ r, ParseDevice E T P line = some r ∧ r.1.Family ≠ []) ∧
    (∃ r, Parse E T P line = some r ∧
      (intAnd EUserAgentLookUpMode P.Mode = EUserAgentLookUpMode →
        ∃ ua, r.1.UserAgent = some ua ∧ ua.Family ≠ []) ∧
      (intAnd EOsLookUpMode P.Mode = EOsLookUpMode →
        ∃ os, r.1.Os = some os ∧ os.Family ≠ []) ∧
      (intAnd EDeviceLookUpMode P.Mode = EDeviceLookUpMode →
        ∃ dvc, r.1.Device = some dvc ∧ dvc.Family ≠ [])) := by
  refine ⟨⟨ParseUserAgent_family E T P line, ParseUserAgent_other E T P line⟩,
    ⟨ParseOs_family E T P line, ParseOs_other E T P line⟩, ?_, ?_⟩
  · obtain ⟨r, hr, hfam, _⟩ := ParseDevice_total E T P line
    exact ⟨r, hr, hfam⟩
  · obtain ⟨st, hst, h1, _, h2, _, h3, _⟩ := Parse_lookups_fields E T P line
    exact ⟨(st.1, checkAndSort E T st.2), Parse_some E T P line st hst, h1, h2, h3⟩

/-- C2, witness: on the sample parser, with all three categories enabled, the three
fields of the client are set to records with a non-empty family. -/
theorem lookups_family_nonempty_witness :
    ∃ r, Parse sampleEnv Tuning.initial sampleParser "unknown-bot".toList = some r ∧
      (intAnd EUserAgentLookUpMode sampleParser.Mode = EUserAgentLookUpMode →
        ∃ ua, r.1.UserAgent = some ua ∧ ua.Family ≠ []) ∧
      (intAnd EOsLookUpMode sampleParser.Mode = EOsLookUpMode →
        ∃ os, r.1.Os = some os ∧ os.Family ≠ []) ∧
      (intAnd EDeviceLookUpMode sampleParser.Mode = EDeviceLookUpMode →
        ∃ dvc, r.1.Device = some dvc ∧ dvc.Family ≠ []) :=
  (lookups_family_nonempty sampleEnv Tuning.initial sampleParser "unknown-bot".toList).2.2.2

/-- C10. Mode masking: for every `Mode`, `Parse` returns a client whose `UserAgent` is
set exactly when `Mode` passes the test for `EUserAgentLookUpMode` (bit 1 of `Mode` is
set), whose `Os` is set exactly when it passes the test for `EOsLookUpMode` (bit 0) and
whose `Device` is set exactly when it passes the test for `EDeviceLookUpMode` (bit 2);
with `Mode = EOsLookUpMode` only `Os` is set. -/
theorem Parse_mode_masking (E : Env) (T : Tuning) (P : Parser) (line : GoString) :
    ∃ r, Parse E T P line = some r ∧
      (r.1.UserAgent.isSome = true ↔
        intAnd EUserAgentLookUpMode P.Mode = EUserAgentLookUpMode) ∧
      (r.1.Os.isSome = true ↔ intAnd EOsLookUpMode P.Mode = EOsLookUpMode) ∧
      (r.1.Device.isSome = true ↔ intAnd EDeviceLookUpMode P.Mode = EDeviceLookUpMode) ∧
      (intAnd EUserAgentLookUpMode P.Mode = EUserAgentLookUpMode ↔ P.Mode / 2 % 2 = 1) ∧
      (intAnd EOsLookUpMode P.Mode = EOsLookUpMode ↔ P.Mode % 2 = 1) ∧
      (intAnd EDeviceLookUpMode P.Mode = EDeviceLookUpMode ↔ P.Mode / 4 % 2 = 1) ∧
      (P.Mode = EOsLookUpMode →
        r.1.UserAgent = none ∧ r.1.Os.isSome = true ∧ r.1.Device = none) := by
  obtain ⟨st, hst, u1, u2, o1, o2, d1, d2⟩ := Parse_lookups_fields E T P line
  have hu : st.1.UserAgent.isSome = true ↔
      intAnd EUserAgentLookUpMode P.Mode = EUserAgentLookUpMode := by
    constructor
    · intro h
      by_contra hn
      rw [u2 hn] at h
      simp at h
    · intro h
      obtain ⟨ua, hua, _⟩ := u1 h
      simp [hua]
  have ho : st.1.Os.isSome = true ↔ intAnd EOsLookUpMode P.Mode = EOsLookUpMode := by
    constructor
    · intro h
      by_contra hn
      rw [o2 hn] at h
      simp at h
    · intro h
      obtain ⟨os, hos, _⟩ := o1 h
      simp [hos]
  have hd : st.1.Device.isSome = true ↔
      intAnd EDeviceLookUpMode P.Mode = EDeviceLookUpMode := by
    constructor
    · intro h
      by_contra hn
      rw [d2 hn] at h
      simp at h
    · intro h
      obtain ⟨dvc, hdvc, _⟩ := d1 h
      simp [hdvc]
  have hparse := Parse_some E T P line st hst
  refine ⟨(st.1, checkAndSort E T st.2), hparse, hu, ho, hd,
    intAnd_two P.Mode, intAnd_one P.Mode, intAnd_four P.Mode, ?_⟩
  intro hm
  have e1 : intAnd EUserAgentLookUpMode P.Mode ≠ EUserAgentLookUpMode := by
    rw [hm]; decide
  have e2 : intAnd EOsLookUpMode P.Mode = EOsLookUpMode := by
    rw [hm]; decide
  have e3 : intAnd EDeviceLookUpMode P.Mode ≠ EDeviceLookUpMode := by
    rw [hm]; decide
  exact ⟨u2 e1, ho.2 e2, d2 e3⟩

/-- C10, witness: the sample parser with `Mode = EOsLookUpMode` returns a client with
only `Os` set. -/
theorem Parse_mode_masking_witness :
    ∃ r, Parse sampleEnv Tuning.initial { sampleParser with Mode := EOsLookUpMode }
        "Mozilla Chrome/99".toList = some r ∧
      r.1.UserAgent = none ∧ r.1.Os.isSome = true ∧ r.1.Device = none := by
  obtain ⟨r, h, _, _, _, _, _, _, h8⟩ :=
    Parse_mode_masking sampleEnv Tuning.initial { sampleParser with Mode := EOsLookUpMode }
      "Mozilla Chrome/99".toList
  exact ⟨r, h, h8 rfl⟩

/-! ## C7: miss counting -/

theorem ParseUserAgent_loop_found (E : Env) (line : GoString) (pre : List UserAgentPattern)
    (p : UserAgentPattern) (post : List UserAgentPattern) (i : Nat)
    (s : Scan UserAgent UserAgentPattern)
    (hpre : ∀ a q b, pre = a ++ q :: b →
      (E.uaMatch q line (uaAfter E line s.result a)).Family = [])
    (hp : (E.uaMatch p line (uaAfter E line s.result pre)).Family ≠ []) :
    ParseUserAgent.loop E line (pre ++ p :: post) i s =
      { result := E.uaMatch p line (uaAfter E line s.result pre), found := true,
        foundIdx := ((i + pre.length : Nat) : Int),
        patterns := s.patterns.modify
          (fun q => { q with MatchesCount := intInc q.MatchesCount }) (i + pre.length) } := by
  induction pre generalizing i s with
  | nil =>
    have hlen : (E.uaMatch p line s.result).Family.length > 0 := List.length_pos.2 hp
    simp only [List.nil_append, ParseUserAgent.loop, hlen, if_true]
    rfl
  | cons x xs ih =>
    have hx : (E.uaMatch x line s.result).Family = [] := hpre [] x xs rfl
    have e : i + 1 + xs.length = i + (xs.length + 1) := by omega
    have hrec := ih (i + 1) { s with result := E.uaMatch x line s.result }
      (fun a q b h => hpre (x :: a) q b (by rw [h]; rfl)) hp
    rw [List.cons_append, ParseUserAgent.loop]
    simp only [hx, List.length_nil, gt_iff_lt, lt_self_iff_false, if_false, List.length_cons]
    rw [hrec, e]
    rfl

theorem ParseUserAgent_loop_notFound (E : Env) (line : GoString) (ps : List UserAgentPattern)
    (i : Nat) (s : Scan UserAgent UserAgentPattern)
    (h : ∀ a q b, ps = a ++ q :: b →
      (E.uaMatch q line (uaAfter E line s.result a)).Family = []) :
    ParseUserAgent.loop E line ps i s = { s with result := uaAfter E line s.result ps } := by
  induction ps generalizing i s with
  | nil => rfl
  | cons x xs ih =>
    have hx : (E.uaMatch x line s.result).Family = [] := h [] x xs rfl
    rw [ParseUserAgent.loop]
    simp only [hx, List.length_nil, gt_iff_lt, lt_self_iff_false, if_false]
    rw [ih (i + 1) { s with result := E.uaMatch x line s.result }
      (fun a q b e => h (x :: a) q b (by rw [e]; rfl))]
    rfl

/-- Every user-agent catalog either has no pattern whose `Match` yields a family for the
line, or splits at the first pattern whose `Match` does. -/
theorem UserAgentPatterns_split (E : Env) (line : GoString) (ps : List UserAgentPattern)
    (ua : UserAgent) :
    (∀ a q b, ps = a ++ q :: b → (E.uaMatch q line (uaAfter E line ua a)).Family = []) ∨
      ∃ pre p post, ps = pre ++ p :: post ∧
        (∀ a q b, pre = a ++ q :: b →
          (E.uaMatch q line (uaAfter E line ua a)).Family = []) ∧
        (E.uaMatch p line (uaAfter E line ua pre)).Family ≠ [] := by
  induction ps generalizing ua with
  | nil =>
    left
    intro a q b h
    simp at h
  | cons x xs ih =>
    by_cases hx : (E.uaMatch x line ua).Family = []
    · rcases ih (E.uaMatch x line ua) with h | ⟨pre, p, post, e, h1, h2⟩
      · left
        intro a q b hab
        cases a with
        | nil =>
          simp only [List.nil_append, List.cons.injEq] at hab
          rw [← hab.1]
          exact hx
        | cons y ys =>
          simp only [List.cons_append, List.cons.injEq] at hab
          rw [← hab.1]
          exact h ys q b hab.2
      · right
        refine ⟨x :: pre, p, post, by rw [e]; rfl, ?_, h2⟩
        intro a q b hab
        cases a with
        | nil =>
          simp only [List.nil_append, List.cons.injEq] at hab
          rw [← hab.1]
          exact hx
        | cons y ys =>
          simp only [List.cons_append, List.cons.injEq] at hab
          rw [← hab.1]
          exact h1 ys q b hab.2
    · right
      exact ⟨[], x, xs, rfl, fun a q b h => by simp at h, hx⟩

theorem ParseUserAgent_found (E : Env) (T : Tuning) (P : Parser) (line : GoString)
    (pre : List UserAgentPattern) (p : UserAgentPattern) (post : List UserAgentPattern)
    (hP : P.UserAgentPatterns = pre ++ p :: post)
    (hpre : ∀ a q b, pre = a ++ q :: b →
      (E.uaMatch q line
        (uaAfter E line { Family := [], Major := [], Minor := [], Patch := [] } a)).Family = [])
    (hp : (E.uaMatch p line
      (uaAfter E line { Family := [], Major := [], Minor := [], Patch := [] } pre)).Family
        ≠ []) :
    ParseUserAgent E T P line =
      (E.uaMatch p line
          (uaAfter E line { Family := [], Major := [], Minor := [], Patch := [] } pre),
        { P with
          UserAgentPatterns := pre ++ { p with MatchesCount := intInc p.MatchesCount } :: post
          UserAgentMisses := if (pre.length : Int) > T.matchIdxNotOk
            then intInc P.UserAgentMisses else P.UserAgentMisses }) := by
  unfold ParseUserAgent ParseUserAgent.scan
  rw [hP, ParseUserAgent_loop_found E line pre p post 0 _ hpre hp]
  simp only [Nat.zero_add, Bool.not_true, Bool.false_eq_true, if_false]
  rw [modify_length_append]

theorem ParseUserAgent_notFound (E : Env) (T : Tuning) (P : Parser) (line : GoString)
    (h : ∀ a q b, P.UserAgentPatterns = a ++ q :: b →
      (E.uaMatch q line
        (uaAfter E line { Family := [], Major := [], Minor := [], Patch := [] } a)).Family
          = []) :
    (ParseUserAgent E T P line).1.Family = "Other".toList ∧
    (ParseUserAgent E T P line).2 =
      { P with
        UserAgentMisses := if (-1 : Int) > T.matchIdxNotOk
          then intInc P.UserAgentMisses else P.UserAgentMisses } := by
  unfold ParseUserAgent ParseUserAgent.scan
  rw [ParseUserAgent_loop_notFound E line P.UserAgentPatterns 0 _ h]
  simp

theorem ParseOs_loop_found (E : Env) (line : GoString) (pre : List OsPattern)
    (p : OsPattern) (post : List OsPattern) (i : Nat)
    (s : Scan Os OsPattern)
    (hpre : ∀ a q b, pre = a ++ q :: b →
      (E.osMatch q line (osAfter E line s.result a)).Family = [])
    (hp : (E.osMatch p line (osAfter E line s.result pre)).Family ≠ []) :
    ParseOs.loop E line (pre ++ p :: post) i s =
      { result := E.osMatch p line (osAfter E line s.result pre), found := true,
        foundIdx := ((i + pre.length : Nat) : Int),
        patterns := s.patterns.modify
          (fun q => { q with MatchesCount := intInc q.MatchesCount }) (i + pre.length) } := by
  induction pre generalizing i s with
  | nil =>
    have hlen : (E.osMatch p line s.result).Family.length > 0 := List.length_pos.2 hp
    simp only [List.nil_append, ParseOs.loop, hlen, if_true]
    rfl
  | cons x xs ih =>
    have hx : (E.osMatch x line s.result).Family = [] := hpre [] x xs rfl
    have e : i + 1 + xs.length = i + (xs.length + 1) := by omega
    have hrec := ih (i + 1) { s with result := E.osMatch x line s.result }
      (fun a q b h => hpre (x :: a) q b (by rw [h]; rfl)) hp
    rw [List.cons_append, ParseOs.loop]
    simp only [hx, List.length_nil, gt_iff_lt, lt_self_iff_false, if_false, List.length_cons]
    rw [hrec, e]
    rfl

theorem ParseOs_loop_notFound (E : Env) (line : GoString) (ps : List OsPattern)
    (i : Nat) (s : Scan Os OsPattern)
    (h : ∀ a q b, ps = a ++ q :: b →
      (E.osMatch q line (osAfter E line s.result a)).Family = []) :
    ParseOs.loop E line ps i s = { s with result := osAfter E line s.result ps } := by
  induction ps generalizing i s with
  | nil => rfl
  | cons x xs ih =>
    have hx : (E.osMatch x line s.result).Family = [] := h [] x xs rfl
    rw [ParseOs.loop]
    simp only [hx, List.length_nil, gt_iff_lt, lt_self_iff_false, if_false]
    rw [ih (i + 1) { s with result := E.osMatch x line s.result }
      (fun a q b e => h (x :: a) q b (by rw [e]; rfl))]
    rfl

/-- Every OS catalog either has no pattern whose `Match` yields a family for the
line, or splits at the first pattern whose `Match` does. -/
theorem OsPatterns_split (E : Env) (line : GoString) (ps : List OsPattern)
    (os : Os) :
    (∀ a q b, ps = a ++ q :: b → (E.osMatch q line (osAfter E line os a)).Family = []) ∨
      ∃ pre p post, ps = pre ++ p :: post ∧
        (∀ a q b, pre = a ++ q :: b →
          (E.osMatch q line (osAfter E line os a)).Family = []) ∧
        (E.osMatch p line (osAfter E line os pre)).Family ≠ [] := by
  induction ps generalizing os with
  | nil =>
    left
    intro a q b h
    simp at h
  | cons x xs ih =>
    by_cases hx : (E.osMatch x line os).Family = []
    · rcases ih (E.osMatch x line os) with h | ⟨pre, p, post, e, h1, h2⟩
      · left
        intro a q b hab
        cases a with
        | nil =>
          simp only [List.nil_append, List.cons.injEq] at hab
          rw [← hab.1]
          exact hx
        | cons y ys =>
          simp only [List.cons_append, List.cons.injEq] at hab
          rw [← hab.1]
          exact h ys q b hab.2
      · right
        refine ⟨x :: pre, p, post, by rw [e]; rfl, ?_, h2⟩
        intro a q b hab
        cases a with
        | nil =>
          simp only [List.nil_append, List.cons.injEq] at hab
          rw [← hab.1]
          exact hx
        | cons y ys =>
          simp only [List.cons_append, List.cons.injEq] at hab
          rw [← hab.1]
          exact h1 ys q b hab.2
    · right
      exact ⟨[], x, xs, rfl, fun a q b h => by simp at h, hx⟩

theorem ParseOs_found (E : Env) (T : Tuning) (P : Parser) (line : GoString)
    (pre : List OsPattern) (p : OsPattern) (post : List OsPattern)
    (hP : P.OsPatterns = pre ++ p :: post)
    (hpre : ∀ a q b, pre = a ++ q :: b →
      (E.osMatch q line
        (osAfter E line { Family := [], Major := [], Minor := [], Patch := [] } a)).Family = [])
    (hp : (E.osMatch p line
      (osAfter E line { Family := [], Major := [], Minor := [], Patch := [] } pre)).Family
        ≠ []) :
    ParseOs E T P line =
      (E.osMatch p line
          (osAfter E line { Family := [], Major := [], Minor := [], Patch := [] } pre),
        { P with
          OsPatterns := pre ++ { p with MatchesCount := intInc p.MatchesCount } :: post
          OsMisses := if (pre.length : Int) > T.matchIdxNotOk
            then intInc P.OsMisses else P.OsMisses }) := by
  unfold ParseOs ParseOs.scan
  rw [hP, ParseOs_loop_found E line pre p post 0 _ hpre hp]
  simp only [Nat.zero_add, Bool.not_true, Bool.false_eq_true, if_false]
  rw [modify_length_append]

theorem ParseOs_notFound (E : Env) (T : Tuning) (P : Parser) (line : GoString)
    (h : ∀ a q b, P.OsPatterns = a ++ q :: b →
      (E.osMatch q line
        (osAfter E line { Family := [], Major := [], Minor := [], Patch := [] } a)).Family
          = []) :
    (ParseOs E T P line).1.Family = "Other".toList ∧
    (ParseOs E T P line).2 =
      { P with
        OsMisses := if (-1 : Int) > T.matchIdxNotOk
          then intInc P.OsMisses else P.OsMisses } := by
  unfold ParseOs ParseOs.scan
  rw [ParseOs_loop_notFound E line P.OsPatterns 0 _ h]
  simp

/-- C7, as the code has it. With an acceptable-match-index that is not negative (every
value the constructors can set), each lookup counts a miss by the position of the first
pattern that matches. If its catalog is `pre ++ p :: post`, where `Match` yields no
family for the patterns of `pre` and yields one for `p`, the index of the match is the
length of `pre`: the miss counter goes through `Misses++` when that index is greater than
`matchIdxNotOk`, and is unchanged when it is not. If `Match` yields a family for no
pattern of the catalog, the result is "Other" and the miss counter is unchanged. One of
the two cases always applies, and `Misses++` adds exactly one below the largest `int`. -/
theorem lookup_miss_counting (E : Env) (T : Tuning) (P : Parser) (line : GoString)
    (hT : 0 ≤ T.matchIdxNotOk) :
    ((∀ pre p post, P.UserAgentPatterns = pre ++ p :: post →
        (∀ a q b, pre = a ++ q :: b →
          (E.uaMatch q line
            (uaAfter E line { Family := [], Major := [], Minor := [], Patch := [] } a)).Family
              = []) →
        (E.uaMatch p line
          (uaAfter E line { Family := [], Major := [], Minor := [], Patch := [] } pre)).Family
            ≠ [] →
        (ParseUserAgent E T P line).2.UserAgentMisses =
          if (pre.length : Int) > T.matchIdxNotOk then intInc P.UserAgentMisses
          else P.UserAgentMisses) ∧
      ((∀ a q b, P.UserAgentPatterns = a ++ q :: b →
          (E.uaMatch q line
            (uaAfter E line { Family := [], Major := [], Minor := [], Patch := [] } a)).Family
              = []) →
        (ParseUserAgent E T P line).1.Family = "Other".toList ∧
        (ParseUserAgent E T P line).2.UserAgentMisses = P.UserAgentMisses) ∧
      ((∀ a q b, P.UserAgentPatterns = a ++ q :: b →
          (E.uaMatch q line
            (uaAfter E line { Family := [], Major := [], Minor := [], Patch := [] } a)).Family
              = []) ∨
        ∃ pre p post, P.UserAgentPatterns = pre ++ p :: post ∧
          (∀ a q b, pre = a ++ q :: b →
            (E.uaMatch q line
              (uaAfter E line { Family := [], Major := [], Minor := [], Patch := [] }
                a)).Family = []) ∧
          (E.uaMatch p line
            (uaAfter E line { Family := [], Major := [], Minor := [], Patch := [] }
              pre)).Family ≠ [])) ∧
    ((∀ pre p post, P.OsPatterns = pre ++ p :: post →
        (∀ a q b, pre = a ++ q :: b →
          (E.osMatch q line
            (osAfter E line { Family := [], Major := [], Minor := [], Patch := [] } a)).Family
              = []) →
        (E.osMatch p line
          (osAfter E line { Family := [], Major := [], Minor := [], Patch := [] } pre)).Family
            ≠ [] →
        (ParseOs E T P line).2.OsMisses =
          if (pre.length : Int) > T.matchIdxNotOk then intInc P.OsMisses else P.OsMisses) ∧
      ((∀ a q b, P.OsPatterns = a ++ q :: b →
          (E.osMatch q line
            (osAfter E line { Family := [], Major := [], Minor := [], Patch := [] } a)).Family
              = []) →
        (ParseOs E T P line).1.Family = "Other".toList ∧
        (ParseOs E T P line).2.OsMisses = P.OsMisses) ∧
      ((∀ a q b, P.OsPatterns = a ++ q :: b →
          (E.osMatch q line
            (osAfter E line { Family := [], Major := [], Minor := [], Patch := [] } a)).Family
              = []) ∨
        ∃ pre p post, P.OsPatterns = pre ++ p :: post ∧
          (∀ a q b, pre = a ++ q :: b →
            (E.osMatch q line
              (osAfter E line { Family := [], Major := [], Minor := [], Patch := [] }
                a)).Family = []) ∧
          (E.osMatch p line
            (osAfter E line { Family := [], Major := [], Minor := [], Patch := [] }
              pre)).Family ≠ [])) ∧
    ((∀ pre p post d, P.DevicePatterns = pre ++ p :: post →
        (∀ q ∈ pre, ∃ dq, q.Match E.unicode line { Family := [] } = some dq ∧ dq.Family = []) →
        p.Match E.unicode line { Family := [] } = some d → d.Family ≠ [] →
        ∃ r, ParseDevice E T P line = some r ∧
          r.2.DeviceMisses =
            if (pre.length : Int) > T.matchIdxNotOk then intInc P.DeviceMisses
            else P.DeviceMisses) ∧
      ((∀ q ∈ P.DevicePatterns,
          ∃ dq, q.Match E.unicode line { Family := [] } = some dq ∧ dq.Family = []) →
        ∃ r, ParseDevice E T P line = some r ∧
          r.1.Family = "Other".toList ∧ r.2.DeviceMisses = P.DeviceMisses) ∧
      ((∀ q ∈ P.DevicePatterns,
          ∃ dq, q.Match E.unicode line { Family := [] } = some dq ∧ dq.Family = []) ∨
        ∃ pre p post d, P.DevicePatterns = pre ++ p :: post ∧
          (∀ q ∈ pre,
            ∃ dq, q.Match E.unicode line { Family := [] } = some dq ∧ dq.Family = []) ∧
          p.Match E.unicode line { Family := [] } = some d ∧ d.Family ≠ [])) ∧
    (∀ x : Int, -(2 ^ 63 : Int) ≤ x → x < (maxInt : Int) → intInc x = x + 1) := by
  have hneg : ¬ ((-1 : Int) > T.matchIdxNotOk) := by omega
  refine ⟨⟨?_, ?_, ?_⟩, ⟨?_, ?_, ?_⟩, ⟨?_, ?_, ?_⟩, intInc_eq⟩
  · intro pre p post hP hpre hp
    rw [ParseUserAgent_found E T P line pre p post hP hpre hp]
  · intro h
    obtain ⟨h1, h2⟩ := ParseUserAgent_notFound E T P line h
    refine ⟨h1, ?_⟩
    rw [h2]
    simp only [hneg, if_false]
  · exact UserAgentPatterns_split E line P.UserAgentPatterns _
  · intro pre p post hP hpre hp
    rw [ParseOs_found E T P line pre p post hP hpre hp]
  · intro h
    obtain ⟨h1, h2⟩ := ParseOs_notFound E T P line h
    refine ⟨h1, ?_⟩
    rw [h2]
    simp only [hneg, if_false]
  · exact OsPatterns_split E line P.OsPatterns _
  · intro pre p post d hP hpre hp hd
    exact ⟨_, ParseDevice_found E T P line pre p post d hP hpre hp hd, rfl⟩
  · intro h
    refine ⟨_, ParseDevice_notFound E T P line h, rfl, ?_⟩
    simp only [hneg, if_false]
  · exact DevicePatterns_split E.unicode line P.DevicePatterns

/-- C7, witness: with `matchIdxNotOk = 0` on the sample parser, the line `"unknown-bot"`
is answered by the second pattern of the user-agent catalog and of the device catalog,
at index 1, and each of the two miss counters goes from 0 to 1. -/
theorem lookup_miss_counting_witness :
    0 ≤ strictTuning.matchIdxNotOk ∧
    ((ParseUserAgent sampleEnv strictTuning sampleParser "unknown-bot".toList).2.UserAgentMisses =
      if ((1 : Nat) : Int) > strictTuning.matchIdxNotOk then intInc sampleParser.UserAgentMisses
      else sampleParser.UserAgentMisses) ∧
    (∃ r, ParseDevice sampleEnv strictTuning sampleParser "unknown-bot".toList = some r ∧
      r.2.DeviceMisses =
        if ((1 : Nat) : Int) > strictTuning.matchIdxNotOk then intInc sampleParser.DeviceMisses
        else sampleParser.DeviceMisses) ∧
    intInc sampleParser.DeviceMisses = 1 :=
  ⟨by decide,
    (lookup_miss_counting sampleEnv strictTuning sampleParser "unknown-bot".toList
      (by decide)).1.1
      [sampleUserAgentPattern (Regexp.literal "Chrome".toList) "Chrome" "Chrome" 0]
      (sampleUserAgentPattern Regexp.anyLine ".*" "Other" 0) [] rfl
      (by
        intro a q b h
        cases a with
        | nil =>
          simp only [List.nil_append, List.cons.injEq] at h
          rw [← h.1]
          decide
        | cons y ys => simp at h)
      (by decide),
    (lookup_miss_counting sampleEnv strictTuning sampleParser "unknown-bot".toList
      (by decide)).2.2.1.1
      [sampleDevicePattern (Regexp.literal "Chrome".toList) "Chrome" "Chrome" 0]
      (sampleDevicePattern Regexp.wholeLine "(.*)" " dev $1 " 5) []
      { Family := "dev unknown-bot".toList } rfl
      (by
        intro q hq
        simp only [List.mem_singleton] at hq
        subst hq
        exact ⟨{ Family := [] }, by decide, rfl⟩)
      (by decide) (by decide),
    by decide⟩

/-- C7, counterexample: on a device catalog that holds only the pattern `Chrome`, the
line `"unknown-bot"` matches no pattern (the loop ends with `found = false` and the
result is "Other"), and `DeviceMisses` is 0 after the lookup as before it, not 1. -/
theorem lookup_miss_counting_counterexample :
    ∃ s r, ParseDevice.scan sampleEnv chromeOnlyParser "unknown-bot".toList = some s ∧
      s.found = false ∧
      ParseDevice sampleEnv Tuning.initial chromeOnlyParser "unknown-bot".toList = some r ∧
      r.1.Family = "Other".toList ∧
      chromeOnlyParser.DeviceMisses = 0 ∧ r.2.DeviceMisses = 0 ∧ intInc 0 = 1 :=
  ⟨_, _, rfl, rfl, rfl, rfl, rfl, rfl, by decide⟩

/-! ## Lemmas on `checkAndSort` -/

/-- A `Less` that compares an integer key with `>` is a strict weak ordering. -/
theorem strictWeakOrder_of_key {α : Type} (key : α → Int) (less : α → α → Bool)
    (h : ∀ x y, less x y = decide (key x > key y)) : StrictWeakOrder less where
  irrefl := by
    intro a
    simp [h]
  trans := by
    intro a b c hab hbc
    simp only [h, decide_eq_true_eq] at hab hbc ⊢
    omega
  incomp_trans := by
    intro a b c hab hbc
    simp only [h, decide_eq_false_iff_not] at hab hbc ⊢
    omega

/-- What `sort.Sort` with a `Less` on an integer key does to a slice: a permutation in
non-increasing key order, whose first element has the greatest key. -/
theorem sort_by_key {α : Type} (S : SortImpl) (key : α → Int) (less : α → α → Bool)
    (h : ∀ x y, less x y = decide (key x > key y)) (l : List α) :
    (S.sort α less l).Perm l ∧
      (S.sort α less l).Pairwise (fun x y => key x ≥ key y) ∧
      (∀ a ∈ (S.sort α less l).head?, ∀ x ∈ S.sort α less l, key x ≤ key a) := by
  have hp : (S.sort α less l).Pairwise (fun x y => key x ≥ key y) := by
    refine (S.sorted α less l (strictWeakOrder_of_key key less h)).imp ?_
    intro x y hxy
    simp only [h, decide_eq_false_iff_not] at hxy
    omega
  refine ⟨S.perm α less l, hp, ?_⟩
  intro a ha x hx
  cases hl : S.sort α less l with
  | nil => rw [hl] at hx; simp at hx
  | cons b bs =>
    rw [hl] at ha hx hp
    simp only [List.head?_cons, Option.mem_def, Option.some.injEq] at ha
    subst ha
    rcases List.mem_cons.1 hx with rfl | hx
    · exact le_refl _
    · exact (List.pairwise_cons.1 hp).1 x hx

theorem checkAndSort_userAgent (E : Env) (T : Tuning) (P : Parser) :
    (T.missesTreshold ≤ P.UserAgentMisses →
      (checkAndSort E T P).UserAgentPatterns =
        E.sorter.sort UserAgentPattern UserAgentPatternSorter.Less P.UserAgentPatterns ∧
      (checkAndSort E T P).UserAgentMisses = 0) ∧
    (P.UserAgentMisses < T.missesTreshold →
      (checkAndSort E T P).UserAgentPatterns = P.UserAgentPatterns ∧
      (checkAndSort E T P).UserAgentMisses = P.UserAgentMisses) := by
  unfold checkAndSort
  refine ⟨fun h => ?_, fun h => ?_⟩
  · have h1 : P.UserAgentMisses ≥ T.missesTreshold := h
    simp only [h1, if_true]
    split <;> split <;> exact ⟨rfl, rfl⟩
  · have h1 : ¬ P.UserAgentMisses ≥ T.missesTreshold := by omega
    simp only [h1, if_false]
    split <;> split <;> exact ⟨rfl, rfl⟩

theorem checkAndSort_os (E : Env) (T : Tuning) (P : Parser) :
    (T.missesTreshold ≤ P.OsMisses →
      (checkAndSort E T P).OsPatterns =
        E.sorter.sort OsPattern OsPatternSorter.Less P.OsPatterns ∧
      (checkAndSort E T P).OsMisses = 0) ∧
    (P.OsMisses < T.missesTreshold →
      (checkAndSort E T P).OsPatterns = P.OsPatterns ∧
      (checkAndSort E T P).OsMisses = P.OsMisses) := by
  unfold checkAndSort
  refine ⟨fun h => ?_, fun h => ?_⟩
  · have h1 : P.OsMisses ≥ T.missesTreshold := h
    by_cases hu : P.UserAgentMisses ≥ T.missesTreshold
    · simp only [hu, h1, if_true]
      split <;> exact ⟨rfl, rfl⟩
    · simp only [hu, h1, if_true, if_false]
      split <;> exact ⟨rfl, rfl⟩
  · have h1 : ¬ P.OsMisses ≥ T.missesTreshold := by omega
    by_cases hu : P.UserAgentMisses ≥ T.missesTreshold
    · simp only [hu, h1, if_true, if_false]
      split <;> exact ⟨rfl, rfl⟩
    · simp only [hu, h1, if_false]
      split <;> exact ⟨rfl, rfl⟩

theorem checkAndSort_device (E : Env) (T : Tuning) (P : Parser) :
    (T.missesTreshold ≤ P.DeviceMisses →
      (checkAndSort E T P).DevicePatterns =
        E.sorter.sort DevicePattern DevicePatternSorter.Less P.DevicePatterns ∧
      (checkAndSort E T P).DeviceMisses = 0) ∧
    (P.DeviceMisses < T.missesTreshold →
      (checkAndSort E T P).DevicePatterns = P.DevicePatterns ∧
      (checkAndSort E T P).DeviceMisses = P.DeviceMisses) := by
  unfold checkAndSort
  refine ⟨fun h => ?_, fun h => ?_⟩
  · have h1 : P.DeviceMisses ≥ T.missesTreshold := h
    by_cases hu : P.UserAgentMisses ≥ T.missesTreshold <;>
    by_cases ho : P.OsMisses ≥ T.missesTreshold <;>
    simp [hu, ho, h1]
  · have h1 : ¬ P.DeviceMisses ≥ T.missesTreshold := by omega
    by_cases hu : P.UserAgentMisses ≥ T.missesTreshold <;>
    by_cases ho : P.OsMisses ≥ T.missesTreshold <;>
    simp [hu, ho, h1]

/-! ## C8 and C9: the reorder -/

theorem Reordered_sort {π : Type} (S : SortImpl) (count : π → Int) (less : π → π → Bool)
    (h : ∀ x y, less x y = decide (count x > count y)) (l : List π) :
    Reordered count l (S.sort π less l) :=
  sort_by_key S count less h l

/-- C8. Reorder trigger. `Parse` returns the client of its lookups and runs
`checkAndSort` on the parser as the lookups left it (`st.2`): a catalog whose miss count
has reached `missesTreshold` holds, when `Parse` returns, a permutation of the same
patterns in non-increasing `MatchesCount` order, with the most-matched pattern first,
and its miss count is zero; a catalog whose miss count is below the threshold keeps its
order and its miss count. -/
theorem Parse_reorder (E : Env) (T : Tuning) (P : Parser) (line : GoString) :
    ∃ st r, Parse.lookups E T P line = some st ∧ Parse E T P line = some r ∧ r.1 = st.1 ∧
      ((T.missesTreshold ≤ st.2.UserAgentMisses →
          Reordered (fun p => p.MatchesCount) st.2.UserAgentPatterns r.2.UserAgentPatterns ∧
          r.2.UserAgentMisses = 0) ∧
        (st.2.UserAgentMisses < T.missesTreshold →
          r.2.UserAgentPatterns = st.2.UserAgentPatterns ∧
          r.2.UserAgentMisses = st.2.UserAgentMisses)) ∧
      ((T.missesTreshold ≤ st.2.OsMisses →
          Reordered (fun p => p.MatchesCount) st.2.OsPatterns r.2.OsPatterns ∧
          r.2.OsMisses = 0) ∧
        (st.2.OsMisses < T.missesTreshold →
          r.2.OsPatterns = st.2.OsPatterns ∧ r.2.OsMisses = st.2.OsMisses)) ∧
      ((T.missesTreshold ≤ st.2.DeviceMisses →
          Reordered (fun p => p.MatchesCount) st.2.DevicePatterns r.2.DevicePatterns ∧
          r.2.DeviceMisses = 0) ∧
        (st.2.DeviceMisses < T.missesTreshold →
          r.2.DevicePatterns = st.2.DevicePatterns ∧
          r.2.DeviceMisses = st.2.DeviceMisses)) := by
  obtain ⟨st, hst, hr⟩ := Parse_eq E T P line
  refine ⟨st, _, hst, hr, rfl, ⟨?_, ?_⟩, ⟨?_, ?_⟩, ⟨?_, ?_⟩⟩
  · intro h
    obtain ⟨e1, e2⟩ := (checkAndSort_userAgent E T st.2).1 h
    refine ⟨?_, e2⟩
    show Reordered _ _ (checkAndSort E T st.2).UserAgentPatterns
    rw [e1]
    exact Reordered_sort E.sorter _ _ (fun _ _ => rfl) _
  · exact (checkAndSort_userAgent E T st.2).2
  · intro h
    obtain ⟨e1, e2⟩ := (checkAndSort_os E T st.2).1 h
    refine ⟨?_, e2⟩
    show Reordered _ _ (checkAndSort E T st.2).OsPatterns
    rw [e1]
    exact Reordered_sort E.sorter _ _ (fun _ _ => rfl) _
  · exact (checkAndSort_os E T st.2).2
  · intro h
    obtain ⟨e1, e2⟩ := (checkAndSort_device E T st.2).1 h
    refine ⟨?_, e2⟩
    show Reordered _ _ (checkAndSort E T st.2).DevicePatterns
    rw [e1]
    exact Reordered_sort E.sorter _ _ (fun _ _ => rfl) _
  · exact (checkAndSort_device E T st.2).2

/-- C8, witness: on `tieParser`, whose device miss count has reached the initial
threshold and whose patterns yield no family, `Parse` leaves the device miss count at
the threshold in its lookups and then reorders the device catalog and resets the miss
count. -/
theorem Parse_reorder_witness :
    ∃ st r, Parse.lookups shellEnv Tuning.initial tieParser "a".toList = some st ∧
      Parse shellEnv Tuning.initial tieParser "a".toList = some r ∧
      st.2.DeviceMisses = 500000 ∧
      Reordered (fun p => p.MatchesCount) st.2.DevicePatterns r.2.DevicePatterns ∧
      r.2.DeviceMisses = 0 := by
  obtain ⟨st, r, h1, h2, _, _, _, h4, _⟩ :=
    Parse_reorder shellEnv Tuning.initial tieParser "a".toList
  have e : (Parse.lookups shellEnv Tuning.initial tieParser "a".toList).map
      (fun st => st.2.DeviceMisses) = some 500000 := by decide
  rw [h1] at e
  have e1 : st.2.DeviceMisses = 500000 := by simpa using e
  have e2 : Tuning.initial.missesTreshold ≤ st.2.DeviceMisses := by
    rw [e1]; decide
  exact ⟨st, r, h1, h2, e1, h4 e2⟩

/-- A slice whose keys are strictly decreasing is left as it is by every implementation
of `sort.Sort`. -/
theorem sort_strict_unchanged {π : Type} (S : SortImpl) (count : π → Int) (less : π → π → Bool)
    (h : ∀ x y, less x y = decide (count x > count y)) (l : List π)
    (hl : l.Pairwise (fun x y => count x > count y)) : S.sort π less l = l := by
  obtain ⟨hperm, hsorted, _⟩ := sort_by_key S count less h l
  have hne : l.Pairwise (fun x y => count x ≠ count y) :=
    hl.imp (fun hxy => by omega)
  have hne' : (S.sort π less l).Pairwise (fun x y => count x ≠ count y) :=
    (hperm.pairwise_iff (fun hxy => Ne.symm hxy)).2 hne
  have hstrict : (S.sort π less l).Pairwise (fun x y => count x > count y) :=
    (hsorted.and hne').imp (fun hxy => by
      have := hxy.1
      have := hxy.2
      omega)
  haveI : IsAntisymm π (fun x y => count x > count y) :=
    ⟨fun a b hab hba => by exfalso; omega⟩
  exact List.eq_of_perm_of_sorted hperm hstrict hl

/-- C9, as the code has it. The reorder of `checkAndSort` sorts by non-increasing
`MatchesCount` with `sort.Sort`, which fixes the order of patterns of different
`MatchesCount` only: a catalog whose `MatchesCount` are strictly decreasing is left
unchanged by `checkAndSort`, whatever its miss count. -/
theorem checkAndSort_strict_unchanged (E : Env) (T : Tuning) (P : Parser) :
    (P.UserAgentPatterns.Pairwise (fun x y => x.MatchesCount > y.MatchesCount) →
      (checkAndSort E T P).UserAgentPatterns = P.UserAgentPatterns) ∧
    (P.OsPatterns.Pairwise (fun x y => x.MatchesCount > y.MatchesCount) →
      (checkAndSort E T P).OsPatterns = P.OsPatterns) ∧
    (P.DevicePatterns.Pairwise (fun x y => x.MatchesCount > y.MatchesCount) →
      (checkAndSort E T P).DevicePatterns = P.DevicePatterns) := by
  refine ⟨fun h => ?_, fun h => ?_, fun h => ?_⟩
  · by_cases ht : T.missesTreshold ≤ P.UserAgentMisses
    · rw [((checkAndSort_userAgent E T P).1 ht).1]
      exact sort_strict_unchanged E.sorter _ _ (fun _ _ => rfl) _ h
    · exact ((checkAndSort_userAgent E T P).2 (by omega)).1
  · by_cases ht : T.missesTreshold ≤ P.OsMisses
    · rw [((checkAndSort_os E T P).1 ht).1]
      exact sort_strict_unchanged E.sorter _ _ (fun _ _ => rfl) _ h
    · exact ((checkAndSort_os E T P).2 (by omega)).1
  · by_cases ht : T.missesTreshold ≤ P.DeviceMisses
    · rw [((checkAndSort_device E T P).1 ht).1]
      exact sort_strict_unchanged E.sorter _ _ (fun _ _ => rfl) _ h
    · exact ((checkAndSort_device E T P).2 (by omega)).1

/-- C9, witness: the device catalog `g a c` with counts `2 1 0`, at the threshold, is
left unchanged. -/
theorem checkAndSort_strict_unchanged_witness :
    (checkAndSort shellEnv Tuning.initial
      { tieParser with DevicePatterns :=
          [countedPattern "g" 2, countedPattern "a" 1, countedPattern "c" 0] }).DevicePatterns =
      [countedPattern "g" 2, countedPattern "a" 1, countedPattern "c" 0] :=
  (checkAndSort_strict_unchanged shellEnv Tuning.initial
    { tieParser with DevicePatterns :=
        [countedPattern "g" 2, countedPattern "a" 1, countedPattern "c" 0] }).2.2
    (by simp [countedPattern, sampleDevicePattern])

/-- C9, counterexample: with a `sort.Sort` that runs the ShellSort pass and the insertion
sort of Go 1.6 to 1.18, `checkAndSort` turns the device catalog `a b c d e f g` with
counts `1 1 0 0 0 0 2` into `g b a c d e f`: the patterns `a` and `b` have the same
`MatchesCount` and change their relative order. -/
theorem checkAndSort_stable_counterexample :
    tieParser.DevicePatterns.map (fun p => (p.Regex, p.MatchesCount)) =
      [("a".toList, 1), ("b".toList, 1), ("c".toList, 0), ("d".toList, 0), ("e".toList, 0),
       ("f".toList, 0), ("g".toList, 2)] ∧
    (checkAndSort shellEnv Tuning.initial tieParser).DevicePatterns.map
        (fun p => (p.Regex, p.MatchesCount)) =
      [("g".toList, 2), ("b".toList, 1), ("a".toList, 1), ("c".toList, 0), ("d".toList, 0),
       ("e".toList, 0), ("f".toList, 0)] := by
  decide

/-! ## C17 and C18: totality and concatenation of the rendering -/

/-- What `writeTokenValue` does with a token that is not empty, on a capture array whose
length fits an `int`: either the token is written back after a `$`, or its index parsed
without error to a `k` with `1 ≤ k < len(matches)` and `matches[k]` is written. -/
theorem tokenOutput_cases (m : List GoString) (ds : GoString) (hne : ds ≠ [])
    (hm : m.length ≤ maxInt) :
    tokenOutput m ds = some ('$' :: ds) ∨
      ∃ k : Nat, strconvAtoi ds = ((k : Int), none) ∧ 1 ≤ k ∧ k < m.length ∧
        tokenOutput m ds = m[k]? ∧ ∃ v, m[k]? = some v := by
  have hlen : ds.length ≠ 0 := fun h => hne (List.length_eq_zero.1 h)
  simp only [tokenOutput, writeTokenValue, Bool.not_true, Bool.false_eq_true, if_false, hlen]
  split
  · left; simp
  · rename_i hoor
    right
    simp only [Bool.or_eq_true, Bool.and_eq_true, decide_eq_true_eq, not_or, not_and,
      not_le] at hoor
    obtain ⟨⟨h1, h2⟩, h3⟩ := hoor
    cases he : (strconvAtoi ds).2 with
    | some e =>
      exfalso
      cases e with
      | ErrSyntax => exact absurd (h1 (by simp [he])) (by simp [he])
      | ErrRange =>
        rcases strconvAtoi_range ds he with h4 | h4
        · have : (m.length : Int) ≤ (maxInt : Int) := by exact_mod_cast hm
          omega
        · rw [h4] at h2; norm_num at h2
    | none =>
      have hk : ((strconvAtoi ds).1.toNat : Int) = (strconvAtoi ds).1 :=
        Int.toNat_of_nonneg (by omega)
      have hlt : (strconvAtoi ds).1.toNat < m.length := by omega
      refine ⟨(strconvAtoi ds).1.toNat, ?_, by omega, hlt, ?_, ?_⟩
      · rw [hk, ← he]
      · simp only [ne_eq, not_true_eq_false, if_false]
        rw [List.getElem?_eq_getElem hlt]
        simp
      · exact ⟨_, List.getElem?_eq_getElem hlt⟩

/-- C17. The function `allMatchesReplacement` is total: on every template and every
capture array (of a length that fits an `int`: the empty array, digit runs too long for
an `int` and runs of non-ASCII digits included) it returns a string and does not panic;
and `writeTokenValue` reaches `matches[idx]` only for a token whose index parsed without
error to an `idx` with `1 ≤ idx < len(matches)`, every other token being written back. -/
theorem allMatchesReplacement_total (U : UnicodeTables) (t : GoString) (m : List GoString)
    (hm : m.length ≤ maxInt) :
    (∃ v, allMatchesReplacement U t m = some v) ∧
    (∀ o b ds, ∃ s, writeTokenValue m { output := o, readingToken := b, readToken := ds }
      = some s) ∧
    (∀ ds, ds ≠ [] →
      tokenOutput m ds = some ('$' :: ds) ∨
        ∃ k : Nat, strconvAtoi ds = ((k : Int), none) ∧ 1 ≤ k ∧ k < m.length ∧
          tokenOutput m ds = m[k]? ∧ ∃ v, m[k]? = some v) := by
  refine ⟨render_isSome U m t [] hm, ?_, fun ds hne => tokenOutput_cases m ds hne hm⟩
  intro o b ds
  cases b with
  | false => exact ⟨_, writeTokenValue_idle m o ds⟩
  | true =>
    obtain ⟨v, hv⟩ := tokenOutput_isSome m ds hm
    rw [writeTokenValue_token, hv]
    exact ⟨_, rfl⟩

/-- C17, witness: the empty capture array, with a digit run too long for an `int` and a
run of Arabic-Indic digits in the template. -/
theorem allMatchesReplacement_total_witness :
    ∃ v, allMatchesReplacement sampleTables
      "a$99999999999999999999999$٣$1b".toList [] = some v :=
  (allMatchesReplacement_total sampleTables "a$99999999999999999999999$٣$1b".toList []
    (by decide)).1

theorem head_append_not_digit (U : UnicodeTables) (rest b : GoString)
    (hr : ∀ c ∈ rest.head?, unicodeIsDigit U c = false)
    (hb : ∀ c ∈ b.head?, unicodeIsDigit U c = false) :
    ∀ c ∈ (rest ++ b).head?, unicodeIsDigit U c = false := by
  cases rest with
  | nil => simpa using hb
  | cons x xs => simpa using hr

theorem render_append (U : UnicodeTables) (m : List GoString) (a b o : GoString)
    (hb : ∀ c ∈ b.head?, unicodeIsDigit U c = false) :
    render U m o (a ++ b) = (render U m o a).bind (fun v => render U m v b) := by
  generalize hn : a.length = n
  induction n using Nat.strong_induction_on generalizing a o with
  | _ n ih =>
    rcases template_cases U a with rfl | ⟨c, cs, hc, rfl⟩ | ⟨ds, rest, hd, hr, rfl⟩
    · simp [render_nil]
    · rw [List.cons_append, render_lit U m o c _ hc, render_lit U m o c cs hc]
      exact ih cs.length (by simp at hn; omega) cs _ rfl
    · have e : ('$' :: (ds ++ rest)) ++ b = '$' :: (ds ++ (rest ++ b)) := by simp
      rw [e, render_token U m o ds (rest ++ b) hd (head_append_not_digit U rest b hr hb),
        render_token U m o ds rest hd hr]
      cases tokenOutput m ds with
      | none => simp
      | some v =>
        simp only [Option.some_bind]
        exact ih rest.length (by simp at hn; omega) rest _ rfl

/-- C18. Rendering distributes over concatenation at a token boundary: for every capture
array `m` and all templates `a` and `b` such that `b` is empty or does not begin with a
`unicode.IsDigit` character, `allMatchesReplacement(a ++ b, m)` is
`allMatchesReplacement(a, m)` followed by `allMatchesReplacement(b, m)` (and panics
exactly when one of the two does). -/
theorem allMatchesReplacement_append (U : UnicodeTables) (m : List GoString) (a b : GoString)
    (hb : ∀ c ∈ b.head?, unicodeIsDigit U c = false) :
    allMatchesReplacement U (a ++ b) m =
      (allMatchesReplacement U a m).bind (fun va =>
        (allMatchesReplacement U b m).map (fun vb => va ++ vb)) := by
  simp only [allMatchesReplacement_eq_render]
  rw [render_append U m a b [] hb]
  congr 1
  funext va
  exact render_output U m b va

/-- C18, witness: `"x$1"` followed by `"$2y"` against `["full", "Chrome", "99"]`. -/
theorem allMatchesReplacement_append_witness :
    allMatchesReplacement sampleTables ("x$1".toList ++ "$2y".toList) sampleCaptures =
      (allMatchesReplacement sampleTables "x$1".toList sampleCaptures).bind (fun va =>
        (allMatchesReplacement sampleTables "$2y".toList sampleCaptures).map
          (fun vb => va ++ vb)) :=
  allMatchesReplacement_append sampleTables sampleCaptures "x$1".toList "$2y".toList
    (by decide)

/-! ## Lemmas on what the lookups leave alone -/

theorem ParseDevice_frame (E : Env) (T : Tuning) (P : Parser) (line : GoString) :
    ∃ r, ParseDevice E T P line = some r ∧
      r.2.UserAgentPatterns = P.UserAgentPatterns ∧ r.2.UserAgentMisses = P.UserAgentMisses ∧
      r.2.OsPatterns = P.OsPatterns ∧ r.2.OsMisses = P.OsMisses := by
  obtain ⟨s, hs, _, _⟩ := ParseDevice_scan_spec E P line
  unfold ParseDevice
  rw [hs]
  exact ⟨_, rfl, rfl, rfl, rfl, rfl⟩

theorem ParseUserAgent_frame (E : Env) (T : Tuning) (P : Parser) (line : GoString) :
    (ParseUserAgent E T P line).2.Mode = P.Mode ∧
    (ParseUserAgent E T P line).2.OsPatterns = P.OsPatterns ∧
    (ParseUserAgent E T P line).2.OsMisses = P.OsMisses ∧
    (ParseUserAgent E T P line).2.DevicePatterns = P.DevicePatterns ∧
    (ParseUserAgent E T P line).2.DeviceMisses = P.DeviceMisses :=
  ⟨rfl, rfl, rfl, rfl, rfl⟩

theorem ParseOs_frame (E : Env) (T : Tuning) (P : Parser) (line : GoString) :
    (ParseOs E T P line).2.Mode = P.Mode ∧
    (ParseOs E T P line).2.UserAgentPatterns = P.UserAgentPatterns ∧
    (ParseOs E T P line).2.UserAgentMisses = P.UserAgentMisses ∧
    (ParseOs E T P line).2.DevicePatterns = P.DevicePatterns ∧
    (ParseOs E T P line).2.DeviceMisses = P.DeviceMisses :=
  ⟨rfl, rfl, rfl, rfl, rfl⟩

theorem afterUserAgent_frame (E : Env) (T : Tuning) (P : Parser) (line : GoString) :
    (Parse.afterUserAgent E T P line).Mode = P.Mode ∧
    (Parse.afterUserAgent E T P line).OsPatterns = P.OsPatterns ∧
    (Parse.afterUserAgent E T P line).OsMisses = P.OsMisses ∧
    (Parse.afterUserAgent E T P line).DevicePatterns = P.DevicePatterns ∧
    (Parse.afterUserAgent E T P line).DeviceMisses = P.DeviceMisses ∧
    (intAnd EUserAgentLookUpMode P.Mode ≠ EUserAgentLookUpMode →
      Parse.afterUserAgent E T P line = P) := by
  unfold Parse.afterUserAgent
  by_cases hu : intAnd EUserAgentLookUpMode P.Mode = EUserAgentLookUpMode
  · rw [if_pos hu]
    obtain ⟨g1, g2, g3, g4, g5⟩ := ParseUserAgent_frame E T P line
    exact ⟨g1, g2, g3, g4, g5, fun h => absurd hu h⟩
  · rw [if_neg hu]
    exact ⟨rfl, rfl, rfl, rfl, rfl, fun _ => rfl⟩

theorem afterOs_frame (E : Env) (T : Tuning) (P : Parser) (line : GoString) :
    (Parse.afterOs E T P line).Mode = P.Mode ∧
    (Parse.afterOs E T P line).UserAgentPatterns =
      (Parse.afterUserAgent E T P line).UserAgentPatterns ∧
    (Parse.afterOs E T P line).UserAgentMisses =
      (Parse.afterUserAgent E T P line).UserAgentMisses ∧
    (Parse.afterOs E T P line).DevicePatterns = P.DevicePatterns ∧
    (Parse.afterOs E T P line).DeviceMisses = P.DeviceMisses ∧
    (intAnd EOsLookUpMode P.Mode ≠ EOsLookUpMode →
      Parse.afterOs E T P line = Parse.afterUserAgent E T P line) := by
  obtain ⟨f1, f2, f3, f4, f5, _⟩ := afterUserAgent_frame E T P line
  unfold Parse.afterOs
  by_cases ho : intAnd EOsLookUpMode P.Mode = EOsLookUpMode
  · rw [if_pos ho]
    obtain ⟨g1, g2, g3, g4, g5⟩ := ParseOs_frame E T (Parse.afterUserAgent E T P line) line
    exact ⟨g1.trans f1, g2, g3, g4.trans f4, g5.trans f5, fun h => absurd ho h⟩
  · rw [if_neg ho]
    exact ⟨f1, rfl, rfl, f4, f5, fun _ => rfl⟩

/-- The parser after the three `if` statements of `Parse`: the one after the second `if`
when the device lookup is disabled, and the one `ParseDevice` leaves otherwise. -/
theorem Parse_lookups_state (E : Env) (T : Tuning) (P : Parser) (line : GoString) :
    ∃ st, Parse.lookups E T P line = some st ∧
      ((intAnd EDeviceLookUpMode P.Mode ≠ EDeviceLookUpMode ∧
          st.2 = Parse.afterOs E T P line) ∨
        (intAnd EDeviceLookUpMode P.Mode = EDeviceLookUpMode ∧
          ∃ r, ParseDevice E T (Parse.afterOs E T P line) line = some r ∧ st.2 = r.2)) := by
  unfold Parse.lookups Parse.afterOs Parse.afterUserAgent
  by_cases hu : intAnd EUserAgentLookUpMode P.Mode = EUserAgentLookUpMode <;>
  by_cases ho : intAnd EOsLookUpMode P.Mode = EOsLookUpMode <;>
  by_cases hd : intAnd EDeviceLookUpMode P.Mode = EDeviceLookUpMode
  all_goals simp only [hu, ho, hd, if_true, if_false, ParseUserAgent_mode, ParseOs_mode]
  · obtain ⟨r, hr, _⟩ :=
      ParseDevice_total E T (ParseOs E T (ParseUserAgent E T P line).2 line).2 line
    rw [hr]
    exact ⟨_, rfl, Or.inr ⟨trivial, r, rfl, rfl⟩⟩
  · exact ⟨_, rfl, Or.inl ⟨hd, rfl⟩⟩
  · obtain ⟨r, hr, _⟩ := ParseDevice_total E T (ParseUserAgent E T P line).2 line
    rw [hr]
    exact ⟨_, rfl, Or.inr ⟨trivial, r, rfl, rfl⟩⟩
  · exact ⟨_, rfl, Or.inl ⟨hd, rfl⟩⟩
  · obtain ⟨r, hr, _⟩ := ParseDevice_total E T (ParseOs E T P line).2 line
    rw [hr]
    exact ⟨_, rfl, Or.inr ⟨trivial, r, rfl, rfl⟩⟩
  · exact ⟨_, rfl, Or.inl ⟨hd, rfl⟩⟩
  · obtain ⟨r, hr, _⟩ := ParseDevice_total E T P line
    rw [hr]
    exact ⟨_, rfl, Or.inr ⟨trivial, r, rfl, rfl⟩⟩
  · exact ⟨_, rfl, Or.inl ⟨hd, rfl⟩⟩

/-! ## C12 and C13: the miss threshold set by the constructors -/

theorem NewWithOptions_tuning (L : LoadEnv) (T : Tuning) (regexFile : GoString)
    (mode treshold topCnt : Int) :
    (NewWithOptions L T regexFile mode treshold topCnt).1 = T ∨
      (NewWithOptions L T regexFile mode treshold topCnt).1 =
        { missesTreshold :=
            if treshold > cMinMissesTreshold then treshold else T.missesTreshold
          matchIdxNotOk := if topCnt ≥ 0 then topCnt else T.matchIdxNotOk } := by
  unfold NewWithOptions
  cases L.readFile regexFile with
  | error err => left; rfl
  | ok data =>
    right
    by_cases h1 : topCnt ≥ 0 <;> by_cases h2 : treshold > cMinMissesTreshold <;>
      simp [h1, h2]

theorem New_tuning (L : LoadEnv) (T : Tuning) (regexFile : GoString) :
    (New L T regexFile).1 = T ∨
      (New L T regexFile).1 =
        { missesTreshold := CDefaultMissesTreshold, matchIdxNotOk := CDefaultMatchIdxNotOk } := by
  unfold New
  cases L.readFile regexFile with
  | error err => left; rfl
  | ok data => right; rfl

/-- In every reachable state of the package variables the miss threshold is above the
minimum and the acceptable match index is not negative. -/
theorem reachable_bounds (T : Tuning) (h : T.Reachable) :
    cMinMissesTreshold < T.missesTreshold ∧ 0 ≤ T.matchIdxNotOk := by
  induction h with
  | initial => decide
  | new L T regexFile _ ih =>
    rcases New_tuning L T regexFile with e | e
    · rw [e]; exact ih
    · rw [e]; decide
  | newWithOptions L T regexFile mode treshold topCnt _ ih =>
    rcases NewWithOptions_tuning L T regexFile mode treshold topCnt with e | e
    · rw [e]; exact ih
    · rw [e]
      constructor
      · show cMinMissesTreshold < if treshold > cMinMissesTreshold then treshold
          else T.missesTreshold
        split
        · assumption
        · exact ih.1
      · show 0 ≤ if topCnt ≥ 0 then topCnt else T.matchIdxNotOk
        split
        · assumption
        · exact ih.2
  | newFromBytes L T regexBytes _ ih => exact ih

/-- C13. The effective miss threshold never falls below the minimum floor: in every
state of the package variables reachable from the initial one by calls of `New`,
`NewWithOptions` and `NewFromBytes` with arbitrary arguments, `missesTreshold` is at
least `cMinMissesTreshold`, which is 100000. -/
theorem missesTreshold_floor (T : Tuning) (h : T.Reachable) :
    cMinMissesTreshold ≤ T.missesTreshold ∧ cMinMissesTreshold = 100000 :=
  ⟨le_of_lt (reachable_bounds T h).1, rfl⟩

/-- C13, witness: the state after `NewWithOptions` with the threshold `-3`, then with the
threshold `0`, from the initial state. -/
theorem missesTreshold_floor_witness :
    cMinMissesTreshold ≤
        (NewWithOptions sampleLoadEnv
          (NewWithOptions sampleLoadEnv Tuning.initial [] 7 (-3) 5).1 [] 7 0 5).1.missesTreshold ∧
      cMinMissesTreshold = 100000 :=
  missesTreshold_floor _
    (Tuning.Reachable.newWithOptions sampleLoadEnv _ [] 7 0 5
      (Tuning.Reachable.newWithOptions sampleLoadEnv _ [] 7 (-3) 5 Tuning.Reachable.initial))

/-- C12, as the code has it. A miss threshold `t` that is not above `cMinMissesTreshold`
is ignored: after `NewWithOptions(file, mode, t, topCnt)` the miss threshold is the one
in force before the call, and the call has the same result and leaves the same package
variables as the call with `t` equal to the minimum. -/
theorem NewWithOptions_below_floor (L : LoadEnv) (T : Tuning) (regexFile : GoString)
    (mode t topCnt : Int) (ht : t ≤ cMinMissesTreshold) :
    (NewWithOptions L T regexFile mode t topCnt).1.missesTreshold = T.missesTreshold ∧
    NewWithOptions L T regexFile mode t topCnt =
      NewWithOptions L T regexFile mode cMinMissesTreshold topCnt := by
  have h1 : ¬ t > cMinMissesTreshold := by omega
  have h2 : ¬ cMinMissesTreshold > cMinMissesTreshold := by omega
  unfold NewWithOptions
  cases L.readFile regexFile with
  | error err => exact ⟨rfl, rfl⟩
  | ok data =>
    simp only [h1, h2, if_false]
    refine ⟨?_, trivial⟩
    split <;> rfl

/-- C12, witness: the threshold 5 from the initial state. -/
theorem NewWithOptions_below_floor_witness :
    (NewWithOptions sampleLoadEnv Tuning.initial [] 7 5 20).1.missesTreshold =
        Tuning.initial.missesTreshold ∧
      NewWithOptions sampleLoadEnv Tuning.initial [] 7 5 20 =
        NewWithOptions sampleLoadEnv Tuning.initial [] 7 cMinMissesTreshold 20 :=
  NewWithOptions_below_floor sampleLoadEnv Tuning.initial [] 7 5 20 (by decide)

/-- C12, counterexample: from the initial state, the successful call
`NewWithOptions(file, 7, 5, 20)` with the threshold 5, which is below the minimum, leaves
the miss threshold at 500000, not at the floor 100000. -/
theorem NewWithOptions_floor_counterexample :
    (5 : Int) < cMinMissesTreshold ∧
    (NewWithOptions sampleLoadEnv Tuning.initial [] 7 5 20).2.summary =
      some (Except.ok (7, (0, 0, 0),
        [("Chrome".toList, 0), (".*".toList, 0)], [("Linux".toList, 0)],
        [("iphone".toList, 0), ("(.*)".toList, 0)])) ∧
    (NewWithOptions sampleLoadEnv Tuning.initial [] 7 5 20).1.missesTreshold = 500000 ∧
    cMinMissesTreshold = 100000 :=
  ⟨by decide, rfl, rfl, rfl⟩

/-! ## C11 and C19: disabled catalogs and the miss counts after `Parse` -/

/-- What the three `if` statements of `Parse` leave alone: the catalog and the miss count
of every category whose mode bit is not set. -/
theorem Parse_lookups_frame (E : Env) (T : Tuning) (P : Parser) (line : GoString) :
    ∃ st, Parse.lookups E T P line = some st ∧
      (intAnd EUserAgentLookUpMode P.Mode ≠ EUserAgentLookUpMode →
        st.2.UserAgentPatterns = P.UserAgentPatterns ∧
        st.2.UserAgentMisses = P.UserAgentMisses) ∧
      (intAnd EOsLookUpMode P.Mode ≠ EOsLookUpMode →
        st.2.OsPatterns = P.OsPatterns ∧ st.2.OsMisses = P.OsMisses) ∧
      (intAnd EDeviceLookUpMode P.Mode ≠ EDeviceLookUpMode →
        st.2.DevicePatterns = P.DevicePatterns ∧ st.2.DeviceMisses = P.DeviceMisses) := by
  obtain ⟨st, hst, hcase⟩ := Parse_lookups_state E T P line
  obtain ⟨_, a2, a3, _, _, a6⟩ := afterUserAgent_frame E T P line
  obtain ⟨_, b2, b3, b4, b5, b6⟩ := afterOs_frame E T P line
  have hua : st.2.UserAgentPatterns = (Parse.afterOs E T P line).UserAgentPatterns ∧
      st.2.UserAgentMisses = (Parse.afterOs E T P line).UserAgentMisses ∧
      st.2.OsPatterns = (Parse.afterOs E T P line).OsPatterns ∧
      st.2.OsMisses = (Parse.afterOs E T P line).OsMisses := by
    rcases hcase with ⟨_, e⟩ | ⟨_, r, hr, e⟩
    · rw [e]; exact ⟨rfl, rfl, rfl, rfl⟩
    · obtain ⟨r1, hr1, f1, f2, f3, f4⟩ := ParseDevice_frame E T (Parse.afterOs E T P line) line
      rw [hr] at hr1
      cases hr1
      rw [e]
      exact ⟨f1, f2, f3, f4⟩
  refine ⟨st, hst, ?_, ?_, ?_⟩
  · intro hu
    rw [hua.1, hua.2.1, b2, b3, a6 hu]
    exact ⟨rfl, rfl⟩
  · intro ho
    rw [hua.2.2.1, hua.2.2.2, b6 ho, a2, a3]
    exact ⟨rfl, rfl⟩
  · intro hd
    rcases hcase with ⟨_, e⟩ | ⟨h, _⟩
    · rw [e]; exact ⟨b4, b5⟩
    · exact absurd h hd

/-- C11, as the code has it. The lookups of `Parse` touch only the catalogs of the
categories enabled in `Mode`: after them (`st.2`) a disabled category has the pattern
order, the match counts and the miss count it had before. `checkAndSort` then checks all
three catalogs, so a disabled category keeps all of these until `Parse` returns when its
miss count is below the threshold. -/
theorem Parse_disabled_catalogs (E : Env) (T : Tuning) (P : Parser) (line : GoString) :
    ∃ st r, Parse.lookups E T P line = some st ∧ Parse E T P line = some r ∧
      (intAnd EUserAgentLookUpMode P.Mode ≠ EUserAgentLookUpMode →
        st.2.UserAgentPatterns = P.UserAgentPatterns ∧
        st.2.UserAgentMisses = P.UserAgentMisses ∧
        (P.UserAgentMisses < T.missesTreshold →
          r.2.UserAgentPatterns = P.UserAgentPatterns ∧
          r.2.UserAgentMisses = P.UserAgentMisses)) ∧
      (intAnd EOsLookUpMode P.Mode ≠ EOsLookUpMode →
        st.2.OsPatterns = P.OsPatterns ∧ st.2.OsMisses = P.OsMisses ∧
        (P.OsMisses < T.missesTreshold →
          r.2.OsPatterns = P.OsPatterns ∧ r.2.OsMisses = P.OsMisses)) ∧
      (intAnd EDeviceLookUpMode P.Mode ≠ EDeviceLookUpMode →
        st.2.DevicePatterns = P.DevicePatterns ∧ st.2.DeviceMisses = P.DeviceMisses ∧
        (P.DeviceMisses < T.missesTreshold →
          r.2.DevicePatterns = P.DevicePatterns ∧ r.2.DeviceMisses = P.DeviceMisses)) := by
  obtain ⟨st, hst, hu, ho, hd⟩ := Parse_lookups_frame E T P line
  refine ⟨st, _, hst, Parse_some E T P line st hst, ?_, ?_, ?_⟩
  · intro h
    obtain ⟨e1, e2⟩ := hu h
    refine ⟨e1, e2, fun hlt => ?_⟩
    obtain ⟨c1, c2⟩ := (checkAndSort_userAgent E T st.2).2 (by rw [e2]; exact hlt)
    exact ⟨c1.trans e1, c2.trans e2⟩
  · intro h
    obtain ⟨e1, e2⟩ := ho h
    refine ⟨e1, e2, fun hlt => ?_⟩
    obtain ⟨c1, c2⟩ := (checkAndSort_os E T st.2).2 (by rw [e2]; exact hlt)
    exact ⟨c1.trans e1, c2.trans e2⟩
  · intro h
    obtain ⟨e1, e2⟩ := hd h
    refine ⟨e1, e2, fun hlt => ?_⟩
    obtain ⟨c1, c2⟩ := (checkAndSort_device E T st.2).2 (by rw [e2]; exact hlt)
    exact ⟨c1.trans e1, c2.trans e2⟩

/-- C11, witness: the sample parser with only the OS lookup enabled; its device catalog
is the same after `Parse` as before. -/
theorem Parse_disabled_catalogs_witness :
    ∃ r, Parse sampleEnv Tuning.initial { sampleParser with Mode := EOsLookUpMode }
        "Mozilla Chrome/99".toList = some r ∧
      r.2.DevicePatterns = sampleParser.DevicePatterns ∧
      r.2.DeviceMisses = sampleParser.DeviceMisses := by
  obtain ⟨st, r, _, h2, _, _, h5⟩ :=
    Parse_disabled_catalogs sampleEnv Tuning.initial
      { sampleParser with Mode := EOsLookUpMode } "Mozilla Chrome/99".toList
  exact ⟨r, h2, ((h5 (by decide)).2.2 (by decide))⟩

/-- C11, counterexample: with only the OS lookup enabled, a user-agent catalog `a b` with
match counts `0 5` whose miss count is at the threshold is `b a` after `Parse`, and its
miss count is 0: `checkAndSort` has reordered the catalog of a disabled category. -/
theorem Parse_disabled_catalogs_counterexample :
    intAnd EUserAgentLookUpMode osOnlyParser.Mode ≠ EUserAgentLookUpMode ∧
    (osOnlyParser.UserAgentPatterns.map (fun q => (q.Regex, q.MatchesCount)),
        osOnlyParser.UserAgentMisses) =
      ([("a".toList, 0), ("b".toList, 5)], 500000) ∧
    (Parse sampleEnv Tuning.initial osOnlyParser "x".toList).map
        (fun r => (r.1.UserAgent, r.2.UserAgentPatterns.map (fun q => (q.Regex, q.MatchesCount)),
          r.2.UserAgentMisses)) =
      some (none, [("b".toList, 5), ("a".toList, 0)], 0) := by
  decide

/-- C19. Miss counters stay below the threshold between calls: in every reachable state
of the package variables, for every parser state and line, `Parse` returns and each of
`UserAgentMisses`, `OsMisses` and `DeviceMisses` is then less than `missesTreshold`,
whichever categories are enabled. -/
theorem Parse_misses_below_threshold (E : Env) (T : Tuning) (hT : T.Reachable) (P : Parser)
    (line : GoString) :
    ∃ r, Parse E T P line = some r ∧
      r.2.UserAgentMisses < T.missesTreshold ∧ r.2.OsMisses < T.missesTreshold ∧
      r.2.DeviceMisses < T.missesTreshold := by
  obtain ⟨st, _, hr⟩ := Parse_eq E T P line
  have hpos : 0 < T.missesTreshold := by
    have := (reachable_bounds T hT).1
    have : cMinMissesTreshold = 100000 := rfl
    omega
  refine ⟨_, hr, ?_, ?_, ?_⟩
  · by_cases h : T.missesTreshold ≤ st.2.UserAgentMisses
    · show (checkAndSort E T st.2).UserAgentMisses < _
      rw [((checkAndSort_userAgent E T st.2).1 h).2]
      exact hpos
    · show (checkAndSort E T st.2).UserAgentMisses < _
      rw [((checkAndSort_userAgent E T st.2).2 (by omega)).2]
      omega
  · by_cases h : T.missesTreshold ≤ st.2.OsMisses
    · show (checkAndSort E T st.2).OsMisses < _
      rw [((checkAndSort_os E T st.2).1 h).2]
      exact hpos
    · show (checkAndSort E T st.2).OsMisses < _
      rw [((checkAndSort_os E T st.2).2 (by omega)).2]
      omega
  · by_cases h : T.missesTreshold ≤ st.2.DeviceMisses
    · show (checkAndSort E T st.2).DeviceMisses < _
      rw [((checkAndSort_device E T st.2).1 h).2]
      exact hpos
    · show (checkAndSort E T st.2).DeviceMisses < _
      rw [((checkAndSort_device E T st.2).2 (by omega)).2]
      omega

/-- C19, witness: the parser `tieParser`, whose device miss count is at the threshold, in
the initial state of the package variables. -/
theorem Parse_misses_below_threshold_witness :
    ∃ r, Parse shellEnv Tuning.initial tieParser "a".toList = some r ∧
      r.2.UserAgentMisses < Tuning.initial.missesTreshold ∧
      r.2.OsMisses < Tuning.initial.missesTreshold ∧
      r.2.DeviceMisses < Tuning.initial.missesTreshold :=
  Parse_misses_below_threshold shellEnv Tuning.initial Tuning.Reachable.initial tieParser
    "a".toList

/-! ## Lemmas on the loader -/

theorem uaLoop_spec (L : LoadEnv) (ds ps : List UserAgentPattern)
    (h : newFromBytes.uaLoop L ds = some ps) :
    ps.length = ds.length ∧ ∀ p ∈ ps, L.compile p.Regex = some p.Regexp := by
  induction ds generalizing ps with
  | nil =>
    simp only [newFromBytes.uaLoop, Option.some.injEq] at h
    subst h
    simp
  | cons d rest ih =>
    simp only [newFromBytes.uaLoop, mustCompile] at h
    cases hc : L.compile d.Regex with
    | none => simp [hc] at h
    | some re =>
      cases hr : newFromBytes.uaLoop L rest with
      | none => simp [hc, hr] at h
      | some qs =>
        simp only [hc, hr, Option.some_bind, Option.map_some', Option.some.injEq] at h
        subst h
        obtain ⟨i1, i2⟩ := ih qs hr
        refine ⟨by simp [i1], ?_⟩
        intro p hp
        rcases List.mem_cons.1 hp with rfl | hp
        · exact hc
        · exact i2 p hp

theorem osLoop_spec (L : LoadEnv) (ds ps : List OsPattern)
    (h : newFromBytes.osLoop L ds = some ps) :
    ps.length = ds.length ∧ ∀ p ∈ ps, L.compile p.Regex = some p.Regexp := by
  induction ds generalizing ps with
  | nil =>
    simp only [newFromBytes.osLoop, Option.some.injEq] at h
    subst h
    simp
  | cons d rest ih =>
    simp only [newFromBytes.osLoop, mustCompile] at h
    cases hc : L.compile d.Regex with
    | none => simp [hc] at h
    | some re =>
      cases hr : newFromBytes.osLoop L rest with
      | none => simp [hc, hr] at h
      | some qs =>
        simp only [hc, hr, Option.some_bind, Option.map_some', Option.some.injEq] at h
        subst h
        obtain ⟨i1, i2⟩ := ih qs hr
        refine ⟨by simp [i1], ?_⟩
        intro p hp
        rcases List.mem_cons.1 hp with rfl | hp
        · exact hc
        · exact i2 p hp

theorem dvcLoop_spec (L : LoadEnv) (ds ps : List DevicePattern)
    (h : newFromBytes.dvcLoop L ds = some ps) :
    ps.length = ds.length ∧
      ∀ p ∈ ps, L.compile (newFromBytes.regexString p) = some p.Regexp := by
  induction ds generalizing ps with
  | nil =>
    simp only [newFromBytes.dvcLoop, Option.some.injEq] at h
    subst h
    simp
  | cons d rest ih =>
    simp only [newFromBytes.dvcLoop, mustCompile] at h
    cases hc : L.compile (newFromBytes.regexString d) with
    | none => simp [hc] at h
    | some re =>
      cases hr : newFromBytes.dvcLoop L rest with
      | none => simp [hc, hr] at h
      | some qs =>
        simp only [hc, hr, Option.some_bind, Option.map_some', Option.some.injEq] at h
        subst h
        obtain ⟨i1, i2⟩ := ih qs hr
        refine ⟨by simp [i1], ?_⟩
        intro p hp
        rcases List.mem_cons.1 hp with rfl | hp
        · exact hc
        · exact i2 p hp

theorem ToStruct_length {σ : Type} (zero : σ) (setString : σ → GoString → GoString → Option σ)
    (rules : List Rule) (ss : List σ) (h : ToStruct zero setString rules = some ss) :
    ss.length = rules.length := by
  induction rules generalizing ss with
  | nil =>
    simp only [ToStruct, Option.some.injEq] at h
    subst h
    rfl
  | cons r rest ih =>
    simp only [ToStruct] at h
    cases hf : ToStruct.fill setString zero r with
    | none => simp [hf] at h
    | some s =>
      cases hr : ToStruct zero setString rest with
      | none => simp [hf, hr] at h
      | some qs =>
        simp only [hf, hr, Option.some_bind, Option.map_some', Option.some.injEq] at h
        subst h
        simp [ih qs hr]

/-- What a successful `newFromBytes` has done: the YAML parsed to a map `m`, the three
goroutines did not panic, and the parser is the receiver with the three catalogs set. -/
theorem newFromBytes_ok (L : LoadEnv) (parser : Parser) (data : Bytes) (P : Parser)
    (h : newFromBytes L parser data = some (Except.ok P)) :
    ∃ m ua os dvc, L.yamlUnmarshal data = Except.ok m ∧
      newFromBytes.userAgent L m = some ua ∧ newFromBytes.os L m = some os ∧
      newFromBytes.device L m = some dvc ∧
      P = { parser with UserAgentPatterns := ua, OsPatterns := os, DevicePatterns := dvc } := by
  unfold newFromBytes at h
  cases hy : L.yamlUnmarshal data with
  | error err =>
    rw [hy] at h
    simp at h
  | ok m =>
    rw [hy] at h
    simp only [newFromBytes.load] at h
    cases hua : newFromBytes.userAgent L m with
    | none =>
      rw [hua] at h
      simp at h
    | some ua =>
      cases hos : newFromBytes.os L m with
      | none =>
        rw [hua, hos] at h
        simp at h
      | some os =>
        cases hdv : newFromBytes.device L m with
        | none =>
          rw [hua, hos, hdv] at h
          simp at h
        | some dvc =>
          rw [hua, hos, hdv] at h
          simp only [Option.some_bind, Option.map_some', Option.some.injEq,
            Except.ok.injEq] at h
          exact ⟨m, ua, os, dvc, rfl, hua, hos, hdv, h.symm⟩

/-- A panic in one of the three goroutines is a panic of `newFromBytes`. -/
theorem newFromBytes_panic (L : LoadEnv) (parser : Parser) (data : Bytes) (m : YamlDoc)
    (hy : L.yamlUnmarshal data = Except.ok m)
    (h : newFromBytes.userAgent L m = none ∨ newFromBytes.os L m = none ∨
      newFromBytes.device L m = none) :
    newFromBytes L parser data = none := by
  unfold newFromBytes
  rw [hy]
  simp only [newFromBytes.load]
  cases hua : newFromBytes.userAgent L m with
  | none => simp
  | some ua =>
    cases hos : newFromBytes.os L m with
    | none => simp
    | some os =>
      cases hdv : newFromBytes.device L m with
      | none => simp
      | some dvc =>
        rw [hua, hos, hdv] at h
        simp at h

/-- The only error `newFromBytes` returns is the one of `yaml.Unmarshal`. -/
theorem newFromBytes_error (L : LoadEnv) (parser : Parser) (data : Bytes) (e : GoError)
    (h : newFromBytes L parser data = some (Except.error e)) :
    L.yamlUnmarshal data = Except.error e := by
  unfold newFromBytes at h
  cases hy : L.yamlUnmarshal data with
  | error err =>
    rw [hy] at h
    simp only [Option.some.injEq, Except.error.injEq] at h
    rw [h]
  | ok m =>
    rw [hy] at h
    simp only [Option.map_eq_some'] at h
    obtain ⟨r, _, hr⟩ := h
    cases hr

/-! ## C14 and C16: what the loader compiles -/

theorem uaLoop_bad (L : LoadEnv) (ds : List UserAgentPattern)
    (h : ∃ p ∈ ds, L.compile p.Regex = none) : newFromBytes.uaLoop L ds = none := by
  induction ds with
  | nil => simp at h
  | cons d rest ih =>
    obtain ⟨p, hp, hc⟩ := h
    simp only [newFromBytes.uaLoop, mustCompile]
    rcases List.mem_cons.1 hp with rfl | hp
    · rw [hc]; rfl
    · rw [ih ⟨p, hp, hc⟩]
      cases L.compile d.Regex <;> rfl

theorem osLoop_bad (L : LoadEnv) (ds : List OsPattern)
    (h : ∃ p ∈ ds, L.compile p.Regex = none) : newFromBytes.osLoop L ds = none := by
  induction ds with
  | nil => simp at h
  | cons d rest ih =>
    obtain ⟨p, hp, hc⟩ := h
    simp only [newFromBytes.osLoop, mustCompile]
    rcases List.mem_cons.1 hp with rfl | hp
    · rw [hc]; rfl
    · rw [ih ⟨p, hp, hc⟩]
      cases L.compile d.Regex <;> rfl

theorem dvcLoop_bad (L : LoadEnv) (ds : List DevicePattern)
    (h : ∃ p ∈ ds, L.compile (newFromBytes.regexString p) = none) :
    newFromBytes.dvcLoop L ds = none := by
  induction ds with
  | nil => simp at h
  | cons d rest ih =>
    obtain ⟨p, hp, hc⟩ := h
    simp only [newFromBytes.dvcLoop, mustCompile]
    rcases List.mem_cons.1 hp with rfl | hp
    · rw [hc]; rfl
    · rw [ih ⟨p, hp, hc⟩]
      cases L.compile (newFromBytes.regexString d) <;> rfl

/-- C14, as the code has it. For every configuration that parses as YAML (to the map `m`)
and contains a rule, in any of the three sections, whose regex source does not compile,
`newFromBytes` does not return: `regexp.MustCompile` panics. No parser, partially loaded
or not, is returned, and no error either: the only error `newFromBytes` ever returns is
the one of `yaml.Unmarshal`. -/
theorem newFromBytes_bad_regex (L : LoadEnv) (parser : Parser) (data : Bytes) (m : YamlDoc)
    (hy : L.yamlUnmarshal data = Except.ok m) :
    (((∃ ps, ToStruct UserAgentPattern.zero L.uaSetString (m "user_agent_parsers".toList)
            = some ps ∧ ∃ p ∈ ps, L.compile p.Regex = none) ∨
        (∃ ps, ToStruct OsPattern.zero L.osSetString (m "os_parsers".toList) = some ps ∧
            ∃ p ∈ ps, L.compile p.Regex = none) ∨
        (∃ ps, ToStruct DevicePattern.zero DevicePattern.setString
              (m "device_parsers".toList) = some ps ∧
            ∃ p ∈ ps, L.compile (newFromBytes.regexString p) = none)) →
      newFromBytes L parser data = none) ∧
    (∀ e, newFromBytes L parser data ≠ some (Except.error e)) := by
  constructor
  · intro hbad
    apply newFromBytes_panic L parser data m hy
    rcases hbad with ⟨ps, h1, h2⟩ | ⟨ps, h1, h2⟩ | ⟨ps, h1, h2⟩
    · left
      unfold newFromBytes.userAgent
      rw [h1]
      exact uaLoop_bad L ps h2
    · right; left
      unfold newFromBytes.os
      rw [h1]
      exact osLoop_bad L ps h2
    · right; right
      unfold newFromBytes.device
      rw [h1]
      exact dvcLoop_bad L ps h2
  · intro e he
    have := newFromBytes_error L parser data e he
    rw [hy] at this
    cases this

/-- C14, witness: the configuration whose only rule is the device rule `(`. -/
theorem newFromBytes_bad_regex_witness :
    newFromBytes sampleLoadEnv Parser.zero [1] = none :=
  (newFromBytes_bad_regex sampleLoadEnv Parser.zero [1] brokenDoc rfl).1
    (Or.inr (Or.inr ⟨[{ DevicePattern.zero with Regex := "(".toList }], rfl,
      { DevicePattern.zero with Regex := "(".toList }, by simp, rfl⟩))

/-- C14, counterexample: the configuration whose only rule is a device rule with the
regex `(`, which does not compile, parses as YAML, and `NewFromBytes` panics on it: it
returns neither an error nor a parser. -/
theorem newFromBytes_bad_regex_counterexample :
    (sampleLoadEnv.compile "(".toList).isNone = true ∧
    (brokenDoc "device_parsers".toList) = [[("regex".toList, "(".toList)]] ∧
    (NewFromBytes sampleLoadEnv Tuning.initial [1]).2.isNone = true ∧
    ¬ ∃ e, (NewFromBytes sampleLoadEnv Tuning.initial [1]).2 = some (Except.error e) := by
  refine ⟨by decide, by decide, by decide, ?_⟩
  rintro ⟨e, he⟩
  have h : (NewFromBytes sampleLoadEnv Tuning.initial [1]).2.isNone = true := by decide
  rw [he] at h
  simp at h

theorem fill_device_fields (r : Rule) (s d : DevicePattern)
    (h : ToStruct.fill DevicePattern.setString s r = some d) :
    d.Regex = fieldValue "Regex".toList s.Regex r ∧
    d.RegexFlag = fieldValue "RegexFlag".toList s.RegexFlag r := by
  induction r generalizing s with
  | nil =>
    simp only [ToStruct.fill, Option.some.injEq] at h
    subst h
    exact ⟨rfl, rfl⟩
  | cons kv rest ih =>
    obtain ⟨k, v⟩ := kv
    simp only [ToStruct.fill] at h
    obtain ⟨s1, hs1, hrest⟩ := Option.bind_eq_some.1 h
    obtain ⟨i1, i2⟩ := ih s1 hrest
    have hne : ("RegexFlag".toList : GoString) ≠ "Regex".toList := by decide
    have step : s1.Regex = (if GetExportedName k = "Regex".toList then v else s.Regex) ∧
        s1.RegexFlag = (if GetExportedName k = "RegexFlag".toList then v else s.RegexFlag) := by
      unfold DevicePattern.setString at hs1
      by_cases h1 : GetExportedName k = "Regex".toList
      · rw [if_pos h1] at hs1
        cases hs1
        have h2 : ¬ GetExportedName k = "RegexFlag".toList := by
          rw [h1]; decide
        rw [if_pos h1, if_neg h2]
        exact ⟨rfl, rfl⟩
      · rw [if_neg h1] at hs1
        by_cases h2 : GetExportedName k = "RegexFlag".toList
        · rw [if_pos h2] at hs1
          cases hs1
          rw [if_neg h1, if_pos h2]
          exact ⟨rfl, rfl⟩
        · rw [if_neg h2] at hs1
          rw [if_neg h1, if_neg h2]
          by_cases h3 : GetExportedName k = "BrandReplacement".toList
          · rw [if_pos h3] at hs1
            cases hs1
            exact ⟨rfl, rfl⟩
          · rw [if_neg h3] at hs1
            by_cases h4 : GetExportedName k = "DeviceReplacement".toList
            · rw [if_pos h4] at hs1
              cases hs1
              exact ⟨rfl, rfl⟩
            · rw [if_neg h4] at hs1
              by_cases h5 : GetExportedName k = "ModelReplacement".toList
              · rw [if_pos h5] at hs1
                cases hs1
                exact ⟨rfl, rfl⟩
              · rw [if_neg h5] at hs1
                cases hs1
    constructor
    · rw [i1, step.1]
      rfl
    · rw [i2, step.2]
      rfl

theorem ToStruct_rules {σ : Type} (zero : σ) (setString : σ → GoString → GoString → Option σ)
    (rules : List Rule) (ss : List σ) (h : ToStruct zero setString rules = some ss) :
    List.Forall₂ (fun rule s => ToStruct.fill setString zero rule = some s) rules ss := by
  induction rules generalizing ss with
  | nil =>
    simp only [ToStruct, Option.some.injEq] at h
    subst h
    exact List.Forall₂.nil
  | cons r rest ih =>
    simp only [ToStruct] at h
    cases hf : ToStruct.fill setString zero r with
    | none => simp [hf] at h
    | some s =>
      cases hr : ToStruct zero setString rest with
      | none => simp [hf, hr] at h
      | some qs =>
        simp only [hf, hr, Option.some_bind, Option.map_some', Option.some.injEq] at h
        subst h
        exact List.Forall₂.cons hf (ih qs hr)

theorem uaLoop_rules (L : LoadEnv) (ds ps : List UserAgentPattern)
    (h : newFromBytes.uaLoop L ds = some ps) :
    List.Forall₂ (fun d p => ∃ re, L.compile d.Regex = some re ∧
      p = { d with Regexp := re, MatchesCount := 0 }) ds ps := by
  induction ds generalizing ps with
  | nil =>
    simp only [newFromBytes.uaLoop, Option.some.injEq] at h
    subst h
    exact List.Forall₂.nil
  | cons d rest ih =>
    simp only [newFromBytes.uaLoop, mustCompile] at h
    cases hc : L.compile d.Regex with
    | none => simp [hc] at h
    | some re =>
      cases hr : newFromBytes.uaLoop L rest with
      | none => simp [hc, hr] at h
      | some qs =>
        simp only [hc, hr, Option.some_bind, Option.map_some', Option.some.injEq] at h
        subst h
        exact List.Forall₂.cons ⟨re, hc, rfl⟩ (ih qs hr)

theorem osLoop_rules (L : LoadEnv) (ds ps : List OsPattern)
    (h : newFromBytes.osLoop L ds = some ps) :
    List.Forall₂ (fun d p => ∃ re, L.compile d.Regex = some re ∧
      p = { d with Regexp := re }) ds ps := by
  induction ds generalizing ps with
  | nil =>
    simp only [newFromBytes.osLoop, Option.some.injEq] at h
    subst h
    exact List.Forall₂.nil
  | cons d rest ih =>
    simp only [newFromBytes.osLoop, mustCompile] at h
    cases hc : L.compile d.Regex with
    | none => simp [hc] at h
    | some re =>
      cases hr : newFromBytes.osLoop L rest with
      | none => simp [hc, hr] at h
      | some qs =>
        simp only [hc, hr, Option.some_bind, Option.map_some', Option.some.injEq] at h
        subst h
        exact List.Forall₂.cons ⟨re, hc, rfl⟩ (ih qs hr)

theorem dvcLoop_rules (L : LoadEnv) (ds ps : List DevicePattern)
    (h : newFromBytes.dvcLoop L ds = some ps) :
    List.Forall₂ (fun d p => ∃ re,
      ('i' ∈ d.RegexFlag → L.compile ("(?i)".toList ++ d.Regex) = some re) ∧
      ('i' ∉ d.RegexFlag → L.compile d.Regex = some re) ∧
      p = { d with Regexp := re, MatchesCount := 0 }) ds ps := by
  induction ds generalizing ps with
  | nil =>
    simp only [newFromBytes.dvcLoop, Option.some.injEq] at h
    subst h
    exact List.Forall₂.nil
  | cons d rest ih =>
    simp only [newFromBytes.dvcLoop, mustCompile] at h
    cases hc : L.compile (newFromBytes.regexString d) with
    | none => simp [hc] at h
    | some re =>
      cases hr : newFromBytes.dvcLoop L rest with
      | none => simp [hc, hr] at h
      | some qs =>
        simp only [hc, hr, Option.some_bind, Option.map_some', Option.some.injEq] at h
        subst h
        refine List.Forall₂.cons ⟨re, ?_, ?_, rfl⟩ (ih qs hr)
        · intro hi
          unfold newFromBytes.regexString at hc
          simpa [hi] using hc
        · intro hi
          unfold newFromBytes.regexString at hc
          simpa [hi] using hc

/-- Two element-wise relations between lists, one after the other. -/
theorem forall₂_chain {α β γ : Type} (R : α → β → Prop) (S : β → γ → Prop)
    (as : List α) (bs : List β) (cs : List γ)
    (h1 : List.Forall₂ R as bs) (h2 : List.Forall₂ S bs cs) :
    List.Forall₂ (fun a c => ∃ b, R a b ∧ S b c) as cs := by
  induction h1 generalizing cs with
  | nil =>
    cases h2
    exact List.Forall₂.nil
  | cons hab _ ih =>
    cases h2 with
    | cons hbc hrest => exact List.Forall₂.cons ⟨_, hab, hbc⟩ (ih _ hrest)

theorem uaLoop_ok (L : LoadEnv) (ds : List UserAgentPattern)
    (h : ∀ d ∈ ds, (L.compile d.Regex).isSome = true) :
    (newFromBytes.uaLoop L ds).isSome = true := by
  induction ds with
  | nil => rfl
  | cons d rest ih =>
    obtain ⟨re, hre⟩ := Option.isSome_iff_exists.1 (h d (List.mem_cons_self _ _))
    obtain ⟨qs, hqs⟩ := Option.isSome_iff_exists.1
      (ih (fun q hq => h q (List.mem_cons_of_mem _ hq)))
    simp only [newFromBytes.uaLoop, mustCompile, hre, hqs]
    rfl

theorem osLoop_ok (L : LoadEnv) (ds : List OsPattern)
    (h : ∀ d ∈ ds, (L.compile d.Regex).isSome = true) :
    (newFromBytes.osLoop L ds).isSome = true := by
  induction ds with
  | nil => rfl
  | cons d rest ih =>
    obtain ⟨re, hre⟩ := Option.isSome_iff_exists.1 (h d (List.mem_cons_self _ _))
    obtain ⟨qs, hqs⟩ := Option.isSome_iff_exists.1
      (ih (fun q hq => h q (List.mem_cons_of_mem _ hq)))
    simp only [newFromBytes.osLoop, mustCompile, hre, hqs]
    rfl

theorem dvcLoop_ok (L : LoadEnv) (ds : List DevicePattern)
    (h : ∀ d ∈ ds, (L.compile (newFromBytes.regexString d)).isSome = true) :
    (newFromBytes.dvcLoop L ds).isSome = true := by
  induction ds with
  | nil => rfl
  | cons d rest ih =>
    obtain ⟨re, hre⟩ := Option.isSome_iff_exists.1 (h d (List.mem_cons_self _ _))
    obtain ⟨qs, hqs⟩ := Option.isSome_iff_exists.1
      (ih (fun q hq => h q (List.mem_cons_of_mem _ hq)))
    simp only [newFromBytes.dvcLoop, mustCompile, hre, hqs]
    rfl

/-- C16. For a configuration that parses as YAML to the map `m`: in every parser that
`newFromBytes` returns, the device catalog is, rule by rule and in the order of
`m["device_parsers"]`, the struct `d` that `ToStruct` fills from the rule (its `Regex` and
`RegexFlag` are the values of the rule's entries of these exported names), with `Regexp`
set to the expression compiled from `"(?i)"` followed by `d.Regex` when `d.RegexFlag`
contains the character `i` and from exactly `d.Regex` otherwise; the user-agent and the
OS catalog are, rule by rule, the struct filled from the rule with `Regexp` compiled from
its `Regex` unchanged, whatever else the rule holds. Nothing else is compiled: when
`ToStruct` fills the three sections and these sources compile, a parser is returned. -/
theorem newFromBytes_regex_sources (L : LoadEnv) (parser : Parser) (data : Bytes)
    (m : YamlDoc) (hy : L.yamlUnmarshal data = Except.ok m) :
    (∀ P, newFromBytes L parser data = some (Except.ok P) →
      List.Forall₂ (fun rule p => ∃ d re,
          ToStruct.fill DevicePattern.setString DevicePattern.zero rule = some d ∧
          d.Regex = fieldValue "Regex".toList [] rule ∧
          d.RegexFlag = fieldValue "RegexFlag".toList [] rule ∧
          ('i' ∈ d.RegexFlag → L.compile ("(?i)".toList ++ d.Regex) = some re) ∧
          ('i' ∉ d.RegexFlag → L.compile d.Regex = some re) ∧
          p = { d with Regexp := re, MatchesCount := 0 })
        (m "device_parsers".toList) P.DevicePatterns ∧
      List.Forall₂ (fun rule p => ∃ d re,
          ToStruct.fill L.uaSetString UserAgentPattern.zero rule = some d ∧
          L.compile d.Regex = some re ∧
          p = { d with Regexp := re, MatchesCount := 0 })
        (m "user_agent_parsers".toList) P.UserAgentPatterns ∧
      List.Forall₂ (fun rule p => ∃ d re,
          ToStruct.fill L.osSetString OsPattern.zero rule = some d ∧
          L.compile d.Regex = some re ∧
          p = { d with Regexp := re })
        (m "os_parsers".toList) P.OsPatterns) ∧
    (∀ us os ds,
      ToStruct UserAgentPattern.zero L.uaSetString (m "user_agent_parsers".toList) = some us →
      ToStruct OsPattern.zero L.osSetString (m "os_parsers".toList) = some os →
      ToStruct DevicePattern.zero DevicePattern.setString (m "device_parsers".toList)
        = some ds →
      (∀ d ∈ us, (L.compile d.Regex).isSome = true) →
      (∀ d ∈ os, (L.compile d.Regex).isSome = true) →
      (∀ d ∈ ds, (L.compile
        (if 'i' ∈ d.RegexFlag then "(?i)".toList ++ d.Regex else d.Regex)).isSome = true) →
      ∃ P, newFromBytes L parser data = some (Except.ok P)) := by
  constructor
  · intro P h
    obtain ⟨m1, ua, os, dvc, hy1, hua, hos, hdv, hP⟩ := newFromBytes_ok L parser data P h
    rw [hy] at hy1
    cases hy1
    subst hP
    unfold newFromBytes.userAgent at hua
    unfold newFromBytes.os at hos
    unfold newFromBytes.device at hdv
    obtain ⟨s1, t1, l1⟩ := Option.bind_eq_some.1 hua
    obtain ⟨s2, t2, l2⟩ := Option.bind_eq_some.1 hos
    obtain ⟨s3, t3, l3⟩ := Option.bind_eq_some.1 hdv
    refine ⟨?_, ?_, ?_⟩
    · refine List.Forall₂.imp ?_
        (forall₂_chain _ _ _ _ _ (ToStruct_rules _ _ _ _ t3) (dvcLoop_rules L s3 dvc l3))
      rintro rule p ⟨d, hd, re, c1, c2, c3⟩
      obtain ⟨f1, f2⟩ := fill_device_fields rule DevicePattern.zero d hd
      exact ⟨d, re, hd, f1, f2, c1, c2, c3⟩
    · refine List.Forall₂.imp ?_
        (forall₂_chain _ _ _ _ _ (ToStruct_rules _ _ _ _ t1) (uaLoop_rules L s1 ua l1))
      rintro rule p ⟨d, hd, re, c1, c2⟩
      exact ⟨d, re, hd, c1, c2⟩
    · refine List.Forall₂.imp ?_
        (forall₂_chain _ _ _ _ _ (ToStruct_rules _ _ _ _ t2) (osLoop_rules L s2 os l2))
      rintro rule p ⟨d, hd, re, c1, c2⟩
      exact ⟨d, re, hd, c1, c2⟩
  · intro us os ds h1 h2 h3 c1 c2 c3
    have c3a : ∀ d ∈ ds, (L.compile (newFromBytes.regexString d)).isSome = true := by
      intro d hd
      have := c3 d hd
      unfold newFromBytes.regexString
      by_cases hi : 'i' ∈ d.RegexFlag
      · simpa [hi] using this
      · simpa [hi] using this
    obtain ⟨ua, hua⟩ := Option.isSome_iff_exists.1 (uaLoop_ok L us c1)
    obtain ⟨osp, hos⟩ := Option.isSome_iff_exists.1 (osLoop_ok L os c2)
    obtain ⟨dvc, hdv⟩ := Option.isSome_iff_exists.1 (dvcLoop_ok L ds c3a)
    have e1 : newFromBytes.userAgent L m = some ua := by
      unfold newFromBytes.userAgent
      rw [h1]
      exact hua
    have e2 : newFromBytes.os L m = some osp := by
      unfold newFromBytes.os
      rw [h2]
      exact hos
    have e3 : newFromBytes.device L m = some dvc := by
      unfold newFromBytes.device
      rw [h3]
      exact hdv
    refine ⟨{ parser with UserAgentPatterns := ua, OsPatterns := osp, DevicePatterns := dvc },
      ?_⟩
    unfold newFromBytes
    rw [hy]
    simp only [newFromBytes.load]
    rw [e1, e2, e3]
    rfl

/-- C16, witness: the parser loaded from the sample configuration, whose first device
rule has the flag `i` and is compiled from `(?i)iphone`. -/
theorem newFromBytes_regex_sources_witness :
    sampleLoadEnv.yamlUnmarshal [] = Except.ok sampleDoc ∧
    newFromBytes sampleLoadEnv Parser.zero [] = some (Except.ok sampleLoaded) ∧
    List.Forall₂ (fun rule p => ∃ d re,
        ToStruct.fill DevicePattern.setString DevicePattern.zero rule = some d ∧
        d.Regex = fieldValue "Regex".toList [] rule ∧
        d.RegexFlag = fieldValue "RegexFlag".toList [] rule ∧
        ('i' ∈ d.RegexFlag → sampleLoadEnv.compile ("(?i)".toList ++ d.Regex) = some re) ∧
        ('i' ∉ d.RegexFlag → sampleLoadEnv.compile d.Regex = some re) ∧
        p = { d with Regexp := re, MatchesCount := 0 })
      (sampleDoc "device_parsers".toList) sampleLoaded.DevicePatterns ∧
    (sampleLoaded.DevicePatterns.map (fun p => (p.Regex, p.RegexFlag))) =
      [("iphone".toList, "i".toList), ("(.*)".toList, [])] :=
  ⟨rfl, rfl,
    ((newFromBytes_regex_sources sampleLoadEnv Parser.zero [] sampleDoc rfl).1
      sampleLoaded rfl).1,
    by decide⟩

/-! ## C20: the parser built by `NewFromBytes` -/

theorem checkAndSort_noop (E : Env) (T : Tuning) (P : Parser)
    (hu : P.UserAgentMisses < T.missesTreshold) (ho : P.OsMisses < T.missesTreshold)
    (hd : P.DeviceMisses < T.missesTreshold) : checkAndSort E T P = P := by
  have h1 : ¬ P.UserAgentMisses ≥ T.missesTreshold := by omega
  have h2 : ¬ P.OsMisses ≥ T.missesTreshold := by omega
  have h3 : ¬ P.DeviceMisses ≥ T.missesTreshold := by omega
  unfold checkAndSort
  simp only [h1, h2, h3, if_false]

theorem Client_eq_of_fields (c : Client) (h1 : c.UserAgent = none) (h2 : c.Os = none)
    (h3 : c.Device = none) : c = { UserAgent := none, Os := none, Device := none } := by
  cases c
  simp only at h1 h2 h3
  simp [h1, h2, h3]

/-- With no mode bit set and all miss counts below the threshold, `Parse` returns the
empty client and leaves the parser as it is. -/
theorem Parse_mode_zero (E : Env) (T : Tuning) (P : Parser) (line : GoString)
    (hmode : P.Mode = 0) (hu : P.UserAgentMisses < T.missesTreshold)
    (ho : P.OsMisses < T.missesTreshold) (hd : P.DeviceMisses < T.missesTreshold) :
    Parse E T P line = some ({ UserAgent := none, Os := none, Device := none }, P) := by
  have e1 : intAnd EUserAgentLookUpMode P.Mode ≠ EUserAgentLookUpMode := by
    rw [hmode]; decide
  have e2 : intAnd EOsLookUpMode P.Mode ≠ EOsLookUpMode := by
    rw [hmode]; decide
  have e3 : intAnd EDeviceLookUpMode P.Mode ≠ EDeviceLookUpMode := by
    rw [hmode]; decide
  obtain ⟨st, hst, _, u2, _, o2, _, d2⟩ := Parse_lookups_fields E T P line
  obtain ⟨st1, hst1, hcase⟩ := Parse_lookups_state E T P line
  rw [hst] at hst1
  cases hst1
  have hP : st.2 = P := by
    rcases hcase with ⟨_, e⟩ | ⟨h, _⟩
    · rw [e, (afterOs_frame E T P line).2.2.2.2.2 e2,
        (afterUserAgent_frame E T P line).2.2.2.2.2 e1]
    · exact absurd h e3
  rw [Parse_some E T P line st hst, hP, checkAndSort_noop E T P hu ho hd,
    Client_eq_of_fields st.1 (u2 e1) (o2 e2) (d2 e3)]

/-- C20. A parser built by `NewFromBytes` has `Mode` 0 and miss counts 0: for every
configuration that loads successfully, in every reachable state of the package variables
and for every line, `Parse` on that parser returns a client whose `UserAgent`, `Os` and
`Device` are all unset, and leaves the parser, with the order and the match counts of
every catalog and every miss count, as it was. -/
theorem NewFromBytes_parse (L : LoadEnv) (T0 : Tuning) (regexBytes : Bytes) (parser : Parser)
    (hload : (NewFromBytes L T0 regexBytes).2 = some (Except.ok parser))
    (E : Env) (T : Tuning) (hT : T.Reachable) (line : GoString) :
    parser.Mode = 0 ∧
    Parse E T parser line =
      some ({ UserAgent := none, Os := none, Device := none }, parser) := by
  obtain ⟨m, ua, os, dvc, _, _, _, _, hP⟩ :=
    newFromBytes_ok L Parser.zero regexBytes parser hload
  have hpos : 0 < T.missesTreshold := by
    have := (reachable_bounds T hT).1
    have : cMinMissesTreshold = 100000 := rfl
    omega
  have hmode : parser.Mode = 0 := by rw [hP]; rfl
  have hu : parser.UserAgentMisses = 0 := by rw [hP]; rfl
  have ho : parser.OsMisses = 0 := by rw [hP]; rfl
  have hd : parser.DeviceMisses = 0 := by rw [hP]; rfl
  exact ⟨hmode, Parse_mode_zero E T parser line hmode (by rw [hu]; exact hpos)
    (by rw [ho]; exact hpos) (by rw [hd]; exact hpos)⟩

/-- C20, witness: the parser loaded from the sample configuration. -/
theorem NewFromBytes_parse_witness :
    (NewFromBytes sampleLoadEnv Tuning.initial []).2 = some (Except.ok sampleLoaded) ∧
    sampleLoaded.Mode = 0 ∧
    Parse sampleEnv Tuning.initial sampleLoaded "Mozilla Chrome/99".toList =
      some ({ UserAgent := none, Os := none, Device := none }, sampleLoaded) :=
  ⟨rfl, NewFromBytes_parse sampleLoadEnv Tuning.initial [] sampleLoaded rfl sampleEnv
    Tuning.initial Tuning.Reachable.initial "Mozilla Chrome/99".toList⟩

/-! ## C15: `GetExportedName` -/

theorem findAllAlnum_run (cur run : GoString) (h : ∀ d ∈ run, isAlnum d = true) :
    findAllAlnum cur run = if (cur ++ run).isEmpty then [] else [cur ++ run] := by
  induction run generalizing cur with
  | nil => simp [findAllAlnum]
  | cons c cs ih =>
    have hc := h c (List.mem_cons_self _ _)
    simp only [findAllAlnum, hc, if_true]
    rw [ih (cur ++ [c]) (fun d hd => h d (List.mem_cons_of_mem _ hd))]
    simp

theorem findAllAlnum_sep (cur a : GoString) (sep : Char) (b : GoString)
    (hs : isAlnum sep = false) :
    findAllAlnum cur (a ++ sep :: b) = findAllAlnum cur a ++ findAllAlnum [] b := by
  induction a generalizing cur with
  | nil => simp [findAllAlnum, hs]
  | cons x xs ih =>
    rw [List.cons_append, findAllAlnum, findAllAlnum]
    by_cases hx : isAlnum x = true
    · simp only [hx, if_true]
      exact ih _
    · simp only [hx, Bool.false_eq_true, if_false]
      rw [ih [], List.append_assoc]

theorem isSeparator_alnum (c : Char) (h : isAlnum c = true) : isSeparator c = false := by
  simp [isSeparator, h]

theorem bytesTitleFrom_keep (prev : Char) (cs : GoString) (hp : isSeparator prev = false)
    (h : ∀ d ∈ cs, isAlnum d = true) : bytesTitleFrom prev cs = cs := by
  induction cs generalizing prev with
  | nil => rfl
  | cons c rest ih =>
    have hc := h c (List.mem_cons_self _ _)
    simp only [bytesTitleFrom, hp, Bool.false_eq_true, if_false]
    rw [ih c (isSeparator_alnum c hc) (fun d hd => h d (List.mem_cons_of_mem _ hd))]

theorem GetExportedName_run (c : Char) (cs : GoString) (hc : isAlnum c = true)
    (h : ∀ d ∈ cs, isAlnum d = true) : GetExportedName (c :: cs) = toTitle c :: cs := by
  have hall : ∀ d ∈ c :: cs, isAlnum d = true := by
    intro d hd
    rcases List.mem_cons.1 hd with rfl | hd
    · exact hc
    · exact h d hd
  have hsp : isSeparator ' ' = true := by decide
  unfold GetExportedName
  rw [findAllAlnum_run [] (c :: cs) hall]
  simp only [List.nil_append, List.isEmpty_cons, Bool.false_eq_true, if_false, List.map_cons,
    List.map_nil, List.flatten, List.append_nil, bytesTitle, bytesTitleFrom, hsp, if_true]
  rw [bytesTitleFrom_keep c cs (isSeparator_alnum c hc) h]

theorem GetExportedName_sep (a : GoString) (sep : Char) (b : GoString)
    (hs : isAlnum sep = false) :
    GetExportedName (a ++ sep :: b) = GetExportedName a ++ GetExportedName b := by
  unfold GetExportedName
  rw [findAllAlnum_sep [] a sep b hs]
  simp

/-- C15, as the code has it. `GetExportedName` drops every character that is not an
ASCII letter or digit and maps the first character of every remaining run to upper case,
keeping all others as they are: a run `c cs` becomes `toTitle c` followed by `cs`, and a
key with a separator is named by its two parts. Two keys that are runs differing only in
the case of their first letter therefore get the same attribute name, and `ToStruct`
treats an entry under one like the entry under the other. -/
theorem GetExportedName_spec :
    (∀ c cs, isAlnum c = true → (∀ d ∈ cs, isAlnum d = true) →
      GetExportedName (c :: cs) = toTitle c :: cs) ∧
    (∀ a sep b, isAlnum sep = false →
      GetExportedName (a ++ sep :: b) = GetExportedName a ++ GetExportedName b) ∧
    (∀ c1 c2 cs, isAlnum c1 = true → isAlnum c2 = true → (∀ d ∈ cs, isAlnum d = true) →
      toTitle c1 = toTitle c2 → GetExportedName (c1 :: cs) = GetExportedName (c2 :: cs)) ∧
    (∀ (σ : Type) (setString : σ → GoString → GoString → Option σ) (s : σ)
      (k1 k2 value : GoString) (rest : Rule), GetExportedName k1 = GetExportedName k2 →
      ToStruct.fill setString s ((k1, value) :: rest) =
        ToStruct.fill setString s ((k2, value) :: rest)) := by
  refine ⟨GetExportedName_run, GetExportedName_sep, ?_, ?_⟩
  · intro c1 c2 cs h1 h2 h ht
    rw [GetExportedName_run c1 cs h1 h, GetExportedName_run c2 cs h2 h, ht]
  · intro σ setString s k1 k2 value rest hk
    simp only [ToStruct.fill, hk]

/-- C15, witness: the keys `regex` and `Regex` get the same attribute name. -/
theorem GetExportedName_spec_witness :
    GetExportedName "regex".toList = GetExportedName "Regex".toList :=
  GetExportedName_spec.2.2.1 'r' 'R' "egex".toList (by decide) (by decide) (by decide)
    (by decide)

/-- C15, counterexample: the keys `REGEX` and `regex` are equal up to letter case, but
`GetExportedName` names them `REGEX` and `Regex`; on a device rule `ToStruct` sets the
field `Regex` for the key `regex` and panics for the key `REGEX`, which names no
field. -/
theorem GetExportedName_case_counterexample :
    "REGEX".toList.map Char.toLower = "regex".toList.map Char.toLower ∧
    GetExportedName "REGEX".toList = "REGEX".toList ∧
    GetExportedName "regex".toList = "Regex".toList ∧
    (ToStruct DevicePattern.zero DevicePattern.setString
        [[("regex".toList, "Chrome".toList)]]).map (fun ps => ps.map (fun p => p.Regex)) =
      some ["Chrome".toList] ∧
    (ToStruct DevicePattern.zero DevicePattern.setString
        [[("REGEX".toList, "Chrome".toList)]]).isNone = true := by
  decide

end Uaparser
